import Mathlib

/-!
# stathat: a verification development

A shallow embedding of `stathat.go` (the StatHat client for Go) and theorems about it.

* Section 1 embeds the two library calls the shaping code relies on: the conversion
  `float64(count)` and `strconv.FormatFloat(v, 'g', -1, 64)`, and the call
  `strconv.ParseFloat(s, 64)` that reads the text back.
* Section 2 embeds the data shaping code: `statKind`, `apiKind`, `statReport`, the four
  constructors, `values()`, `path()` and `url()`.
* Section 3 embeds the delivery pipeline (`statReportChannel`, the six `Post*` functions,
  `processStats`, `WaitUntilFinished`) as a step function on an explicit world state.
-/

namespace stathat

/-! ## 1. Library model: `float64`, `strconv.FormatFloat` and `strconv.ParseFloat` -/

/-- An IEEE 754 binary64 value, held as its 64-bit pattern (what `math.Float64bits` returns):
bit 63 is the sign, bits 62..52 the biased exponent, bits 51..0 the fraction. -/
structure float64 where
  bits : Nat
deriving DecidableEq, Repr

/-- The position of the highest set bit of `n`, found in at most `fuel` halvings. -/
def highBit : Nat → Nat → Nat
  | 0, _ => 0
  | fuel + 1, n => if n < 2 then 0 else highBit fuel (n / 2) + 1

/-- The conversion `float64(count)` of a Go `int` (64 bits, so `|count| ≤ 2^63`): the nearest
binary64 value, ties to even. An integer of magnitude up to `2^53` is represented exactly. -/
def float64OfInt (count : Int) : float64 :=
  let a := count.natAbs
  if a = 0 then ⟨0⟩
  else
    let sign := if count < 0 then 2 ^ 63 else 0
    let e := highBit 64 a
    if e ≤ 52 then
      ⟨sign + (e + 1023) * 2 ^ 52 + (a * 2 ^ (52 - e) - 2 ^ 52)⟩
    else
      let sh := e - 52
      let q := a / 2 ^ sh
      let r := a % 2 ^ sh
      let half := 2 ^ (sh - 1)
      let q1 := if half < r ∨ (r = half ∧ q % 2 = 1) then q + 1 else q
      ⟨sign + (e + 1023) * 2 ^ 52 + (q1 - 2 ^ 52)⟩

/-- The multi-precision decimal of `strconv/decimal.go`: the digits `d[0..nd)`, most
significant first, and the position `dp` of the decimal point; the value is
`0.d[0]d[1]... * 10^dp`. The field `nd` is the length of `d`. (The `trunc` flag is never
set for a binary64 input, whose exact expansion has at most 767 digits.) -/
structure decimal where
  d : List Char
  dp : Int
deriving DecidableEq, Repr

/-- The number of digits `a.nd`. -/
def decimal.nd (a : decimal) : Nat := a.d.length

/-- The digit `a.d[i]`. -/
def decimal.digit (a : decimal) (i : Nat) : Char := a.d.getD i '0'

/-- Drop the trailing `'0'` characters of a digit list. -/
def trimDigits (ds : List Char) : List Char :=
  (ds.reverse.dropWhile (fun c => c == '0')).reverse

/-- The function `trim` of decimal.go: trailing zeros are removed, and a number left without
digits gets `dp = 0`. -/
def trim (a : decimal) : decimal :=
  let ds := trimDigits a.d
  if ds = [] then ⟨[], 0⟩ else ⟨ds, a.dp⟩

/-- The natural number written by a list of decimal digit characters. -/
def digitsToNat (ds : List Char) : Nat :=
  ds.foldl (fun acc c => acc * 10 + (c.toNat - 48)) 0

/-- The decimal with value `n * 10^e10`, trailing zeros trimmed. -/
def decimalOfScaled (n : Nat) (e10 : Int) : decimal :=
  if n = 0 then ⟨[], 0⟩
  else
    let ds := Nat.toDigits 10 n
    trim ⟨ds, (ds.length : Int) + e10⟩

/-- The method `(*decimal).Assign(v)`: the decimal expansion of the integer `v`. -/
def decimal.Assign (v : Nat) : decimal :=
  decimalOfScaled v 0

/-- The method `(*decimal).Shift(k)`: the receiver multiplied by `2^k`, exactly. The library
performs the multiplication digit by digit in steps of at most 28 bits; the model computes
the same exact product at once (`2^k = 5^(-k) * 10^k` for negative `k`). -/
def decimal.Shift (a : decimal) (k : Int) : decimal :=
  if a.d = [] then a
  else
    let n := digitsToNat a.d
    let e10 := a.dp - (a.nd : Int)
    if 0 ≤ k then decimalOfScaled (n * 2 ^ k.toNat) e10
    else decimalOfScaled (n * 5 ^ (-k).toNat) (e10 + k)

/-- The method `(*decimal).RoundDown(nd)`. -/
def decimal.RoundDown (a : decimal) (nd : Int) : decimal :=
  if nd < 0 ∨ (a.nd : Int) ≤ nd then a
  else trim ⟨a.d.take nd.toNat, a.dp⟩

/-- The loop of `(*decimal).RoundUp(nd)`: scanning `i` from `fuel - 1` down to `0`, the first
digit below `'9'` is incremented and the number cut after it; `none` when every digit is `'9'`. -/
def roundUpLoop (ds : List Char) : Nat → Option (List Char)
  | 0 => none
  | i + 1 =>
    let c := ds.getD i '0'
    if c.toNat < '9'.toNat then some (ds.take i ++ [Char.ofNat (c.toNat + 1)])
    else roundUpLoop ds i

/-- The method `(*decimal).RoundUp(nd)`. -/
def decimal.RoundUp (a : decimal) (nd : Int) : decimal :=
  if nd < 0 ∨ (a.nd : Int) ≤ nd then a
  else
    match roundUpLoop a.d nd.toNat with
    | some ds => ⟨ds, a.dp⟩
    | none => ⟨['1'], a.dp + 1⟩

/-- The function `shouldRoundUp(a, nd)` of decimal.go (with `a.trunc = false`). -/
def shouldRoundUp (a : decimal) (nd : Int) : Bool :=
  if nd < 0 ∨ (a.nd : Int) ≤ nd then false
  else
    let i := nd.toNat
    if a.digit i = '5' ∧ i + 1 = a.nd then
      decide (0 < i ∧ ((a.digit (i - 1)).toNat - 48) % 2 ≠ 0)
    else decide ('5'.toNat ≤ (a.digit i).toNat)

/-- The method `(*decimal).Round(nd)`. -/
def decimal.Round (a : decimal) (nd : Int) : decimal :=
  if nd < 0 ∨ (a.nd : Int) ≤ nd then a
  else if shouldRoundUp a nd then a.RoundUp nd
  else a.RoundDown nd

/-- The digit loop of `roundShortest` (ftoa.go): walk the digits of `d`, `lower` and `upper`
until `d` can be cut, rounding down, up or to the nearest within the bounds. -/
def roundShortestLoop (d upper lower : decimal) (inclusive : Bool) :
    Nat → Nat → Nat → decimal
  | 0, _, _ => d
  | fuel + 1, ui, upperdelta =>
    let mi : Int := (ui : Int) - upper.dp + d.dp
    if (d.nd : Int) ≤ mi then d
    else
      let li : Int := (ui : Int) - upper.dp + lower.dp
      let l := if 0 ≤ li ∧ li < (lower.nd : Int) then lower.digit li.toNat else '0'
      let m := if 0 ≤ mi then d.digit mi.toNat else '0'
      let u := if ui < upper.nd then upper.digit ui else '0'
      let okdown : Bool := l != m || (inclusive && li + 1 == (lower.nd : Int))
      let upperdelta1 : Nat :=
        if upperdelta = 0 ∧ m.toNat + 1 < u.toNat then 2
        else if upperdelta = 0 ∧ m ≠ u then 1
        else if upperdelta = 1 ∧ (m ≠ '9' ∨ u ≠ '0') then 2
        else upperdelta
      let okup : Bool :=
        decide (0 < upperdelta1) && (inclusive || decide (1 < upperdelta1)
          || decide (ui + 1 < upper.nd))
      if okdown && okup then d.Round (mi + 1)
      else if okdown then d.RoundDown (mi + 1)
      else if okup then d.RoundUp (mi + 1)
      else roundShortestLoop d upper lower inclusive fuel (ui + 1) upperdelta1

/-- The function `roundShortest(d, mant, exp, flt)` of ftoa.go for `flt = &float64info`
(`mantbits = 52`, `bias = -1023`): round `d`, the exact expansion of `mant * 2^(exp - 52)`,
to the shortest decimal that still reads back as the same binary64 value. -/
def roundShortest (d : decimal) (mant : Nat) (exp : Int) : decimal :=
  if mant = 0 then ⟨[], d.dp⟩
  else
    let minexp : Int := -1023 + 1
    if minexp < exp ∧ 100 * (exp - 52) ≤ 332 * (d.dp - (d.nd : Int)) then d
    else
      let upper := (decimal.Assign (mant * 2 + 1)).Shift (exp - 52 - 1)
      let mantlo : Nat := if 2 ^ 52 < mant ∨ exp = minexp then mant - 1 else mant * 2 - 1
      let explo : Int := if 2 ^ 52 < mant ∨ exp = minexp then exp else exp - 1
      let lower := (decimal.Assign (mantlo * 2 + 1)).Shift (explo - 52 - 1)
      let inclusive : Bool := mant % 2 == 0
      roundShortestLoop d upper lower inclusive
        (d.nd + (upper.dp - d.dp).toNat + 1) 0 0

/-- The function `fmtF(dst, neg, d, prec)` of ftoa.go (`%f`: `-ddddddd.ddddd`). -/
def fmtF (neg : Bool) (d : decimal) (prec : Nat) : List Char :=
  (if neg then ['-'] else [])
  ++ (if 0 < d.dp then
        d.d.take (min d.nd d.dp.toNat) ++ List.replicate (d.dp.toNat - min d.nd d.dp.toNat) '0'
      else ['0'])
  ++ (if 0 < prec then
        '.' :: (List.range prec).map (fun i =>
          let j : Int := d.dp + (i : Int)
          if 0 ≤ j ∧ j < (d.nd : Int) then d.digit j.toNat else '0')
      else [])

/-- The function `fmtE(dst, neg, d, prec, fmt)` of ftoa.go (`%e`: `-d.ddddde±dd`). -/
def fmtE (neg : Bool) (d : decimal) (prec : Int) (fmt : Char) : List Char :=
  let exp : Int := if d.nd = 0 then 0 else d.dp - 1
  let e : Nat := exp.natAbs
  (if neg then ['-'] else [])
  ++ [if d.nd ≠ 0 then d.digit 0 else '0']
  ++ (if 0 < prec then
        let m := min d.nd (prec.toNat + 1)
        '.' :: ((d.d.take m).drop 1 ++ List.replicate (prec.toNat + 1 - max m 1) '0')
      else [])
  ++ [fmt, if exp < 0 then '-' else '+']
  ++ (if e < 10 then ['0', Char.ofNat (e + 48)]
      else if e < 100 then [Char.ofNat (e / 10 + 48), Char.ofNat (e % 10 + 48)]
      else [Char.ofNat (e / 100 + 48), Char.ofNat (e / 10 % 10 + 48), Char.ofNat (e % 10 + 48)])

/-- The `'g'` case of `formatDigits(dst, shortest, neg, digs, prec, fmt)` of ftoa.go with
`shortest = true` and `prec = digs.nd`: `%e` is used when the decimal exponent is below `-4`
or at least `eprec = 6`, and `%f` otherwise. -/
def formatDigitsG (neg : Bool) (digs : decimal) : List Char :=
  let prec : Int := digs.nd
  let eprec : Int := 6
  let exp : Int := digs.dp - 1
  if exp < -4 ∨ eprec ≤ exp then
    fmtE neg digs (prec - 1) 'e'
  else
    fmtF neg digs (prec - digs.dp).toNat

/-- The call `strconv.FormatFloat(val, 'g', -1, 64)`: `genericFtoa` decodes the bit pattern,
names the special values, and otherwise formats the shortest digits. The model follows the
multi-precision path of the library (`bigFtoa`: `Assign`, `Shift`, `roundShortest`,
`formatDigits`), whose digits the fast path of the library reproduces. -/
def FormatFloat (val : float64) : String :=
  let bits : Nat := val.bits % 2 ^ 64
  let neg : Bool := bits / 2 ^ 63 != 0
  let exp : Nat := bits / 2 ^ 52 % 2 ^ 11
  let mant : Nat := bits % 2 ^ 52
  if exp = 2 ^ 11 - 1 then
    if mant ≠ 0 then "NaN" else if neg then "-Inf" else "+Inf"
  else
    let exp1 : Int := (if exp = 0 then (1 : Int) else (exp : Int)) + -1023
    let mant1 : Nat := if exp = 0 then mant else mant + 2 ^ 52
    let d := (decimal.Assign mant1).Shift (exp1 - 52)
    String.mk (formatDigitsG neg (roundShortest d mant1 exp1))

/-- The leading run of decimal digits of a text, and the rest. -/
def takeDigits : List Char → List Char × List Char
  | [] => ([], [])
  | c :: cs => if c.isDigit then (c :: (takeDigits cs).1, (takeDigits cs).2) else ([], c :: cs)

/-- An optional sign: whether it is `'-'`, and the rest. -/
def readSign : List Char → Bool × List Char
  | '-' :: r => (true, r)
  | '+' :: r => (false, r)
  | s => (false, s)

/-- An optional fraction: the digits after a decimal point, and the rest. -/
def readFraction : List Char → List Char × List Char
  | '.' :: r => takeDigits r
  | r => ([], r)

/-- An optional exponent that ends the text: `e` or `E`, an optional sign and at least one
digit; `none` for anything else. -/
def readExponent : List Char → Option Int
  | [] => some 0
  | c :: r =>
    if c = 'e' ∨ c = 'E' then
      let es := readSign r
      let ed := takeDigits es.2
      if ed.1 = [] ∨ ed.2 ≠ [] then none
      else some (if es.1 then -(digitsToNat ed.1 : Int) else (digitsToNat ed.1 : Int))
    else none

/-- The decimal syntax read by `readFloat` of atof.go: an optional sign, digits with an
optional point, and an optional exponent `e` or `E` with optional sign. The result is the
sign, the digits read as an integer `n`, and the power of ten `e10`: the text denotes
`n * 10^e10`. (Infinities, NaN, hexadecimal and underscores are not modelled: `FormatFloat`
with `'g'` writes none of them for a finite value.) -/
def readFloat (s : List Char) : Option (Bool × Nat × Int) :=
  let sg := readSign s
  let ip := takeDigits sg.2
  let fp := readFraction ip.2
  if ip.1 ++ fp.1 = [] then none
  else
    match readExponent fp.2 with
    | none => none
    | some e => some (sg.1, digitsToNat (ip.1 ++ fp.1), e - (fp.1.length : Int))

/-- Rounding to the nearest integer, a tie going to the even one. -/
def roundHalfEven (y : ℚ) : Int :=
  let f := ⌊y⌋
  if y - f < 1 / 2 then f
  else if 1 / 2 < y - f then f + 1
  else if f % 2 = 0 then f
  else f + 1

/-- The binary64 value nearest to the rational `x ≥ 0`, ties to even (IEEE 754
round-to-nearest-even), with the given sign; `none` when the result is out of range. The
unit in the last place is `2^E` with `E = max (⌊log₂ x⌋ - 52) (-1074)`, and the bit pattern of
`m * 2^E` is `(E + 1074) * 2^52 + m`, also when `m` has been rounded up to `2^53`. -/
def float64OfRat (neg : Bool) (x : ℚ) : Option float64 :=
  let sign : Nat := if neg then 2 ^ 63 else 0
  if x ≤ 0 then some ⟨sign⟩
  else
    let E : Int := max (Int.log 2 x - 52) (-1074)
    let m : Int := roundHalfEven (x / 2 ^ E)
    let bits : Int := (E + 1074) * 2 ^ 52 + m
    if bits < 2047 * 2 ^ 52 then some ⟨sign + bits.toNat⟩ else none

/-- The call `strconv.ParseFloat(s, 64)` on decimal syntax: the value read, correctly
rounded; `none` stands for a non-nil error (a syntax error, or a value out of range). -/
def ParseFloat (s : String) : Option float64 :=
  match readFloat s.data with
  | none => none
  | some (neg, n, e10) => float64OfRat neg ((n : ℚ) * 10 ^ e10)

/-- A bit pattern of 64 bits that is neither an infinity nor a NaN. -/
def float64.isFinite (v : float64) : Prop :=
  v.bits < 2 ^ 64 ∧ v.bits / 2 ^ 52 % 2 ^ 11 ≠ 2 ^ 11 - 1

instance (v : float64) : Decidable v.isFinite := by
  unfold float64.isFinite
  infer_instance

/-! ## 2. Reports, parameters and URLs -/

/-- The type `statKind` (`type statKind int`). -/
structure statKind where
  n : Int
deriving DecidableEq, Repr

/-- The constant `COUNTER` (`iota` is 1 on its line). -/
def COUNTER : statKind := ⟨1⟩

/-- The constant `VALUE`. -/
def VALUE : statKind := ⟨2⟩

/-- The method `statKind.classicPath`. -/
def statKind.classicPath (sk : statKind) : String :=
  if sk = COUNTER then "/c"
  else if sk = VALUE then "/v"
  else ""

/-- The type `apiKind` (`type apiKind int`). -/
structure apiKind where
  n : Int
deriving DecidableEq, Repr

/-- The constant `CLASSIC`. -/
def CLASSIC : apiKind := ⟨1⟩

/-- The constant `EZ`. -/
def EZ : apiKind := ⟨2⟩

/-- The constant `hostname`. -/
def hostname : String := "api.stathat.com"

/-- The method `apiKind.path`. -/
def apiKind.path (ak : apiKind) (sk : statKind) : String :=
  if ak = EZ then "/ez"
  else if ak = CLASSIC then sk.classicPath
  else ""

/-- The struct `statReport`. -/
structure statReport where
  StatKey : String
  UserKey : String
  Value : float64
  statType : statKind
  apiType : apiKind
deriving DecidableEq, Repr

/-- The type `url.Values` (`map[string][]string`): an association list with one entry per
key. A nil map is `none` of `Option Values`. -/
abbrev Values := List (String × List String)

/-- The method `url.Values.Set`: `v[key] = []string{value}`. -/
def Values.Set (v : Values) (key value : String) : Values :=
  (key, [value]) :: v.filter (fun kv => kv.1 != key)

/-- The method `url.Values.Get`: the first value stored under `key`, or `""`; a nil map
has no values. -/
def Values.Get (v : Option Values) (key : String) : String :=
  match v with
  | none => ""
  | some m =>
    match m.lookup key with
    | some (x :: _) => x
    | _ => ""

/-- The keys of a map. -/
def Values.keys (v : Values) : List String := v.map Prod.fst

/-- The struct `testPost`. -/
structure testPost where
  url : String
  values : Option Values
deriving DecidableEq, Repr

/-- The function `newEZStatCount`. -/
def newEZStatCount (statName ezkey : String) (count : Int) : statReport :=
  { StatKey := statName, UserKey := ezkey, Value := float64OfInt count,
    statType := COUNTER, apiType := EZ }

/-- The function `newEZStatValue`. -/
def newEZStatValue (statName ezkey : String) (value : float64) : statReport :=
  { StatKey := statName, UserKey := ezkey, Value := value,
    statType := VALUE, apiType := EZ }

/-- The function `newClassicStatCount`. -/
def newClassicStatCount (statKey userKey : String) (count : Int) : statReport :=
  { StatKey := statKey, UserKey := userKey, Value := float64OfInt count,
    statType := COUNTER, apiType := CLASSIC }

/-- The function `newClassicStatValue`. -/
def newClassicStatValue (statKey userKey : String) (value : float64) : statReport :=
  { StatKey := statKey, UserKey := userKey, Value := value,
    statType := VALUE, apiType := CLASSIC }

/-- The method `statReport.valueString`. -/
def statReport.valueString (sr : statReport) : String :=
  FormatFloat sr.Value

/-- The method `statReport.ezCommonValues`. -/
def statReport.ezCommonValues (sr : statReport) : Values :=
  (Values.Set [] "stat" sr.StatKey).Set "ezkey" sr.UserKey

/-- The method `statReport.classicCommonValues`. -/
def statReport.classicCommonValues (sr : statReport) : Values :=
  (Values.Set [] "key" sr.StatKey).Set "ukey" sr.UserKey

/-- The method `statReport.ezCounterValues`. -/
def statReport.ezCounterValues (sr : statReport) : Values :=
  sr.ezCommonValues.Set "count" sr.valueString

/-- The method `statReport.ezValueValues`. -/
def statReport.ezValueValues (sr : statReport) : Values :=
  sr.ezCommonValues.Set "value" sr.valueString

/-- The method `statReport.classicCounterValues`. -/
def statReport.classicCounterValues (sr : statReport) : Values :=
  sr.classicCommonValues.Set "count" sr.valueString

/-- The method `statReport.classicValueValues`. -/
def statReport.classicValueValues (sr : statReport) : Values :=
  sr.classicCommonValues.Set "value" sr.valueString

/-- The method `statReport.ezValues`. -/
def statReport.ezValues (sr : statReport) : Option Values :=
  if sr.statType = COUNTER then some sr.ezCounterValues
  else if sr.statType = VALUE then some sr.ezValueValues
  else none

/-- The method `statReport.classicValues`. -/
def statReport.classicValues (sr : statReport) : Option Values :=
  if sr.statType = COUNTER then some sr.classicCounterValues
  else if sr.statType = VALUE then some sr.classicValueValues
  else none

/-- The method `statReport.values`. -/
def statReport.values (sr : statReport) : Option Values :=
  if sr.apiType = EZ then sr.ezValues
  else if sr.apiType = CLASSIC then sr.classicValues
  else none

/-- The method `statReport.path`. -/
def statReport.path (sr : statReport) : String :=
  sr.apiType.path sr.statType

/-- The method `statReport.url`: `fmt.Sprintf("http://%s%s", hostname, sr.path())`. -/
def statReport.url (sr : statReport) : String :=
  "http://" ++ hostname ++ sr.path

/-! ## 3. The delivery pipeline -/

/-- A Go channel: the buffered elements (oldest first), the capacity given to `make`, and
whether `close` has been called. -/
structure Chan (α : Type) where
  buf : List α
  cap : Nat
  closed : Bool
deriving DecidableEq, Repr

/-- What a send statement `c <- v` does. -/
inductive SendResult (α : Type) where
  | sent (c : Chan α)
  | blocked
  | panicClosed
deriving DecidableEq, Repr

/-- The send statement `c <- v`: a send on a closed channel panics; with room in the buffer
the value is appended; a full buffer blocks the sender. -/
def Chan.send {α : Type} (c : Chan α) (v : α) : SendResult α :=
  if c.closed then .panicClosed
  else if c.buf.length < c.cap then .sent { c with buf := c.buf ++ [v] }
  else .blocked

/-- What a receive `v, ok := <-c` does. -/
inductive RecvResult (α : Type) where
  | value (v : α) (c : Chan α)
  | closedEmpty
  | blocked
deriving DecidableEq, Repr

/-- The receive `v, ok := <-c`: the oldest buffered value with `ok = true`; on an empty
buffer, `ok = false` once the channel is closed, and a blocked receiver before that. -/
def Chan.recv {α : Type} (c : Chan α) : RecvResult α :=
  match c.buf with
  | v :: rest => .value v { c with buf := rest }
  | [] => if c.closed then .closedEmpty else .blocked

/-- The statement `close(c)`; `none` is the panic "close of closed channel". -/
def Chan.close {α : Type} (c : Chan α) : Option (Chan α) :=
  if c.closed then none else some { c with closed := true }

/-- Where the goroutine `processStats` stands: at its receive from `statReportChannel`, at its
send on the unbuffered `testPostChannel`, at its send on the unbuffered `done`, or past the
`break` that ends the loop. -/
inductive dispatcherState where
  | receiving
  | sendingTestPost (p : testPost)
  | sendingDone
  | finished
deriving DecidableEq, Repr

/-- Where a call of `WaitUntilFinished` stands: not made, at its `select`, or returned. -/
inductive waiterState where
  | idle
  | selecting
  | returned (result : Bool)
deriving DecidableEq, Repr

/-- A line written by `log.Printf`, by call site. -/
inductive logLine where
  | posting (url : String) (values : Option Values)
  | postError (err : String)
  | postResult (body : String)
deriving DecidableEq, Repr

/-- The package state and its observers: the globals `statReportChannel`, `testingEnv` and
`Verbose`, the two goroutines' positions, the values the test has received from
`testPostChannel`, the calls made to `http.PostForm`, and the log. -/
structure World where
  statReportChannel : Chan statReport
  testingEnv : Bool
  Verbose : Bool
  dispatcher : dispatcherState
  waiter : waiterState
  testPosts : List testPost
  httpPosts : List testPost
  log : List logLine
deriving DecidableEq, Repr

/-- The function `init`: the queue of capacity 100000 and the goroutine `processStats`. -/
def init : World :=
  { statReportChannel := { buf := [], cap := 100000, closed := false },
    testingEnv := false, Verbose := false,
    dispatcher := .receiving, waiter := .idle,
    testPosts := [], httpPosts := [], log := [] }

/-- The function `setTesting`. -/
def setTesting (w : World) : World :=
  { w with testingEnv := true }

/-- The assignment `Verbose = v`. -/
def setVerbose (v : Bool) (w : World) : World :=
  { w with Verbose := v }

/-- The Go type `error`; `none` is `nil`. -/
abbrev error := Option String

/-- How a call into the package ends in a given world: it returns, it cannot proceed yet
(a blocked channel operation), or it panics. -/
inductive Outcome where
  | returned (err : error) (w : World)
  | blocked
  | panicked (msg : String) (w : World)
deriving DecidableEq, Repr

/-- The body shared by the producers: `statReportChannel <- sr; return nil`. -/
def enqueue (sr : statReport) (w : World) : Outcome :=
  match w.statReportChannel.send sr with
  | .sent c => .returned none { w with statReportChannel := c }
  | .blocked => .blocked
  | .panicClosed => .panicked "send on closed channel" w

/-- The function `PostCount`. -/
def PostCount (statKey userKey : String) (count : Int) (w : World) : Outcome :=
  enqueue (newClassicStatCount statKey userKey count) w

/-- The function `PostCountOne`. -/
def PostCountOne (statKey userKey : String) (w : World) : Outcome :=
  PostCount statKey userKey 1 w

/-- The function `PostValue`. -/
def PostValue (statKey userKey : String) (value : float64) (w : World) : Outcome :=
  enqueue (newClassicStatValue statKey userKey value) w

/-- The function `PostEZCount`. -/
def PostEZCount (statName ezkey : String) (count : Int) (w : World) : Outcome :=
  enqueue (newEZStatCount statName ezkey count) w

/-- The function `PostEZCountOne`. -/
def PostEZCountOne (statName ezkey : String) (w : World) : Outcome :=
  PostEZCount statName ezkey 1 w

/-- The function `PostEZValue`. -/
def PostEZValue (statName ezkey : String) (value : float64) (w : World) : Outcome :=
  enqueue (newEZStatValue statName ezkey value) w

/-- The transport `http.PostForm`, as a parameter: from the calls made before and the url
and values of this call, an error or the body of the response. -/
abbrev Transport := List testPost → String → Option Values → Except String String

/-- One iteration of the loop of `processStats`, from its receive up to its next channel
operation; `none` when the goroutine is blocked or has returned. -/
def processStats (post : Transport) (w : World) : Option World :=
  match w.dispatcher with
  | .receiving =>
    match w.statReportChannel.recv with
    | .blocked => none
    | .closedEmpty => some { w with dispatcher := .sendingDone }
    | .value sr c =>
      let w1 : World := { w with statReportChannel := c }
      let w2 : World := if w1.Verbose then
        { w1 with log := w1.log ++ [logLine.posting sr.url sr.values] } else w1
      if w2.testingEnv then
        some { w2 with dispatcher := dispatcherState.sendingTestPost (testPost.mk sr.url sr.values) }
      else
        let w3 : World := { w2 with httpPosts := w2.httpPosts ++ [testPost.mk sr.url sr.values] }
        match post w2.httpPosts sr.url sr.values with
        | .error err => some { w3 with log := w3.log ++ [logLine.postError err] }
        | .ok body =>
          some (if w3.Verbose then { w3 with log := w3.log ++ [logLine.postResult body] } else w3)
  | _ => none

/-- The test's receive `p := <-testPostChannel`, which completes the dispatcher's send. -/
def receiveTestPost (w : World) : Option World :=
  match w.dispatcher with
  | .sendingTestPost p => some { w with testPosts := w.testPosts ++ [p], dispatcher := .receiving }
  | _ => none

/-- One step of the whole program: a producer call, a step of `processStats`, the test's
receive, or a part of `WaitUntilFinished` (its `close`, and the two cases of its `select`). -/
inductive Event where
  | PostCount (statKey userKey : String) (count : Int)
  | PostCountOne (statKey userKey : String)
  | PostValue (statKey userKey : String) (value : float64)
  | PostEZCount (statName ezkey : String) (count : Int)
  | PostEZCountOne (statName ezkey : String)
  | PostEZValue (statName ezkey : String) (value : float64)
  | dispatch
  | testReceive
  | waitClose
  | waitDone
  | waitTimeout
deriving DecidableEq, Repr

/-- How a step ends: in a new world, not at all (the event is not enabled), or in a panic,
which ends the process. -/
inductive StepResult where
  | ok (w : World)
  | disabled
  | panic (msg : String)
deriving DecidableEq, Repr

/-- A producer call as a step. -/
def Outcome.toStep : Outcome → StepResult
  | .returned _ w => .ok w
  | .blocked => .disabled
  | .panicked msg _ => .panic msg

/-- A goroutine step as a step. -/
def stepOfOption : Option World → StepResult
  | some w => .ok w
  | none => .disabled

/-- The first statement of `WaitUntilFinished`: `close(statReportChannel)`. -/
def closeQueue (w : World) : StepResult :=
  match w.statReportChannel.close with
  | none => .panic "close of closed channel"
  | some c => .ok { w with statReportChannel := c, waiter := .selecting }

/-- The case `<-done` of the `select` in `WaitUntilFinished`: enabled while `processStats`
is at `done <- true`; the call returns `true` and `processStats` reaches its `break`. -/
def selectDone (w : World) : StepResult :=
  if w.waiter = .selecting ∧ w.dispatcher = .sendingDone then
    .ok { w with waiter := .returned true, dispatcher := .finished }
  else .disabled

/-- The case `<-time.After(timeout)` of the `select` in `WaitUntilFinished`: the call
returns `false`. -/
def selectTimeout (w : World) : StepResult :=
  if w.waiter = .selecting then .ok { w with waiter := .returned false }
  else .disabled

/-- The step function of the program. -/
def step (post : Transport) (w : World) : Event → StepResult
  | .PostCount k u c => (PostCount k u c w).toStep
  | .PostCountOne k u => (PostCountOne k u w).toStep
  | .PostValue k u v => (PostValue k u v w).toStep
  | .PostEZCount k u c => (PostEZCount k u c w).toStep
  | .PostEZCountOne k u => (PostEZCountOne k u w).toStep
  | .PostEZValue k u v => (PostEZValue k u v w).toStep
  | .dispatch => stepOfOption (processStats post w)
  | .testReceive => stepOfOption (receiveTestPost w)
  | .waitClose => closeQueue w
  | .waitDone => selectDone w
  | .waitTimeout => selectTimeout w

/-- A schedule run from a world; the run stops at the first step that is not `ok`. -/
def run (post : Transport) : World → List Event → StepResult
  | w, [] => .ok w
  | w, ev :: evs =>
    match step post w ev with
    | .ok w1 => run post w1 evs
    | r => r

/-- The case of the `select` in `WaitUntilFinished` that fires. -/
inductive selectCase where
  | done
  | timeout
deriving DecidableEq, Repr

/-- The select case as a step of the program. -/
def selectCase.event : selectCase → Event
  | .done => .waitDone
  | .timeout => .waitTimeout

/-- How a call of `WaitUntilFinished` ends: with its boolean result, not at all (its select
case cannot fire), or in a panic. -/
inductive WaitOutcome where
  | returned (result : Bool) (w : World)
  | blocked
  | panicked (msg : String)
deriving DecidableEq, Repr

/-- The function `WaitUntilFinished`: `close(statReportChannel)`, then the `select`, which
returns `true` by its case `<-done` and `false` by its case `<-time.After(timeout)`. The steps
`during` are those the rest of the program takes between the close and the select case
`fired`. -/
def WaitUntilFinished (post : Transport) (during : List Event) (fired : selectCase)
    (w : World) : WaitOutcome :=
  match closeQueue w with
  | .panic msg => .panicked msg
  | .disabled => .blocked
  | .ok w1 =>
    match run post w1 during with
    | .panic msg => .panicked msg
    | .disabled => .blocked
    | .ok w2 =>
      match fired with
      | .done =>
        match selectDone w2 with
        | .ok w3 => .returned true w3
        | .disabled => .blocked
        | .panic msg => .panicked msg
      | .timeout =>
        match selectTimeout w2 with
        | .ok w3 => .returned false w3
        | .disabled => .blocked
        | .panic msg => .panicked msg

/-- The report a producer event builds. -/
def Event.report : Event → Option statReport
  | .PostCount k u c => some (newClassicStatCount k u c)
  | .PostCountOne k u => some (newClassicStatCount k u 1)
  | .PostValue k u v => some (newClassicStatValue k u v)
  | .PostEZCount k u c => some (newEZStatCount k u c)
  | .PostEZCountOne k u => some (newEZStatCount k u 1)
  | .PostEZValue k u v => some (newEZStatValue k u v)
  | _ => none

/-- The reports enqueued by a schedule, in order (in a run that is `ok`, every producer
call of the schedule has returned). -/
def enqueuedReports (evs : List Event) : List statReport :=
  evs.filterMap Event.report

/-- What the dispatcher hands over for a report: `&testPost{sr.url(), sr.values()}` in test
mode, the arguments of `http.PostForm` otherwise. -/
def delivery (sr : statReport) : testPost :=
  ⟨sr.url, sr.values⟩

/-- The test post the dispatcher is in the middle of sending, if any. -/
def dispatcherState.inFlight : dispatcherState → List testPost
  | .sendingTestPost p => [p]
  | _ => []

/-- Everything the dispatcher has handed to the test sink or to the transport so far. -/
def World.handedOver (w : World) : List testPost :=
  w.testPosts ++ w.dispatcher.inFlight ++ w.httpPosts

/-- The dispatcher has signalled (or is signalling) completion: the state DRAINED. -/
def dispatcherState.drained : dispatcherState → Bool
  | .sendingDone => true
  | .finished => true
  | _ => false

/-- The schedule that lets the dispatcher work through `n` queued reports: in test mode
every iteration is followed by the test's receive. -/
def drainSchedule (testing : Bool) : Nat → List Event
  | 0 => []
  | n + 1 =>
    (if testing then [Event.dispatch, Event.testReceive] else [Event.dispatch])
      ++ drainSchedule testing n

/-- The map `m` is not nil and holds exactly the keys of `entries`, each with exactly the
one value given there, and no other key. -/
def Values.holdsExactly (m : Option Values) (entries : List (String × String)) : Prop :=
  ∃ v, m = some v ∧ v.keys.Nodup ∧ v.keys.length = entries.length ∧
    ∀ key, v.lookup key = (entries.lookup key).map (fun x => [x])

/-- The binary64 value of the Go literal `2.13`. -/
def lit_2_13 : float64 := ⟨0x40010A3D70A3D70A⟩

/-- The world in which a program starts: `init`, then `setTesting()` in a test, then the
assignment to `Verbose`. -/
def start (testing verbose : Bool) : World :=
  setVerbose verbose (if testing then setTesting init else init)

/-- The world after `WaitUntilFinished` has closed the queue of a fresh program. -/
def closedWorld : World :=
  { init with statReportChannel := { buf := [], cap := 100000, closed := true },
              waiter := .selecting }

/-- A transport that fails on every call. -/
def refusing : Transport := fun _ _ _ => .error "connection refused"

/-- The invariant of the pipeline, for the reports `posted` enqueued so far: what has been
handed over followed by what is still queued is the deliveries of `posted`, in order; test
mode never calls the transport and the other mode never feeds the test sink; a drained
dispatcher has seen the queue closed and empty; and `WaitUntilFinished` has returned `true`
only after the dispatcher left its loop. -/
structure Inv (posted : List statReport) (w : World) : Prop where
  fifo : w.handedOver ++ w.statReportChannel.buf.map delivery = posted.map delivery
  mode : w.testingEnv = true → w.httpPosts = []
  nomode : w.testingEnv = false → w.testPosts = [] ∧ w.dispatcher.inFlight = []
  drained : w.dispatcher.drained = true →
    w.statReportChannel.closed = true ∧ w.statReportChannel.buf = []
  returned : w.waiter = .returned true → w.dispatcher = .finished

/-- The world a schedule leads to, or `init` when the run does not succeed. -/
def worldAfter (post : Transport) (w : World) (evs : List Event) : World :=
  match run post w evs with
  | .ok w1 => w1
  | _ => init

/-- A schedule of a test: two producer calls and one iteration of the dispatcher. -/
def sampleTestSchedule : List Event :=
  [.PostCountOne "statkey" "userkey", .PostCount "statkey" "userkey" 13, .dispatch]

/-- A schedule of a program: one producer call. -/
def samplePostSchedule : List Event :=
  [.PostCountOne "statkey" "userkey"]

/-- A schedule of a program: one producer call, then `WaitUntilFinished` while the
dispatcher drains the queue. -/
def sampleDrainSchedule : List Event :=
  [.PostCountOne "statkey" "userkey", .waitClose, .dispatch, .dispatch, .waitDone]

/-- A world outside test mode with two reports queued. -/
def twoQueued : World :=
  { init with statReportChannel :=
      { buf := [newClassicStatCount "statkey" "userkey" 1,
                newEZStatValue "a stat" "pc@pc.com" lit_2_13],
        cap := 100000, closed := false } }

/-- The world after `WaitUntilFinished` has closed the queue of a fresh program and the
dispatcher has seen it closed and empty. -/
def closedSeenWorld : World :=
  { closedWorld with dispatcher := .sendingDone }

/-- The transport that always succeeds with an empty body. -/
def accepting : Transport := fun _ _ _ => .ok ""

/-- The zero value of `statReport`: empty keys, `+0`, and both kinds `0`. -/
def zeroReport : statReport :=
  { StatKey := "", UserKey := "", Value := ⟨0⟩, statType := ⟨0⟩, apiType := ⟨0⟩ }

/-- An EZ report whose kind is none of the declared constants. -/
def ezReportOfUnknownKind : statReport :=
  { StatKey := "abc", UserKey := "pc@pc.com", Value := ⟨0⟩, statType := ⟨0⟩, apiType := EZ }

/-- The world after a first call of `WaitUntilFinished` on a fresh program has returned
`true`. -/
def finishedWorld : World :=
  { closedWorld with dispatcher := .finished, waiter := .returned true }

/-! ### Notions for the proofs about number formatting -/

/-- The rational number a decimal stands for. -/
def decimal.val (a : decimal) : ℚ :=
  (digitsToNat a.d : ℚ) * 10 ^ (a.dp - (a.nd : Int))

/-- Every character of the list is a decimal digit. -/
def allDigits (ds : List Char) : Prop := ∀ c ∈ ds, c.isDigit = true

/-- The integer written by the first `q` digits of a decimal, padded with zeros when `q`
exceeds the number of digits (and `0` for `q ≤ 0`). -/
def decimal.cut (a : decimal) (q : Int) : Nat :=
  if q ≤ (a.nd : Int) then digitsToNat (a.d.take q.toNat)
  else digitsToNat a.d * 10 ^ (q - (a.nd : Int)).toNat

/-- The value of the digit at index `q` of a decimal, `0` outside the digits. -/
def decimal.dig (a : decimal) (q : Int) : Nat :=
  if 0 ≤ q ∧ q < (a.nd : Int) then (a.digit q.toNat).toNat - 48 else 0

/-- The last digit of a non-empty digit list is not `'0'`. -/
def lastNonzero (ds : List Char) : Prop := ∀ c ∈ ds.getLast?, c ≠ '0'

/-- The digit of `a` at index `q`, `'0'` outside the digits: what the loop of
`roundShortest` reads. -/
def decimal.digitAt (a : decimal) (q : Int) : Char :=
  if 0 ≤ q ∧ q < (a.nd : Int) then a.digit q.toNat else '0'

/-- The new value of `upperdelta` in the loop of `roundShortest`. -/
def nextUpperdelta (upperdelta : Nat) (m u : Char) : Nat :=
  if upperdelta = 0 ∧ m.toNat + 1 < u.toNat then 2
  else if upperdelta = 0 ∧ m ≠ u then 1
  else if upperdelta = 1 ∧ (m ≠ '9' ∨ u ≠ '0') then 2
  else upperdelta

/-- What the loop of `roundShortest` must deliver: digits, a decimal point near the one of
`d`, and a value between the bounds, strictly unless the bounds are inclusive. -/
def ShortestSound (d upper lower : decimal) (inclusive : Bool) (r : decimal) : Prop :=
  allDigits r.d ∧ (r.dp = d.dp ∨ r.dp = d.dp + 1 ∨ r.dp = 0)
  ∧ lower.val ≤ r.val ∧ r.val ≤ upper.val
  ∧ (inclusive = false → lower.val < r.val ∧ r.val < upper.val)

/-- The relation `upperdelta` records between the digits of `d` and of `upper` read so far. -/
def DeltaInv (upperdelta A B : Nat) : Prop :=
  (upperdelta = 0 ∧ B = A) ∨ (upperdelta = 1 ∧ B = A + 1) ∨ (upperdelta = 2 ∧ A + 2 ≤ B)

/-- The binary64 value of the Go literal `3.14159`. -/
def lit_3_14159 : float64 := ⟨0x400921F9F01B866E⟩

/-- The binary64 value of the Go literal `2.28`. -/
def lit_2_28 : float64 := ⟨0x40023D70A3D70A3D⟩

/-- The binary64 value of the Go literal `9.312`. -/
def lit_9_312 : float64 := ⟨0x40229FBE76C8B439⟩

/-! ## 4. Theorems: parameters and URLs -/

theorem lookup_three (a b c key : String) (x y z : String)
    (hab : a ≠ b) (hac : a ≠ c) (hbc : b ≠ c) :
    List.lookup key [(c, [z]), (b, [y]), (a, [x])]
      = Option.map (fun s => [s]) (List.lookup key [(a, x), (b, y), (c, z)]) := by
  have t : ∀ s : String, (s == s) = true := fun s => beq_self_eq_true s
  have f : ∀ s r : String, s ≠ r → (s == r) = false := fun s r h => beq_eq_false_iff_ne.mpr h
  by_cases h1 : key = a
  · subst h1
    simp [List.lookup, t, f _ _ hab, f _ _ hac]
  · by_cases h2 : key = b
    · subst h2
      simp [List.lookup, t, f _ _ hbc, f _ _ h1]
    · by_cases h3 : key = c
      · subst h3
        simp [List.lookup, t, f _ _ h1, f _ _ h2]
      · simp [List.lookup, f _ _ h1, f _ _ h2, f _ _ h3]

theorem holdsExactly_three (a b c : String) (x y z : String)
    (hab : a ≠ b) (hac : a ≠ c) (hbc : b ≠ c) :
    Values.holdsExactly (some [(c, [z]), (b, [y]), (a, [x])]) [(a, x), (b, y), (c, z)] := by
  refine ⟨_, rfl, ?_, rfl, fun key => lookup_three a b c key x y z hab hac hbc⟩
  simp [Values.keys, hab, hac, hbc, Ne.symm hab, Ne.symm hac, Ne.symm hbc]

theorem values_newClassicStatCount (k u : String) (c : Int) :
    (newClassicStatCount k u c).values
      = some [("count", [(newClassicStatCount k u c).valueString]), ("ukey", [u]), ("key", [k])] := by
  simp [statReport.values, statReport.classicValues, newClassicStatCount,
    statReport.classicCounterValues, statReport.classicCommonValues, Values.Set,
    CLASSIC, EZ, COUNTER]

theorem values_newClassicStatValue (k u : String) (v : float64) :
    (newClassicStatValue k u v).values
      = some [("value", [(newClassicStatValue k u v).valueString]), ("ukey", [u]), ("key", [k])] := by
  simp [statReport.values, statReport.classicValues, newClassicStatValue,
    statReport.classicValueValues, statReport.classicCommonValues, Values.Set,
    CLASSIC, EZ, COUNTER, VALUE]

theorem values_newEZStatCount (k u : String) (c : Int) :
    (newEZStatCount k u c).values
      = some [("count", [(newEZStatCount k u c).valueString]), ("ezkey", [u]), ("stat", [k])] := by
  simp [statReport.values, statReport.ezValues, newEZStatCount,
    statReport.ezCounterValues, statReport.ezCommonValues, Values.Set, EZ, COUNTER]

theorem values_newEZStatValue (k u : String) (v : float64) :
    (newEZStatValue k u v).values
      = some [("value", [(newEZStatValue k u v).valueString]), ("ezkey", [u]), ("stat", [k])] := by
  simp [statReport.values, statReport.ezValues, newEZStatValue,
    statReport.ezValueValues, statReport.ezCommonValues, Values.Set, EZ, COUNTER, VALUE]

/-- C1: for a report built by any of the four constructors, `values()` is a non-nil map that
holds exactly three keys with one value each: `key`, `ukey`, `count` (classic counter),
`key`, `ukey`, `value` (classic value), `stat`, `ezkey`, `count` (EZ counter), `stat`,
`ezkey`, `value` (EZ value); the stat key and user key are stored verbatim and the number
is `valueString()`. For `newEZStatValue("a stat", "pc@pc.com", 2.13)` the map is
`stat: "a stat", ezkey: "pc@pc.com", value: "2.13"`. -/
theorem C1_values_exact_keys (k u : String) (c : Int) (v : float64) :
    Values.holdsExactly (newClassicStatCount k u c).values
        [("key", k), ("ukey", u), ("count", (newClassicStatCount k u c).valueString)]
    ∧ Values.holdsExactly (newClassicStatValue k u v).values
        [("key", k), ("ukey", u), ("value", (newClassicStatValue k u v).valueString)]
    ∧ Values.holdsExactly (newEZStatCount k u c).values
        [("stat", k), ("ezkey", u), ("count", (newEZStatCount k u c).valueString)]
    ∧ Values.holdsExactly (newEZStatValue k u v).values
        [("stat", k), ("ezkey", u), ("value", (newEZStatValue k u v).valueString)]
    ∧ Values.holdsExactly (newEZStatValue "a stat" "pc@pc.com" lit_2_13).values
        [("stat", "a stat"), ("ezkey", "pc@pc.com"), ("value", "2.13")] := by
  refine ⟨?_, ?_, ?_, ?_, ?_⟩
  · rw [values_newClassicStatCount]
    exact holdsExactly_three _ _ _ _ _ _ (by decide) (by decide) (by decide)
  · rw [values_newClassicStatValue]
    exact holdsExactly_three _ _ _ _ _ _ (by decide) (by decide) (by decide)
  · rw [values_newEZStatCount]
    exact holdsExactly_three _ _ _ _ _ _ (by decide) (by decide) (by decide)
  · rw [values_newEZStatValue]
    exact holdsExactly_three _ _ _ _ _ _ (by decide) (by decide) (by decide)
  · rw [values_newEZStatValue]
    have h : (newEZStatValue "a stat" "pc@pc.com" lit_2_13).valueString = "2.13" := by decide
    rw [h]
    exact holdsExactly_three _ _ _ _ _ _ (by decide) (by decide) (by decide)

theorem url_eq_host_path (r : statReport) : r.url = "http://api.stathat.com" ++ r.path := by
  have h : "http://" ++ hostname = "http://api.stathat.com" := by decide
  rw [statReport.url, h]

theorem url_newEZStatCount (k u : String) (c : Int) :
    (newEZStatCount k u c).url = "http://api.stathat.com/ez" := by
  rw [url_eq_host_path]
  have h : (newEZStatCount k u c).path = "/ez" := by
    simp [statReport.path, newEZStatCount, apiKind.path]
  rw [h]
  decide

theorem url_newEZStatValue (k u : String) (v : float64) :
    (newEZStatValue k u v).url = "http://api.stathat.com/ez" := by
  rw [url_eq_host_path]
  have h : (newEZStatValue k u v).path = "/ez" := by
    simp [statReport.path, newEZStatValue, apiKind.path]
  rw [h]
  decide

theorem url_newClassicStatCount (k u : String) (c : Int) :
    (newClassicStatCount k u c).url = "http://api.stathat.com/c" := by
  rw [url_eq_host_path]
  have h : (newClassicStatCount k u c).path = "/c" := by
    simp [statReport.path, newClassicStatCount, apiKind.path, statKind.classicPath, CLASSIC, EZ]
  rw [h]
  decide

theorem url_newClassicStatValue (k u : String) (v : float64) :
    (newClassicStatValue k u v).url = "http://api.stathat.com/v" := by
  rw [url_eq_host_path]
  have h : (newClassicStatValue k u v).path = "/v" := by
    simp [statReport.path, newClassicStatValue, apiKind.path, statKind.classicPath, CLASSIC, EZ,
      VALUE, COUNTER]
  rw [h]
  decide

/-- C2: the URL of every report is `"http://api.stathat.com"` followed by its path; the
path is `"/ez"` for an EZ report of any kind (also a kind outside the declared constants),
`"/c"` for a classic counter and `"/v"` for a classic value; so the four constructors give
one of three URLs, whatever the stat key, user key and value. -/
theorem C2_url_and_path (r : statReport) (k u : String) (val : float64) (sk : statKind)
    (c : Int) :
    r.url = "http://api.stathat.com" ++ r.path
    ∧ r.path = r.apiType.path r.statType
    ∧ EZ.path sk = "/ez"
    ∧ ({ StatKey := k, UserKey := u, Value := val, statType := sk, apiType := EZ } :
        statReport).path = "/ez"
    ∧ CLASSIC.path COUNTER = "/c"
    ∧ CLASSIC.path VALUE = "/v"
    ∧ (newEZStatCount k u c).url = "http://api.stathat.com/ez"
    ∧ (newEZStatValue k u val).url = "http://api.stathat.com/ez"
    ∧ (newClassicStatCount k u c).url = "http://api.stathat.com/c"
    ∧ (newClassicStatValue k u val).url = "http://api.stathat.com/v" := by
  refine ⟨url_eq_host_path r, rfl, ?_, ?_, by decide, by decide, url_newEZStatCount k u c,
    url_newEZStatValue k u val, url_newClassicStatCount k u c, url_newClassicStatValue k u val⟩
  · simp [apiKind.path]
  · simp [statReport.path, apiKind.path]

/-- C9: an EZ report carries no `email` parameter: `values().Get("email")` is the empty
string for every report built by `newEZStatCount` or `newEZStatValue` (the user key is
stored under `ezkey`), so it differs from the user key `"pc@pc.com"` of the test. -/
theorem C9_email_parameter_absent (k u : String) (c : Int) (v : float64) :
    Values.Get (newEZStatCount k u c).values "email" = ""
    ∧ Values.Get (newEZStatValue k u v).values "email" = ""
    ∧ Values.Get (newEZStatCount k u c).values "ezkey" = u
    ∧ Values.Get (newEZStatValue k u v).values "ezkey" = u
    ∧ Values.Get (newEZStatCount "abc" "pc@pc.com" 1).values "email" ≠ "pc@pc.com" := by
  refine ⟨?_, ?_, ?_, ?_, by decide⟩
  · rw [values_newEZStatCount]; simp [Values.Get, List.lookup]
  · rw [values_newEZStatValue]; simp [Values.Get, List.lookup]
  · rw [values_newEZStatCount]; simp [Values.Get, List.lookup]
  · rw [values_newEZStatValue]; simp [Values.Get, List.lookup]

/-! ## 5. Theorems: the delivery pipeline -/

theorem enqueue_closed (sr : statReport) (w : World) (h : w.statReportChannel.closed = true) :
    enqueue sr w = .panicked "send on closed channel" w := by
  simp [enqueue, Chan.send, h]

theorem enqueue_open (sr : statReport) (w : World) (h : w.statReportChannel.closed = false) :
    enqueue sr w =
      if w.statReportChannel.buf.length < w.statReportChannel.cap then
        .returned none { w with statReportChannel :=
          { w.statReportChannel with buf := w.statReportChannel.buf ++ [sr] } }
      else .blocked := by
  unfold enqueue Chan.send
  by_cases hlen : w.statReportChannel.buf.length < w.statReportChannel.cap <;> simp [h, hlen]

theorem enqueue_toStep_ok (sr : statReport) (w w1 : World)
    (h : (enqueue sr w).toStep = .ok w1) :
    w.statReportChannel.closed = false ∧
    w1 = { w with statReportChannel :=
      { w.statReportChannel with buf := w.statReportChannel.buf ++ [sr] } } := by
  cases hc : w.statReportChannel.closed with
  | true => rw [enqueue_closed sr w hc] at h; simp [Outcome.toStep] at h
  | false =>
    rw [enqueue_open sr w hc] at h
    by_cases hlen : w.statReportChannel.buf.length < w.statReportChannel.cap
    · simp [hlen, Outcome.toStep] at h
      exact ⟨rfl, h.symm⟩
    · simp [hlen, Outcome.toStep] at h

/-- A producer event that succeeds appends its report to the queue and changes nothing else. -/
theorem step_report (post : Transport) (w w1 : World) (ev : Event) (sr : statReport)
    (hr : ev.report = some sr) (h : step post w ev = .ok w1) :
    w.statReportChannel.closed = false ∧
    w1 = { w with statReportChannel :=
      { w.statReportChannel with buf := w.statReportChannel.buf ++ [sr] } } := by
  cases ev <;> simp [Event.report] at hr <;> subst hr <;>
    exact enqueue_toStep_ok _ w w1 h

/-- What one iteration of `processStats` does, by the state of the queue. -/
theorem processStats_value (post : Transport) (w : World) (sr : statReport)
    (rest : List statReport) (hd : w.dispatcher = .receiving)
    (hb : w.statReportChannel.buf = sr :: rest) :
    ∃ w1, processStats post w = some w1
      ∧ w1.statReportChannel = { w.statReportChannel with buf := rest }
      ∧ w1.testingEnv = w.testingEnv ∧ w1.Verbose = w.Verbose ∧ w1.waiter = w.waiter
      ∧ w1.testPosts = w.testPosts
      ∧ w1.dispatcher = (if w.testingEnv then .sendingTestPost (delivery sr) else .receiving)
      ∧ w1.httpPosts = (if w.testingEnv then w.httpPosts else w.httpPosts ++ [delivery sr]) := by
  unfold processStats
  rw [hd]
  simp only [Chan.recv, hb]
  cases ht : w.testingEnv <;> cases hv : w.Verbose <;> simp [ht, hv, delivery]
  · cases post w.httpPosts sr.url sr.values <;> simp
  · cases post w.httpPosts sr.url sr.values <;> simp

theorem processStats_empty (post : Transport) (w : World) (hd : w.dispatcher = .receiving)
    (hb : w.statReportChannel.buf = []) :
    processStats post w =
      if w.statReportChannel.closed then some { w with dispatcher := .sendingDone } else none := by
  unfold processStats
  rw [hd]
  simp only [Chan.recv, hb]
  cases w.statReportChannel.closed <;> simp

theorem processStats_not_receiving (post : Transport) (w : World)
    (hd : w.dispatcher ≠ .receiving) : processStats post w = none := by
  unfold processStats
  cases h : w.dispatcher <;> simp_all

theorem inv_start (testing verbose : Bool) : Inv [] (start testing verbose) := by
  cases testing <;> cases verbose <;>
    constructor <;> simp [start, setVerbose, setTesting, init, World.handedOver,
      dispatcherState.inFlight, dispatcherState.drained]

theorem closeQueue_ok (w w1 : World) (h : closeQueue w = .ok w1) :
    w.statReportChannel.closed = false ∧
    w1 = { w with statReportChannel := { w.statReportChannel with closed := true },
                  waiter := .selecting } := by
  unfold closeQueue Chan.close at h
  cases hc : w.statReportChannel.closed <;> simp [hc] at h
  exact ⟨rfl, h.symm⟩

theorem selectDone_ok (w w1 : World) (h : selectDone w = .ok w1) :
    w.waiter = .selecting ∧ w.dispatcher = .sendingDone ∧
    w1 = { w with waiter := .returned true, dispatcher := .finished } := by
  unfold selectDone at h
  by_cases hc : w.waiter = .selecting ∧ w.dispatcher = .sendingDone
  · simp [hc] at h
    exact ⟨hc.1, hc.2, h.symm⟩
  · simp [hc] at h

theorem selectTimeout_ok (w w1 : World) (h : selectTimeout w = .ok w1) :
    w.waiter = .selecting ∧ w1 = { w with waiter := .returned false } := by
  unfold selectTimeout at h
  by_cases hc : w.waiter = .selecting
  · simp [hc] at h
    exact ⟨hc, h.symm⟩
  · simp [hc] at h

theorem receiveTestPost_ok (w w1 : World) (h : receiveTestPost w = some w1) :
    ∃ p, w.dispatcher = .sendingTestPost p ∧
      w1 = { w with testPosts := w.testPosts ++ [p], dispatcher := .receiving } := by
  unfold receiveTestPost at h
  cases hd : w.dispatcher <;> simp [hd] at h
  exact ⟨_, rfl, h.symm⟩

/-- What a successful dispatcher step is: a report taken from the head of the queue and
handed over, or the observation that the queue is closed and empty. -/
theorem processStats_ok (post : Transport) (w w1 : World) (h : processStats post w = some w1) :
    w.dispatcher = .receiving ∧
    ((∃ sr rest, w.statReportChannel.buf = sr :: rest
        ∧ w1.statReportChannel = { w.statReportChannel with buf := rest }
        ∧ w1.testingEnv = w.testingEnv ∧ w1.Verbose = w.Verbose ∧ w1.waiter = w.waiter
        ∧ w1.testPosts = w.testPosts
        ∧ w1.dispatcher = (if w.testingEnv then .sendingTestPost (delivery sr) else .receiving)
        ∧ w1.httpPosts = (if w.testingEnv then w.httpPosts else w.httpPosts ++ [delivery sr]))
     ∨ (w.statReportChannel.buf = [] ∧ w.statReportChannel.closed = true
        ∧ w1 = { w with dispatcher := .sendingDone })) := by
  by_cases hd : w.dispatcher = .receiving
  · refine ⟨hd, ?_⟩
    cases hb : w.statReportChannel.buf with
    | nil =>
      rw [processStats_empty post w hd hb] at h
      cases hc : w.statReportChannel.closed <;> simp [hc] at h
      exact Or.inr ⟨rfl, rfl, h.symm⟩
    | cons sr rest =>
      obtain ⟨w2, h2, rest2⟩ := processStats_value post w sr rest hd hb
      rw [h2] at h
      cases h
      exact Or.inl ⟨sr, rest, rfl, rest2⟩
  · rw [processStats_not_receiving post w hd] at h
    cases h

theorem inv_enqueue (posted : List statReport) (w : World) (sr : statReport)
    (hc : w.statReportChannel.closed = false) (hi : Inv posted w) :
    Inv (posted ++ [sr]) { w with statReportChannel :=
      { w.statReportChannel with buf := w.statReportChannel.buf ++ [sr] } } := by
  constructor
  · have h := hi.fifo
    simp only [World.handedOver] at h ⊢
    simp only [List.map_append, ← List.append_assoc, h]
  · exact hi.mode
  · exact hi.nomode
  · intro hd
    have h := (hi.drained hd).1
    rw [hc] at h
    cases h
  · exact hi.returned

theorem inv_processStats (post : Transport) (posted : List statReport) (w w1 : World)
    (h : processStats post w = some w1) (hi : Inv posted w) : Inv posted w1 := by
  obtain ⟨hd, hcase⟩ := processStats_ok post w w1 h
  rcases hcase with ⟨sr, rest, hb, hch, hte, _, hwa, htp, hdi, hht⟩ | ⟨hb, hc, hw1⟩
  · have hf := hi.fifo
    simp only [World.handedOver, hd, dispatcherState.inFlight, hb, List.map_cons] at hf
    cases ht : w.testingEnv with
    | true =>
      simp only [ht, if_true] at hdi hht
      have hm := hi.mode ht
      constructor
      · simp only [World.handedOver, hdi, dispatcherState.inFlight, hch, htp, hht, hm]
        rw [← hf, hm]
        simp
      · intro _; rw [hht]; exact hm
      · intro hte2; rw [hte, ht] at hte2; cases hte2
      · intro hdr; rw [hdi] at hdr; simp [dispatcherState.drained] at hdr
      · intro hr; rw [hwa] at hr; have := hi.returned hr; rw [hd] at this; cases this
    | false =>
      simp only [ht] at hdi hht
      have hm := hi.nomode ht
      constructor
      · simp only [World.handedOver, hdi, dispatcherState.inFlight, hch, htp, hht]
        rw [← hf]
        simp
      · intro hte2; rw [hte, ht] at hte2; cases hte2
      · intro _; rw [htp, hdi]; exact ⟨hm.1, rfl⟩
      · intro hdr; rw [hdi] at hdr; simp [dispatcherState.drained] at hdr
      · intro hr; rw [hwa] at hr; have := hi.returned hr; rw [hd] at this; cases this
  · subst hw1
    have hf := hi.fifo
    constructor
    · simpa [World.handedOver, hd, dispatcherState.inFlight] using hf
    · exact hi.mode
    · intro ht; exact ⟨(hi.nomode ht).1, rfl⟩
    · intro _; exact ⟨hc, hb⟩
    · intro hr; have := hi.returned hr; rw [hd] at this; cases this

/-- Every step that succeeds keeps the invariant, with the report of a producer event
added to the reports enqueued; it leaves `testingEnv` alone. -/
theorem step_inv (post : Transport) (posted : List statReport) (w w1 : World) (ev : Event)
    (h : step post w ev = .ok w1) (hi : Inv posted w) :
    Inv (posted ++ ev.report.toList) w1 := by
  cases hr : ev.report with
  | some sr =>
    obtain ⟨hc, hw1⟩ := step_report post w w1 ev sr hr h
    subst hw1
    exact inv_enqueue posted w sr hc hi
  | none =>
    simp only [Option.toList, List.append_nil]
    cases ev <;> simp [Event.report] at hr
    case dispatch =>
      simp only [step] at h
      cases hp : processStats post w with
      | none => rw [hp] at h; simp [stepOfOption] at h
      | some w2 =>
        rw [hp] at h
        simp [stepOfOption] at h
        subst h
        exact inv_processStats post posted w w2 hp hi
    case testReceive =>
      simp only [step] at h
      cases hp : receiveTestPost w with
      | none => rw [hp] at h; simp [stepOfOption] at h
      | some w2 =>
        rw [hp] at h
        simp [stepOfOption] at h
        subst h
        obtain ⟨p, hd, hw2⟩ := receiveTestPost_ok w w2 hp
        subst hw2
        have hf := hi.fifo
        constructor
        · simpa [World.handedOver, hd, dispatcherState.inFlight] using hf
        · exact hi.mode
        · intro ht
          have := (hi.nomode ht).2
          rw [hd] at this
          simp [dispatcherState.inFlight] at this
        · intro hdr; simp [dispatcherState.drained] at hdr
        · intro hr2; have := hi.returned hr2; rw [hd] at this; cases this
    case waitClose =>
      simp only [step] at h
      obtain ⟨hc, hw1⟩ := closeQueue_ok w w1 h
      subst hw1
      constructor
      · exact hi.fifo
      · exact hi.mode
      · exact hi.nomode
      · intro hdr
        have := (hi.drained hdr).1
        rw [hc] at this
        cases this
      · intro hr2; cases hr2
    case waitDone =>
      simp only [step] at h
      obtain ⟨_, hd, hw1⟩ := selectDone_ok w w1 h
      subst hw1
      have hdr : w.dispatcher.drained = true := by rw [hd]; rfl
      constructor
      · simpa [World.handedOver, hd, dispatcherState.inFlight] using hi.fifo
      · exact hi.mode
      · intro ht; exact ⟨(hi.nomode ht).1, rfl⟩
      · intro _; exact hi.drained hdr
      · intro _; rfl
    case waitTimeout =>
      simp only [step] at h
      obtain ⟨_, hw1⟩ := selectTimeout_ok w w1 h
      subst hw1
      constructor
      · exact hi.fifo
      · exact hi.mode
      · exact hi.nomode
      · exact hi.drained
      · intro hr2; cases hr2

theorem run_cons_ok (post : Transport) (w w2 : World) (ev : Event) (evs : List Event)
    (h : run post w (ev :: evs) = .ok w2) :
    ∃ w1, step post w ev = .ok w1 ∧ run post w1 evs = .ok w2 := by
  simp only [run] at h
  cases hs : step post w ev with
  | ok w1 => rw [hs] at h; exact ⟨w1, rfl, h⟩
  | disabled => rw [hs] at h; cases h
  | panic msg => rw [hs] at h; cases h

/-- Every run that succeeds keeps the invariant, with the reports of its producer events
added in order. -/
theorem run_inv (post : Transport) (evs : List Event) :
    ∀ (posted : List statReport) (w w1 : World),
      run post w evs = .ok w1 → Inv posted w → Inv (posted ++ enqueuedReports evs) w1 := by
  induction evs with
  | nil =>
    intro posted w w1 h hi
    simp only [run] at h
    cases h
    simpa [enqueuedReports] using hi
  | cons ev evs ih =>
    intro posted w w1 h hi
    obtain ⟨w2, hs, hr⟩ := run_cons_ok post w w1 ev evs h
    have h2 := ih (posted ++ ev.report.toList) w2 w1 hr (step_inv post posted w w2 ev hs hi)
    have he : enqueuedReports (ev :: evs) = ev.report.toList ++ enqueuedReports evs := by
      unfold enqueuedReports
      cases hrep : ev.report <;> simp [List.filterMap_cons, hrep]
    rw [he, ← List.append_assoc]
    exact h2

theorem run_append (post : Transport) (evs1 evs2 : List Event) :
    ∀ (w w1 : World), run post w evs1 = .ok w1 →
      run post w (evs1 ++ evs2) = run post w1 evs2 := by
  induction evs1 with
  | nil => intro w w1 h; simp only [run] at h; cases h; rfl
  | cons ev evs ih =>
    intro w w1 h
    obtain ⟨w2, hs, hr⟩ := run_cons_ok post w w1 ev evs h
    simp only [List.cons_append, run, hs]
    exact ih w2 w1 hr

/-- Left to run, the dispatcher works through the whole queue: after one iteration per
queued report (each followed by the test's receive in test mode) the queue is empty, every
report has been handed over once, in queue order, and the dispatcher is at its receive again. -/
theorem drain_run (post : Transport) (t : Bool) :
    ∀ (n : Nat) (w : World), w.statReportChannel.buf.length = n →
      w.dispatcher = .receiving → w.testingEnv = t →
      ∃ w1, run post w (drainSchedule t n) = .ok w1
        ∧ w1.statReportChannel = { w.statReportChannel with buf := [] }
        ∧ w1.dispatcher = .receiving ∧ w1.testingEnv = t ∧ w1.waiter = w.waiter
        ∧ w1.testPosts = (if t then w.testPosts ++ w.statReportChannel.buf.map delivery
            else w.testPosts)
        ∧ w1.httpPosts = (if t then w.httpPosts
            else w.httpPosts ++ w.statReportChannel.buf.map delivery) := by
  intro n
  induction n with
  | zero =>
    intro w hn hd ht
    have hb : w.statReportChannel.buf = [] := List.length_eq_zero.mp hn
    refine ⟨w, rfl, ?_, hd, ht, rfl, ?_, ?_⟩
    · rw [← hb]
    · simp [hb]
    · simp [hb]
  | succ n ih =>
    intro w hn hd ht
    cases hb : w.statReportChannel.buf with
    | nil => rw [hb] at hn; cases hn
    | cons sr rest =>
      obtain ⟨w2, hp, hch, hte, _, hwa, htp, hdi, hht⟩ := processStats_value post w sr rest hd hb
      have hlen : rest.length = n := by rw [hb] at hn; simpa using hn
      cases t with
      | true =>
        rw [ht] at hdi hht
        simp only [if_true] at hdi hht
        have hrecv : receiveTestPost w2
            = some { w2 with testPosts := w2.testPosts ++ [delivery sr], dispatcher := .receiving } := by
          simp [receiveTestPost, hdi]
        obtain ⟨w3, hr, h1, h2, h3, h4, h5, h6⟩ :=
          ih { w2 with testPosts := w2.testPosts ++ [delivery sr], dispatcher := .receiving }
            (by simp [hch, hlen]) rfl (by simp [hte, ht])
        refine ⟨w3, ?_, ?_, h2, h3, ?_, ?_, ?_⟩
        · simp only [drainSchedule, if_true, List.cons_append, List.nil_append, run, step, hp,
            stepOfOption, hrecv]
          exact hr
        · rw [h1]; simp [hch]
        · rw [h4]; exact hwa
        · rw [h5]; simp [htp, hch]
        · rw [h6]; simp [hht]
      | false =>
        rw [ht] at hdi hht
        simp only [Bool.false_eq_true, if_false] at hdi hht
        obtain ⟨w3, hr, h1, h2, h3, h4, h5, h6⟩ := ih w2 (by simp [hch, hlen]) hdi (by rw [hte, ht])
        refine ⟨w3, ?_, ?_, h2, h3, ?_, ?_, ?_⟩
        · simp only [drainSchedule, Bool.false_eq_true, if_false, List.cons_append,
            List.nil_append, run, step, hp, stepOfOption]
          exact hr
        · rw [h1]; simp [hch]
        · rw [h4]; exact hwa
        · rw [h5]; simp [htp]
        · rw [h6]; simp [hht, hch]

theorem step_closed (post : Transport) (w w1 : World) (ev : Event)
    (h : step post w ev = .ok w1) (hc : w.statReportChannel.closed = true) :
    w1.statReportChannel.closed = true := by
  cases hr : ev.report with
  | some sr =>
    obtain ⟨hc2, _⟩ := step_report post w w1 ev sr hr h
    rw [hc] at hc2
    cases hc2
  | none =>
    cases ev <;> simp [Event.report] at hr
    case dispatch =>
      simp only [step] at h
      cases hp : processStats post w with
      | none => rw [hp] at h; simp [stepOfOption] at h
      | some w2 =>
        rw [hp] at h
        simp [stepOfOption] at h
        subst h
        obtain ⟨_, hcase⟩ := processStats_ok post w w2 hp
        rcases hcase with ⟨sr, rest, _, hch, _⟩ | ⟨_, _, hw1⟩
        · rw [hch]; exact hc
        · subst hw1; exact hc
    case testReceive =>
      simp only [step] at h
      cases hp : receiveTestPost w with
      | none => rw [hp] at h; simp [stepOfOption] at h
      | some w2 =>
        rw [hp] at h
        simp [stepOfOption] at h
        subst h
        obtain ⟨p, _, hw2⟩ := receiveTestPost_ok w w2 hp
        subst hw2
        exact hc
    case waitClose =>
      simp only [step] at h
      obtain ⟨hc2, _⟩ := closeQueue_ok w w1 h
      rw [hc] at hc2
      cases hc2
    case waitDone =>
      simp only [step] at h
      obtain ⟨_, _, hw1⟩ := selectDone_ok w w1 h
      subst hw1
      exact hc
    case waitTimeout =>
      simp only [step] at h
      obtain ⟨_, hw1⟩ := selectTimeout_ok w w1 h
      subst hw1
      exact hc

theorem run_closed (post : Transport) (evs : List Event) :
    ∀ (w w1 : World), run post w evs = .ok w1 → w.statReportChannel.closed = true →
      w1.statReportChannel.closed = true := by
  induction evs with
  | nil => intro w w1 h hc; simp only [run] at h; cases h; exact hc
  | cons ev evs ih =>
    intro w w1 h hc
    obtain ⟨w2, hs, hr⟩ := run_cons_ok post w w1 ev evs h
    exact ih w2 w1 hr (step_closed post w w2 ev hs hc)

theorem step_testingEnv (post : Transport) (w w1 : World) (ev : Event)
    (h : step post w ev = .ok w1) : w1.testingEnv = w.testingEnv := by
  cases hr : ev.report with
  | some sr =>
    obtain ⟨_, hw1⟩ := step_report post w w1 ev sr hr h
    subst hw1
    rfl
  | none =>
    cases ev <;> simp [Event.report] at hr
    case dispatch =>
      simp only [step] at h
      cases hp : processStats post w with
      | none => rw [hp] at h; simp [stepOfOption] at h
      | some w2 =>
        rw [hp] at h
        simp [stepOfOption] at h
        subst h
        obtain ⟨_, hcase⟩ := processStats_ok post w w2 hp
        rcases hcase with ⟨sr, rest, _, _, hte, _⟩ | ⟨_, _, hw1⟩
        · exact hte
        · subst hw1; rfl
    case testReceive =>
      simp only [step] at h
      cases hp : receiveTestPost w with
      | none => rw [hp] at h; simp [stepOfOption] at h
      | some w2 =>
        rw [hp] at h
        simp [stepOfOption] at h
        subst h
        obtain ⟨p, _, hw2⟩ := receiveTestPost_ok w w2 hp
        subst hw2
        rfl
    case waitClose =>
      simp only [step] at h
      obtain ⟨_, hw1⟩ := closeQueue_ok w w1 h
      subst hw1
      rfl
    case waitDone =>
      simp only [step] at h
      obtain ⟨_, _, hw1⟩ := selectDone_ok w w1 h
      subst hw1
      rfl
    case waitTimeout =>
      simp only [step] at h
      obtain ⟨_, hw1⟩ := selectTimeout_ok w w1 h
      subst hw1
      rfl

theorem run_testingEnv (post : Transport) (evs : List Event) :
    ∀ (w w1 : World), run post w evs = .ok w1 → w1.testingEnv = w.testingEnv := by
  induction evs with
  | nil => intro w w1 h; simp only [run] at h; cases h; rfl
  | cons ev evs ih =>
    intro w w1 h
    obtain ⟨w2, hs, hr⟩ := run_cons_ok post w w1 ev evs h
    rw [ih w2 w1 hr, step_testingEnv post w w2 ev hs]

theorem start_testingEnv (testing verbose : Bool) :
    (start testing verbose).testingEnv = testing := by
  cases testing <;> rfl

/-- C3: FIFO delivery in test mode. After any schedule that runs from the start of a test,
the posts the test has received, then the one the dispatcher is sending, then the deliveries
of the reports still queued, are the deliveries `(url, values)` of the reports enqueued by the
`Post*` calls of the schedule, in the order of the calls; and when the dispatcher is left to
drain the queue the test has received exactly that sequence: nothing lost, duplicated or
reordered. -/
theorem C3_fifo_delivery (post : Transport) (verbose : Bool) (evs : List Event) (w : World)
    (h : run post (start true verbose) evs = .ok w) :
    w.testPosts ++ w.dispatcher.inFlight ++ w.statReportChannel.buf.map delivery
      = (enqueuedReports evs).map delivery
    ∧ ∃ w1, run post w (w.dispatcher.inFlight.map (fun _ => Event.testReceive)
          ++ drainSchedule true w.statReportChannel.buf.length) = .ok w1
        ∧ w1.testPosts = (enqueuedReports evs).map delivery
        ∧ w1.statReportChannel.buf = [] := by
  have hi := run_inv post evs [] _ w h (inv_start true verbose)
  simp only [List.nil_append] at hi
  have ht : w.testingEnv = true := by
    rw [run_testingEnv post evs _ w h, start_testingEnv]
  have hm := hi.mode ht
  have hf := hi.fifo
  simp only [World.handedOver, hm, List.append_nil] at hf
  refine ⟨hf, ?_⟩
  cases hd : w.dispatcher with
  | receiving =>
    obtain ⟨w1, hr, h1, _, _, _, h5, _⟩ := drain_run post true _ w rfl hd ht
    refine ⟨w1, ?_, ?_, ?_⟩
    · simpa [dispatcherState.inFlight] using hr
    · rw [h5, ← hf, hd]; simp [dispatcherState.inFlight]
    · rw [h1]
  | sendingTestPost p =>
    have hrecv : receiveTestPost w
        = some { w with testPosts := w.testPosts ++ [p], dispatcher := .receiving } := by
      simp [receiveTestPost, hd]
    obtain ⟨w1, hr, h1, _, _, _, h5, _⟩ := drain_run post true _
      { w with testPosts := w.testPosts ++ [p], dispatcher := .receiving } rfl rfl ht
    refine ⟨w1, ?_, ?_, ?_⟩
    · simp only [dispatcherState.inFlight, List.map_cons, List.map_nil, List.cons_append,
        List.nil_append, run, step, hrecv, stepOfOption]
      exact hr
    · rw [h5, ← hf, hd]; simp [dispatcherState.inFlight]
    · rw [h1]
  | sendingDone =>
    have hb := (hi.drained (by rw [hd]; rfl)).2
    refine ⟨w, ?_, ?_, hb⟩
    · simp [dispatcherState.inFlight, hb, drainSchedule, run]
    · rw [← hf, hd, hb]; simp [dispatcherState.inFlight]
  | finished =>
    have hb := (hi.drained (by rw [hd]; rfl)).2
    refine ⟨w, ?_, ?_, hb⟩
    · simp [dispatcherState.inFlight, hb, drainSchedule, run]
    · rw [← hf, hd, hb]; simp [dispatcherState.inFlight]

/-- The instance of C3 at a test schedule, with a transport that always fails. -/
theorem C3_fifo_delivery_witness :
    run refusing (start true true) sampleTestSchedule
      = .ok (worldAfter refusing (start true true) sampleTestSchedule)
    ∧ ((worldAfter refusing (start true true) sampleTestSchedule).testPosts
        ++ (worldAfter refusing (start true true) sampleTestSchedule).dispatcher.inFlight
        ++ (worldAfter refusing (start true true) sampleTestSchedule).statReportChannel.buf.map
            delivery
      = (enqueuedReports sampleTestSchedule).map delivery
      ∧ ∃ w1, run refusing (worldAfter refusing (start true true) sampleTestSchedule)
          ((worldAfter refusing (start true true) sampleTestSchedule).dispatcher.inFlight.map
              (fun _ => Event.testReceive)
            ++ drainSchedule true
              (worldAfter refusing (start true true) sampleTestSchedule).statReportChannel.buf.length)
          = .ok w1
        ∧ w1.testPosts = (enqueuedReports sampleTestSchedule).map delivery
        ∧ w1.statReportChannel.buf = []) :=
  ⟨by decide, C3_fifo_delivery refusing true sampleTestSchedule _ (by decide)⟩

/-- C4: once `WaitUntilFinished` has closed the queue, in the world `w1` right after the
close and in every world `w2` a later schedule leads to, each of the six `Post*` calls
panics with "send on closed channel": the call does not return (so it returns no nil
error) and the world, the queue included, is left as it was. -/
theorem C4_post_after_close_rejected (post : Transport) (w w1 w2 : World) (evs : List Event)
    (k u : String) (c : Int) (v : float64)
    (hclose : step post w .waitClose = .ok w1) (hrun : run post w1 evs = .ok w2) :
    PostCount k u c w2 = .panicked "send on closed channel" w2
    ∧ PostCountOne k u w2 = .panicked "send on closed channel" w2
    ∧ PostValue k u v w2 = .panicked "send on closed channel" w2
    ∧ PostEZCount k u c w2 = .panicked "send on closed channel" w2
    ∧ PostEZCountOne k u w2 = .panicked "send on closed channel" w2
    ∧ PostEZValue k u v w2 = .panicked "send on closed channel" w2
    ∧ (∀ e w3, PostCount k u c w2 ≠ .returned e w3 ∧ PostCountOne k u w2 ≠ .returned e w3
        ∧ PostValue k u v w2 ≠ .returned e w3 ∧ PostEZCount k u c w2 ≠ .returned e w3
        ∧ PostEZCountOne k u w2 ≠ .returned e w3 ∧ PostEZValue k u v w2 ≠ .returned e w3) := by
  have hc1 : w1.statReportChannel.closed = true := by
    simp only [step] at hclose
    obtain ⟨_, hw1⟩ := closeQueue_ok w w1 hclose
    subst hw1
    rfl
  have hc2 := run_closed post evs w1 w2 hrun hc1
  have hp : ∀ sr, enqueue sr w2 = .panicked "send on closed channel" w2 :=
    fun sr => enqueue_closed sr w2 hc2
  refine ⟨hp _, hp _, hp _, hp _, hp _, hp _, ?_⟩
  intro e w3
  simp only [PostCount, PostCountOne, PostValue, PostEZCount, PostEZCountOne, PostEZValue, hp]
  simp

/-- The instance of C4 at a fresh program whose queue is closed and then seen closed by the
dispatcher. -/
theorem C4_post_after_close_rejected_witness :
    step accepting init .waitClose = .ok closedWorld
    ∧ run accepting closedWorld [.dispatch] = .ok closedSeenWorld
    ∧ PostCount "statkey" "userkey" 13 closedSeenWorld
        = .panicked "send on closed channel" closedSeenWorld :=
  ⟨by decide, by decide,
    (C4_post_after_close_rejected accepting init closedWorld closedSeenWorld [.dispatch]
      "statkey" "userkey" 13 lit_2_13 (by decide) (by decide)).1⟩

/-- C5, refuted as stated: in the world reached from `init` by `WaitUntilFinished` closing
the queue, `PostCount("statkey", "userkey", 1)` panics. -/
theorem C5_post_on_closed_queue_panics :
    run accepting init [.waitClose] = .ok closedWorld
    ∧ PostCount "statkey" "userkey" 1 closedWorld
        = .panicked "send on closed channel" closedWorld := by
  decide

/-- C5, amended: while the queue is open none of the six `Post*` calls panics: with room in
the queue the call returns a nil error and the report is at the tail of the queue; with the
queue at capacity the call blocks. -/
theorem C5_post_on_open_queue_never_panics (w : World) (k u : String) (c : Int) (v : float64)
    (hopen : w.statReportChannel.closed = false) :
    (∀ o ∈ [PostCount k u c w, PostCountOne k u w, PostValue k u v w, PostEZCount k u c w,
        PostEZCountOne k u w, PostEZValue k u v w], ∀ msg w1, o ≠ .panicked msg w1)
    ∧ (w.statReportChannel.buf.length < w.statReportChannel.cap →
        PostCount k u c w = .returned none { w with statReportChannel :=
            { w.statReportChannel with
              buf := w.statReportChannel.buf ++ [newClassicStatCount k u c] } }
        ∧ PostCountOne k u w = .returned none { w with statReportChannel :=
            { w.statReportChannel with
              buf := w.statReportChannel.buf ++ [newClassicStatCount k u 1] } }
        ∧ PostValue k u v w = .returned none { w with statReportChannel :=
            { w.statReportChannel with
              buf := w.statReportChannel.buf ++ [newClassicStatValue k u v] } }
        ∧ PostEZCount k u c w = .returned none { w with statReportChannel :=
            { w.statReportChannel with
              buf := w.statReportChannel.buf ++ [newEZStatCount k u c] } }
        ∧ PostEZCountOne k u w = .returned none { w with statReportChannel :=
            { w.statReportChannel with
              buf := w.statReportChannel.buf ++ [newEZStatCount k u 1] } }
        ∧ PostEZValue k u v w = .returned none { w with statReportChannel :=
            { w.statReportChannel with
              buf := w.statReportChannel.buf ++ [newEZStatValue k u v] } })
    ∧ (¬ w.statReportChannel.buf.length < w.statReportChannel.cap →
        PostCount k u c w = .blocked ∧ PostCountOne k u w = .blocked
        ∧ PostValue k u v w = .blocked ∧ PostEZCount k u c w = .blocked
        ∧ PostEZCountOne k u w = .blocked ∧ PostEZValue k u v w = .blocked) := by
  have hp := fun sr => enqueue_open sr w hopen
  refine ⟨?_, ?_, ?_⟩
  · intro o ho msg w1
    simp only [PostCount, PostCountOne, PostValue, PostEZCount, PostEZCountOne, PostEZValue, hp,
      List.mem_cons, List.mem_singleton, List.not_mem_nil, or_false] at ho
    by_cases hlen : w.statReportChannel.buf.length < w.statReportChannel.cap
    · simp only [hlen, if_true] at ho
      rcases ho with h | h | h | h | h | h <;> rw [h] <;> simp
    · simp only [hlen, if_false] at ho
      rcases ho with h | h | h | h | h | h <;> rw [h] <;> simp
  · intro hlen
    simp only [PostCount, PostCountOne, PostValue, PostEZCount, PostEZCountOne, PostEZValue, hp,
      hlen, if_true, and_self]
  · intro hlen
    simp only [PostCount, PostCountOne, PostValue, PostEZCount, PostEZCountOne, PostEZValue, hp,
      hlen, if_false, and_self]

/-- The instance of the amended C5 at the fresh program: `PostCount("statkey", "userkey", 13)`
returns nil with the report queued. -/
theorem C5_post_on_open_queue_never_panics_witness :
    init.statReportChannel.closed = false
    ∧ init.statReportChannel.buf.length < init.statReportChannel.cap
    ∧ PostCount "statkey" "userkey" 13 init = .returned none { init with statReportChannel :=
        { init.statReportChannel with
          buf := init.statReportChannel.buf ++ [newClassicStatCount "statkey" "userkey" 13] } } :=
  ⟨by decide, by decide,
    ((C5_post_on_open_queue_never_panics init "statkey" "userkey" 13 lit_2_13
      (by decide)).2.1 (by decide)).1⟩

/-- C6: outside test mode, whatever the transport returns (an error or a body, depending
in any way on the call and on the calls before it), a dispatcher at its receive that runs one
iteration per queued report calls the transport once for each report, in queue order, and
ends at its receive with the queue empty: an error neither stops the loop nor puts the report
back nor skips the next one. Each single iteration takes the head of the queue, hands it to
the transport and returns to the receive. -/
theorem C6_transport_failure_recovered (post : Transport) (w : World)
    (htest : w.testingEnv = false) (hrecv : w.dispatcher = .receiving) :
    (∃ w1, run post w (drainSchedule false w.statReportChannel.buf.length) = .ok w1
      ∧ w1.httpPosts = w.httpPosts ++ w.statReportChannel.buf.map delivery
      ∧ w1.statReportChannel.buf = []
      ∧ w1.dispatcher = .receiving)
    ∧ (∀ sr rest, w.statReportChannel.buf = sr :: rest →
        ∃ w1, processStats post w = some w1
          ∧ w1.httpPosts = w.httpPosts ++ [delivery sr]
          ∧ w1.statReportChannel.buf = rest
          ∧ w1.dispatcher = .receiving) := by
  constructor
  · obtain ⟨w1, hr, h1, h2, _, _, _, h6⟩ := drain_run post false _ w rfl hrecv htest
    refine ⟨w1, hr, ?_, ?_, h2⟩
    · simpa using h6
    · rw [h1]
  · intro sr rest hb
    obtain ⟨w1, hp, hch, _, _, _, _, hdi, hht⟩ := processStats_value post w sr rest hrecv hb
    refine ⟨w1, hp, ?_, ?_, ?_⟩
    · simpa [htest] using hht
    · rw [hch]
    · simpa [htest] using hdi

/-- The instance of C6 at two queued reports and a transport that fails on every call. -/
theorem C6_transport_failure_recovered_witness :
    twoQueued.testingEnv = false ∧ twoQueued.dispatcher = .receiving
    ∧ ∃ w1, run refusing twoQueued (drainSchedule false twoQueued.statReportChannel.buf.length)
          = .ok w1
        ∧ w1.httpPosts = twoQueued.httpPosts ++ twoQueued.statReportChannel.buf.map delivery
        ∧ w1.statReportChannel.buf = []
        ∧ w1.dispatcher = .receiving :=
  ⟨by decide, by decide,
    (C6_transport_failure_recovered refusing twoQueued (by decide) (by decide)).1⟩

/-- What a step can do to the dispatcher and to the waiter. -/
theorem step_transitions (post : Transport) (w w1 : World) (ev : Event)
    (h : step post w ev = .ok w1) :
    (w.dispatcher.drained = true → w1.dispatcher.drained = true)
    ∧ (w.dispatcher = .finished → w1.dispatcher = .finished)
    ∧ (w.dispatcher.drained = false → w1.dispatcher.drained = true →
        ev = .dispatch ∧ w.statReportChannel.closed = true ∧ w.statReportChannel.buf = []
          ∧ w1.dispatcher = .sendingDone)
    ∧ (w.waiter = .selecting → w1.waiter = .returned false → ev = .waitTimeout)
    ∧ (w.waiter = .selecting → w1.waiter = .returned true →
        ev = .waitDone ∧ w.dispatcher = .sendingDone ∧ w1.dispatcher = .finished)
    ∧ (w.waiter = .selecting → ev = .waitTimeout → w1.waiter = .returned false)
    ∧ (w.waiter = .selecting → ev = .waitDone → w1.waiter = .returned true) := by
  cases hr : ev.report with
  | some sr =>
    obtain ⟨_, hw1⟩ := step_report post w w1 ev sr hr h
    subst hw1
    refine ⟨id, id, ?_, ?_, ?_, ?_, ?_⟩
    · intro h1 h2; rw [h1] at h2; cases h2
    · intro h1 h2; rw [h1] at h2; cases h2
    · intro h1 h2; rw [h1] at h2; cases h2
    · intro _ h2; rw [h2] at hr; cases hr
    · intro _ h2; rw [h2] at hr; cases hr
  | none =>
    cases ev <;> simp [Event.report] at hr
    case dispatch =>
      simp only [step] at h
      cases hp : processStats post w with
      | none => rw [hp] at h; simp [stepOfOption] at h
      | some w2 =>
        rw [hp] at h
        simp [stepOfOption] at h
        subst h
        obtain ⟨hd, hcase⟩ := processStats_ok post w w2 hp
        rcases hcase with ⟨sr, rest, _, _, _, _, hwa, _, hdi, _⟩ | ⟨hb, hc, hw1⟩
        · have hnd : w2.dispatcher.drained = false := by
            rw [hdi]; cases w.testingEnv <;> rfl
          refine ⟨?_, ?_, ?_, ?_, ?_, ?_, ?_⟩
          · intro h1; rw [hd] at h1; cases h1
          · intro h1; rw [hd] at h1; cases h1
          · intro _ h2; rw [hnd] at h2; cases h2
          · intro h1 h2; rw [hwa, h1] at h2; cases h2
          · intro h1 h2; rw [hwa, h1] at h2; cases h2
          · intro _ h2; cases h2
          · intro _ h2; cases h2
        · subst hw1
          refine ⟨fun _ => rfl, ?_, ?_, ?_, ?_, ?_, ?_⟩
          · intro h1; rw [hd] at h1; cases h1
          · intro _ _; exact ⟨rfl, hc, hb, rfl⟩
          · intro h1 h2; rw [h1] at h2; cases h2
          · intro h1 h2; rw [h1] at h2; cases h2
          · intro _ h2; cases h2
          · intro _ h2; cases h2
    case testReceive =>
      simp only [step] at h
      cases hp : receiveTestPost w with
      | none => rw [hp] at h; simp [stepOfOption] at h
      | some w2 =>
        rw [hp] at h
        simp [stepOfOption] at h
        subst h
        obtain ⟨p, hd, hw2⟩ := receiveTestPost_ok w w2 hp
        subst hw2
        refine ⟨?_, ?_, ?_, ?_, ?_, ?_, ?_⟩
        · intro h1; rw [hd] at h1; cases h1
        · intro h1; rw [hd] at h1; cases h1
        · intro _ h2; cases h2
        · intro h1 h2; rw [h1] at h2; cases h2
        · intro h1 h2; rw [h1] at h2; cases h2
        · intro _ h2; cases h2
        · intro _ h2; cases h2
    case waitClose =>
      simp only [step] at h
      obtain ⟨_, hw1⟩ := closeQueue_ok w w1 h
      subst hw1
      refine ⟨id, id, ?_, ?_, ?_, ?_, ?_⟩
      · intro h1 h2; rw [h1] at h2; cases h2
      · intro _ h2; cases h2
      · intro _ h2; cases h2
      · intro _ h2; cases h2
      · intro _ h2; cases h2
    case waitDone =>
      simp only [step] at h
      obtain ⟨_, hd, hw1⟩ := selectDone_ok w w1 h
      subst hw1
      refine ⟨fun _ => rfl, fun _ => rfl, ?_, ?_, ?_, ?_, ?_⟩
      · intro h1; rw [hd] at h1; cases h1
      · intro _ h2; cases h2
      · intro _ _; exact ⟨rfl, hd, rfl⟩
      · intro _ h2; cases h2
      · intro _ _; rfl
    case waitTimeout =>
      simp only [step] at h
      obtain ⟨_, hw1⟩ := selectTimeout_ok w w1 h
      subst hw1
      refine ⟨id, id, ?_, ?_, ?_, ?_, ?_⟩
      · intro h1 h2; rw [h1] at h2; cases h2
      · intro _ _; rfl
      · intro _ h2; cases h2
      · intro _ _; rfl
      · intro _ h2; cases h2

theorem run_closed_no_reports (post : Transport) (evs : List Event) :
    ∀ (w w1 : World), run post w evs = .ok w1 → w.statReportChannel.closed = true →
      enqueuedReports evs = [] := by
  induction evs with
  | nil => intro w w1 _ _; rfl
  | cons ev evs ih =>
    intro w w1 h hc
    obtain ⟨w2, hs, hr⟩ := run_cons_ok post w w1 ev evs h
    have h2 := ih w2 w1 hr (step_closed post w w2 ev hs hc)
    cases hrep : ev.report with
    | some sr =>
      obtain ⟨hc2, _⟩ := step_report post w w2 ev sr hrep hs
      rw [hc] at hc2
      cases hc2
    | none =>
      unfold enqueuedReports at h2 ⊢
      simp [List.filterMap_cons, hrep, h2]

/-- A call of `WaitUntilFinished` that returns is its close, the steps taken meanwhile, and
the select case that fired; the result tells which case. -/
theorem WaitUntilFinished_returned (post : Transport) (during : List Event)
    (fired : selectCase) (w w3 : World) (b : Bool)
    (h : WaitUntilFinished post during fired w = .returned b w3) :
    (b = true ↔ fired = .done) ∧ (b = false ↔ fired = .timeout)
    ∧ ∃ w1 w2, step post w .waitClose = .ok w1 ∧ run post w1 during = .ok w2
      ∧ step post w2 fired.event = .ok w3 := by
  unfold WaitUntilFinished at h
  cases hc : closeQueue w with
  | panic msg => rw [hc] at h; cases h
  | disabled => rw [hc] at h; cases h
  | ok w1 =>
    rw [hc] at h
    simp only at h
    cases hr : run post w1 during with
    | panic msg => rw [hr] at h; cases h
    | disabled => rw [hr] at h; cases h
    | ok w2 =>
      rw [hr] at h
      simp only at h
      cases fired with
      | done =>
        simp only at h
        cases hs : selectDone w2 with
        | panic msg => rw [hs] at h; cases h
        | disabled => rw [hs] at h; cases h
        | ok w4 =>
          rw [hs] at h
          simp only [WaitOutcome.returned.injEq] at h
          obtain ⟨hb, hw⟩ := h
          subst hb; subst hw
          exact ⟨by simp, by simp, w1, w2, hc, hr, hs⟩
      | timeout =>
        simp only at h
        cases hs : selectTimeout w2 with
        | panic msg => rw [hs] at h; cases h
        | disabled => rw [hs] at h; cases h
        | ok w4 =>
          rw [hs] at h
          simp only [WaitOutcome.returned.injEq] at h
          obtain ⟨hb, hw⟩ := h
          subst hb; subst hw
          exact ⟨by simp, by simp, w1, w2, hc, hr, hs⟩

theorem closeQueue_open (w : World) (hc : w.statReportChannel.closed = false) :
    closeQueue w = .ok { w with statReportChannel := { w.statReportChannel with closed := true },
                                waiter := .selecting } := by
  simp [closeQueue, Chan.close, hc]

/-- A step other than the two select cases leaves a call of `WaitUntilFinished` at its
`select`. -/
theorem step_waiter_selecting (post : Transport) (w w1 : World) (ev : Event)
    (h : step post w ev = .ok w1) (hw : w.waiter = .selecting)
    (h1 : ev ≠ .waitDone) (h2 : ev ≠ .waitTimeout) : w1.waiter = .selecting := by
  cases hr : ev.report with
  | some sr =>
    obtain ⟨_, hw1⟩ := step_report post w w1 ev sr hr h
    subst hw1
    exact hw
  | none =>
    cases ev <;> simp [Event.report] at hr
    case dispatch =>
      simp only [step] at h
      cases hp : processStats post w with
      | none => rw [hp] at h; simp [stepOfOption] at h
      | some w2 =>
        rw [hp] at h
        simp [stepOfOption] at h
        subst h
        obtain ⟨_, hcase⟩ := processStats_ok post w w2 hp
        rcases hcase with ⟨sr, rest, _, _, _, _, hwa, _⟩ | ⟨_, _, hw1⟩
        · rw [hwa]; exact hw
        · subst hw1; exact hw
    case testReceive =>
      simp only [step] at h
      cases hp : receiveTestPost w with
      | none => rw [hp] at h; simp [stepOfOption] at h
      | some w2 =>
        rw [hp] at h
        simp [stepOfOption] at h
        subst h
        obtain ⟨p, _, hw2⟩ := receiveTestPost_ok w w2 hp
        subst hw2
        exact hw
    case waitClose =>
      simp only [step] at h
      obtain ⟨_, hw1⟩ := closeQueue_ok w w1 h
      subst hw1
      rfl
    case waitDone => exact absurd rfl h1
    case waitTimeout => exact absurd rfl h2

theorem run_waiter_selecting (post : Transport) (evs : List Event) :
    ∀ (w w1 : World), run post w evs = .ok w1 → w.waiter = .selecting →
      Event.waitDone ∉ evs → Event.waitTimeout ∉ evs → w1.waiter = .selecting := by
  induction evs with
  | nil =>
    intro w w1 h hw _ _
    simp only [run, StepResult.ok.injEq] at h
    subst h
    exact hw
  | cons ev evs ih =>
    intro w w1 h hw h1 h2
    obtain ⟨w2, hs, hr⟩ := run_cons_ok post w w1 ev evs h
    have hw2 := step_waiter_selecting post w w2 ev hs hw
      (fun he => h1 (by rw [he]; exact List.mem_cons_self _ _))
      (fun he => h2 (by rw [he]; exact List.mem_cons_self _ _))
    exact ih w2 w1 hr hw2 (fun hm => h1 (List.mem_cons_of_mem _ hm))
      (fun hm => h2 (List.mem_cons_of_mem _ hm))

/-- The result of a call of `WaitUntilFinished` on an open queue, by the select case that
fires after the steps `during` of the rest of the program: the timeout case can always fire
and gives `false`; the case `<-done` can fire only while the dispatcher is at its send on
`done`, and gives `true`. -/
theorem WaitUntilFinished_open (post : Transport) (during : List Event) (w w2 : World)
    (hc : w.statReportChannel.closed = false)
    (hr : run post { w with statReportChannel := { w.statReportChannel with closed := true },
                            waiter := .selecting } during = .ok w2)
    (h1 : Event.waitDone ∉ during) (h2 : Event.waitTimeout ∉ during) :
    WaitUntilFinished post during .timeout w
      = .returned false { w2 with waiter := .returned false }
    ∧ WaitUntilFinished post during .done w
      = (if w2.dispatcher = .sendingDone then
          .returned true { w2 with waiter := .returned true, dispatcher := .finished }
        else .blocked) := by
  have hw2 := run_waiter_selecting post during _ w2 hr rfl h1 h2
  constructor
  · simp [WaitUntilFinished, closeQueue_open w hc, hr, selectTimeout, hw2]
  · by_cases hd : w2.dispatcher = .sendingDone
    · simp [WaitUntilFinished, closeQueue_open w hc, hr, selectDone, hw2, hd]
    · simp [WaitUntilFinished, closeQueue_open w hc, hr, selectDone, hw2, hd]

/-- From every world a schedule leads to with the queue still open, a call of
`WaitUntilFinished` during which the dispatcher works through the queue returns `true`. -/
theorem WaitUntilFinished_drains (post : Transport) (testing verbose : Bool)
    (evs : List Event) (w : World) (h : run post (start testing verbose) evs = .ok w)
    (hc : w.statReportChannel.closed = false) :
    ∃ w3, WaitUntilFinished post
        (w.dispatcher.inFlight.map (fun _ => Event.testReceive)
          ++ drainSchedule testing w.statReportChannel.buf.length ++ [Event.dispatch])
        .done w = .returned true w3 := by
  have hi := run_inv post evs [] _ w h (inv_start testing verbose)
  have ht : w.testingEnv = testing := by
    rw [run_testingEnv post evs _ w h, start_testingEnv]
  have hnd : w.dispatcher.drained = false := by
    cases hdd : w.dispatcher.drained with
    | false => rfl
    | true =>
      have := (hi.drained hdd).1
      rw [hc] at this
      cases this
  -- the world after the dispatcher's pending send, if any, has been received
  have key : ∀ w1 : World, w1.dispatcher = .receiving → w1.testingEnv = testing →
      w1.statReportChannel.closed = true → w1.waiter = .selecting →
      ∃ w3, run post w1 (drainSchedule testing w1.statReportChannel.buf.length
          ++ [Event.dispatch]) = .ok w3
        ∧ w3.dispatcher = .sendingDone ∧ w3.waiter = .selecting := by
    intro w1 hd1 ht1 hc1 hw1
    obtain ⟨w2, hr, hch, hd2, _, hwa, _, _⟩ := drain_run post testing _ w1 rfl hd1 ht1
    have hb2 : w2.statReportChannel.buf = [] := by rw [hch]
    have hc2 : w2.statReportChannel.closed = true := by rw [hch]; exact hc1
    have hp := processStats_empty post w2 hd2 hb2
    rw [hc2] at hp
    simp only [if_true] at hp
    refine ⟨{ w2 with dispatcher := .sendingDone }, ?_, rfl, ?_⟩
    · rw [run_append post _ _ w1 w2 hr]
      simp [run, step, hp, stepOfOption]
    · show w2.waiter = .selecting
      rw [hwa]; exact hw1
  have fin : ∀ (during : List Event) (w3 : World),
      run post { w with statReportChannel := { w.statReportChannel with closed := true },
                        waiter := .selecting } during = .ok w3 →
      w3.dispatcher = .sendingDone → w3.waiter = .selecting →
      ∃ w4, WaitUntilFinished post during .done w = .returned true w4 := by
    intro during w3 hr hd3 hw3
    exact ⟨{ w3 with waiter := .returned true, dispatcher := .finished }, by
      simp [WaitUntilFinished, closeQueue_open w hc, hr, selectDone, hw3, hd3]⟩
  cases hd : w.dispatcher with
  | receiving =>
    obtain ⟨w3, hr, hd3, hw3⟩ := key
      { w with statReportChannel := { w.statReportChannel with closed := true },
               waiter := .selecting } hd ht rfl rfl
    apply fin _ w3 _ hd3 hw3
    simpa [dispatcherState.inFlight] using hr
  | sendingTestPost p =>
    obtain ⟨w3, hr, hd3, hw3⟩ := key
      { w with statReportChannel := { w.statReportChannel with closed := true },
               waiter := .selecting, testPosts := w.testPosts ++ [p],
               dispatcher := .receiving } rfl ht rfl rfl
    apply fin _ w3 _ hd3 hw3
    have hrecv : receiveTestPost
        { w with statReportChannel := { w.statReportChannel with closed := true },
                 waiter := .selecting }
        = some { w with statReportChannel := { w.statReportChannel with closed := true },
                        waiter := .selecting, testPosts := w.testPosts ++ [p],
                        dispatcher := .receiving } := by
      simp [receiveTestPost, hd]
    simp only [dispatcherState.inFlight, List.map_cons, List.map_nil, List.cons_append,
      List.nil_append, run, step, hrecv, stepOfOption]
    exact hr
  | sendingDone => rw [hd] at hnd; cases hnd
  | finished => rw [hd] at hnd; cases hnd

/-- What holds in every world reached from the start of a program. -/
theorem drained_all_handed (post : Transport) (testing verbose : Bool) (evs : List Event)
    (w : World) (h : run post (start testing verbose) evs = .ok w)
    (hd : w.dispatcher.drained = true) :
    w.statReportChannel.closed = true ∧ w.statReportChannel.buf = []
    ∧ (if testing then w.testPosts else w.httpPosts) = (enqueuedReports evs).map delivery := by
  have hi := run_inv post evs [] _ w h (inv_start testing verbose)
  simp only [List.nil_append] at hi
  have ht : w.testingEnv = testing := by
    rw [run_testingEnv post evs _ w h, start_testingEnv]
  obtain ⟨hc, hb⟩ := hi.drained hd
  refine ⟨hc, hb, ?_⟩
  have hf := hi.fifo
  have hfl : w.dispatcher.inFlight = [] := by
    cases hdd : w.dispatcher <;> simp [hdd, dispatcherState.drained] at hd <;> rfl
  simp only [World.handedOver, hfl, hb, List.map_nil, List.append_nil] at hf
  cases testing with
  | true => simpa [hi.mode ht] using hf
  | false => simpa [(hi.nomode ht).1] using hf

/-- C7: drain. In every world a schedule leads to from the start of a program: a
dispatcher that signals or has signalled done has seen the queue closed and empty, with every
report enqueued handed to the test sink (test mode) or the transport (otherwise), in order;
a step takes the dispatcher into the drained state only as the dispatcher step that finds the
queue closed and empty, and never out of it; a call of `WaitUntilFinished` that returns has
returned `true` exactly when its case `<-done` fired and `false` exactly when its timeout
case fired; and when it has returned `true` the dispatcher has left its loop, the queue is
empty, and every report enqueued before the call has been handed over, in order. Both results
are produced: while the queue is open, the call returns `true` when the dispatcher works
through the queue before the select, it returns `false` when the timeout fires at once, and
after any steps of the rest of the program it returns `false` if the timeout fires, whereas
its case `<-done` gives `true` if the dispatcher is at its send on `done` and cannot fire
otherwise. -/
theorem C7_drain (post : Transport) (testing verbose : Bool) (evs : List Event) (w : World)
    (h : run post (start testing verbose) evs = .ok w) :
    (w.dispatcher.drained = true →
      w.statReportChannel.closed = true ∧ w.statReportChannel.buf = []
      ∧ (if testing then w.testPosts else w.httpPosts) = (enqueuedReports evs).map delivery)
    ∧ (∀ ev w1, step post w ev = .ok w1 →
      (w.dispatcher.drained = true → w1.dispatcher.drained = true)
      ∧ (w.dispatcher = .finished → w1.dispatcher = .finished)
      ∧ (w.dispatcher.drained = false → w1.dispatcher.drained = true →
          ev = .dispatch ∧ w.statReportChannel.closed = true ∧ w.statReportChannel.buf = []
            ∧ w1.dispatcher = .sendingDone)
      ∧ (w.waiter = .selecting → w1.waiter = .returned false → ev = .waitTimeout)
      ∧ (w.waiter = .selecting → w1.waiter = .returned true →
          ev = .waitDone ∧ w.dispatcher = .sendingDone ∧ w1.dispatcher = .finished)
      ∧ (w.waiter = .selecting → ev = .waitTimeout → w1.waiter = .returned false)
      ∧ (w.waiter = .selecting → ev = .waitDone → w1.waiter = .returned true))
    ∧ (∀ during fired b w3, WaitUntilFinished post during fired w = .returned b w3 →
      (b = true ↔ fired = .done) ∧ (b = false ↔ fired = .timeout)
      ∧ (b = true →
          w3.dispatcher = .finished ∧ w3.statReportChannel.buf = []
          ∧ (if testing then w3.testPosts else w3.httpPosts)
              = (enqueuedReports evs).map delivery))
    ∧ (w.statReportChannel.closed = false →
      (∃ w3, WaitUntilFinished post
          (w.dispatcher.inFlight.map (fun _ => Event.testReceive)
            ++ drainSchedule testing w.statReportChannel.buf.length ++ [Event.dispatch])
          .done w = .returned true w3)
      ∧ WaitUntilFinished post [] .timeout w
          = .returned false
              { w with statReportChannel := { w.statReportChannel with closed := true },
                       waiter := .returned false }
      ∧ WaitUntilFinished post [] .done w = .blocked
      ∧ ∀ during w2,
          run post { w with statReportChannel := { w.statReportChannel with closed := true },
                            waiter := .selecting } during = .ok w2 →
          Event.waitDone ∉ during → Event.waitTimeout ∉ during →
          WaitUntilFinished post during .timeout w
            = .returned false { w2 with waiter := .returned false }
          ∧ WaitUntilFinished post during .done w
            = (if w2.dispatcher = .sendingDone then
                .returned true { w2 with waiter := .returned true, dispatcher := .finished }
              else .blocked)) := by
  refine ⟨drained_all_handed post testing verbose evs w h,
    fun ev w1 hs => step_transitions post w w1 ev hs, ?_, ?_⟩
  · intro during fired b w3 hw
    obtain ⟨hb1, hb2, w1, w2, hclose, hr2, hs2⟩ :=
      WaitUntilFinished_returned post during fired w w3 b hw
    refine ⟨hb1, hb2, ?_⟩
    intro hb
    have hfired : fired = .done := hb1.mp hb
    subst hfired
    simp only [selectCase.event] at hs2
    have hall : run post (start testing verbose)
        (evs ++ Event.waitClose :: (during ++ [Event.waitDone])) = .ok w3 := by
      rw [run_append post evs _ _ w h]
      simp only [run, hclose]
      rw [run_append post during _ w1 w2 hr2]
      simp only [run, hs2]
    have hc1 : w1.statReportChannel.closed = true := by
      simp only [step] at hclose
      obtain ⟨_, hw1⟩ := closeQueue_ok w w1 hclose
      subst hw1
      rfl
    have hnone := run_closed_no_reports post during w1 w2 hr2 hc1
    have hfin : w3.dispatcher = .finished := by
      simp only [step] at hs2
      obtain ⟨_, _, hw3⟩ := selectDone_ok w2 w3 hs2
      subst hw3
      rfl
    have hd3 : w3.dispatcher.drained = true := by rw [hfin]; rfl
    obtain ⟨_, hbuf, hall3⟩ := drained_all_handed post testing verbose _ w3 hall hd3
    refine ⟨hfin, hbuf, ?_⟩
    rw [hall3]
    congr 1
    have e1 : enqueuedReports (evs ++ Event.waitClose :: (during ++ [Event.waitDone]))
        = enqueuedReports evs ++ enqueuedReports during := by
      unfold enqueuedReports
      simp [List.filterMap_append, List.filterMap_cons, Event.report]
    rw [e1, hnone, List.append_nil]
  · intro hc
    have hi := run_inv post evs [] _ w h (inv_start testing verbose)
    have hnd : w.dispatcher ≠ .sendingDone := by
      intro hd
      have := (hi.drained (by rw [hd]; rfl)).1
      rw [hc] at this
      cases this
    have h0 := WaitUntilFinished_open post [] w _ hc rfl (by simp) (by simp)
    refine ⟨WaitUntilFinished_drains post testing verbose evs w h hc, h0.1, ?_, ?_⟩
    · rw [h0.2]
      exact if_neg hnd
    · intro during w2 hr h1 h2
      exact WaitUntilFinished_open post during w w2 hc hr h1 h2

/-- The instance of C7 at a program that posts one count and then calls
`WaitUntilFinished`. When the dispatcher takes two steps during the call and done is
received, the call returns `true` and the report has been handed to the transport; when the
timeout fires before the dispatcher has moved, the call returns `false` with the report
still queued. -/
theorem C7_drain_witness :
    run refusing (start false false) samplePostSchedule
      = .ok (worldAfter refusing (start false false) samplePostSchedule)
    ∧ WaitUntilFinished refusing [.dispatch, .dispatch] .done
        (worldAfter refusing (start false false) samplePostSchedule)
      = .returned true (worldAfter refusing (start false false) sampleDrainSchedule)
    ∧ ((worldAfter refusing (start false false) sampleDrainSchedule).dispatcher = .finished
      ∧ (worldAfter refusing (start false false) sampleDrainSchedule).statReportChannel.buf = []
      ∧ (worldAfter refusing (start false false) sampleDrainSchedule).httpPosts
          = (enqueuedReports samplePostSchedule).map delivery)
    ∧ (worldAfter refusing (start false false) samplePostSchedule).statReportChannel.closed
        = false
    ∧ WaitUntilFinished refusing [] .timeout
        (worldAfter refusing (start false false) samplePostSchedule)
      = .returned false
          { worldAfter refusing (start false false) samplePostSchedule with
            statReportChannel :=
              { (worldAfter refusing (start false false) samplePostSchedule).statReportChannel
                  with closed := true },
            waiter := .returned false } :=
  ⟨by decide, by decide,
    ((C7_drain refusing false false samplePostSchedule
        (worldAfter refusing (start false false) samplePostSchedule) (by decide)).2.2.1
      [.dispatch, .dispatch] .done true
      (worldAfter refusing (start false false) sampleDrainSchedule) (by decide)).2.2 rfl,
    by decide,
    ((C7_drain refusing false false samplePostSchedule
        (worldAfter refusing (start false false) samplePostSchedule) (by decide)).2.2.2
      (by decide)).2.1⟩

theorem valueString_count_one (k u : String) :
    (newClassicStatCount k u 1).valueString = "1" := by
  have h : FormatFloat (float64OfInt 1) = "1" := by decide
  simpa [statReport.valueString, newClassicStatCount] using h

/-- C10: `PostCountOne(statKey, userKey)` is `PostCount(statKey, userKey, 1)` and
`PostEZCountOne(name, ezkey)` is `PostEZCount(name, ezkey, 1)`: the same outcome in every
world and the same report enqueued; and in a test, after `PostCountOne`, one iteration of the
dispatcher and the test's receive, the test has received exactly one post, with URL
`"http://api.stathat.com/c"` and parameters `key: statKey, ukey: userKey, count: "1"`. -/
theorem C10_count_one (post : Transport) (verbose : Bool) (k u : String) (w : World) :
    PostCountOne k u w = PostCount k u 1 w
    ∧ PostEZCountOne k u w = PostEZCount k u 1 w
    ∧ Event.report (.PostCountOne k u) = Event.report (.PostCount k u 1)
    ∧ Event.report (.PostEZCountOne k u) = Event.report (.PostEZCount k u 1)
    ∧ ∃ w1 p, run post (start true verbose) [.PostCountOne k u, .dispatch, .testReceive] = .ok w1
        ∧ w1.testPosts = [p]
        ∧ p.url = "http://api.stathat.com/c"
        ∧ Values.holdsExactly p.values [("key", k), ("ukey", u), ("count", "1")] := by
  refine ⟨rfl, rfl, rfl, rfl, ?_⟩
  have hstep : step post (start true verbose) (.PostCountOne k u)
      = .ok { start true verbose with statReportChannel :=
          { buf := [newClassicStatCount k u 1], cap := 100000, closed := false } } := by
    cases verbose <;> rfl
  obtain ⟨w1, hr, _, _, _, _, h5, _⟩ := drain_run post true 1
    { start true verbose with statReportChannel :=
        { buf := [newClassicStatCount k u 1], cap := 100000, closed := false } }
    rfl (by cases verbose <;> rfl) (by cases verbose <;> rfl)
  refine ⟨w1, delivery (newClassicStatCount k u 1), ?_, ?_, ?_, ?_⟩
  · simp only [run, hstep]
    simpa [drainSchedule, run] using hr
  · rw [h5]
    cases verbose <;> simp [start, setVerbose, setTesting, init]
  · exact url_newClassicStatCount k u 1
  · simp only [delivery]
    rw [values_newClassicStatCount, valueString_count_one]
    exact holdsExactly_three _ _ _ _ _ _ (by decide) (by decide) (by decide)

/-! ## 6. Theorems: number formatting -/

theorem toDigitsCore_acc (f : Nat) : ∀ (n : Nat) (ds : List Char),
    Nat.toDigitsCore 10 f n ds = Nat.toDigitsCore 10 f n [] ++ ds := by
  induction f with
  | zero => intro n ds; simp [Nat.toDigitsCore]
  | succ f ih =>
    intro n ds
    simp only [Nat.toDigitsCore]
    by_cases h : n / 10 = 0
    · simp [h]
    · simp only [h, if_false]
      rw [ih (n / 10) (Nat.digitChar (n % 10) :: ds), ih (n / 10) [Nat.digitChar (n % 10)]]
      simp

theorem toDigitsCore_fuel (f : Nat) : ∀ (g n : Nat), n < f → n < g →
    Nat.toDigitsCore 10 f n [] = Nat.toDigitsCore 10 g n [] := by
  induction f with
  | zero => intro g n h; omega
  | succ f ih =>
    intro g n hf hg
    cases g with
    | zero => omega
    | succ g =>
      simp only [Nat.toDigitsCore]
      by_cases h : n / 10 = 0
      · simp [h]
      · simp only [h, if_false]
        rw [toDigitsCore_acc f, toDigitsCore_acc g]
        have h1 : n / 10 < f := by omega
        have h2 : n / 10 < g := by omega
        rw [ih g (n / 10) h1 h2]

theorem toDigits_small (n : Nat) (h : n < 10) : Nat.toDigits 10 n = [Nat.digitChar n] := by
  have h0 : n / 10 = 0 := by omega
  have h1 : n % 10 = n := by omega
  simp [Nat.toDigits, Nat.toDigitsCore, h0, h1]

theorem toDigits_large (n : Nat) (h : 10 ≤ n) :
    Nat.toDigits 10 n = Nat.toDigits 10 (n / 10) ++ [Nat.digitChar (n % 10)] := by
  have h0 : n / 10 ≠ 0 := by omega
  have e : Nat.toDigitsCore 10 (n + 1) n []
      = Nat.toDigitsCore 10 n (n / 10) [Nat.digitChar (n % 10)] := by
    simp [Nat.toDigitsCore, h0]
  show Nat.toDigitsCore 10 (n + 1) n []
    = Nat.toDigitsCore 10 (n / 10 + 1) (n / 10) [] ++ [Nat.digitChar (n % 10)]
  rw [e, toDigitsCore_acc]
  congr 1
  apply toDigitsCore_fuel <;> omega

theorem toDigits_mul_ten (n : Nat) (h : 0 < n) :
    Nat.toDigits 10 (n * 10) = Nat.toDigits 10 n ++ ['0'] := by
  rw [toDigits_large (n * 10) (by omega)]
  have h1 : n * 10 / 10 = n := by omega
  have h2 : n * 10 % 10 = 0 := by omega
  rw [h1, h2]
  rfl

theorem toDigits_mul_pow (n : Nat) (h : 0 < n) (a : Nat) :
    Nat.toDigits 10 (n * 10 ^ a) = Nat.toDigits 10 n ++ List.replicate a '0' := by
  induction a with
  | zero => simp
  | succ a ih =>
    have hp : 0 < n * 10 ^ a := Nat.mul_pos h (Nat.pow_pos (by decide))
    rw [pow_succ, ← Nat.mul_assoc, toDigits_mul_ten _ hp, ih, List.append_assoc]
    congr 1
    rw [List.replicate_succ']

theorem digitChar_toNat (d : Nat) (h : d < 10) : (Nat.digitChar d).toNat - 48 = d := by
  interval_cases d <;> rfl

theorem digitsToNat_append (ds : List Char) (c : Char) :
    digitsToNat (ds ++ [c]) = digitsToNat ds * 10 + (c.toNat - 48) := by
  simp [digitsToNat, List.foldl_append]

theorem digitsToNat_toDigits (n : Nat) : digitsToNat (Nat.toDigits 10 n) = n := by
  induction n using Nat.strong_induction_on with
  | _ n ih =>
    by_cases h : n < 10
    · rw [toDigits_small n h]
      simp [digitsToNat, digitChar_toNat n h]
    · rw [toDigits_large n (by omega), digitsToNat_append, ih (n / 10) (by omega),
        digitChar_toNat _ (Nat.mod_lt _ (by decide))]
      omega

theorem digitsToNat_zeros (ds : List Char) (z : Nat) :
    digitsToNat (ds ++ List.replicate z '0') = digitsToNat ds * 10 ^ z := by
  induction z with
  | zero => simp
  | succ z ih =>
    rw [List.replicate_succ', ← List.append_assoc, digitsToNat_append, ih, pow_succ]
    simp [Nat.mul_assoc]

theorem dropWhile_zero_decomp (l : List Char) :
    ∃ k, l = List.replicate k '0' ++ l.dropWhile (fun c => c == '0') := by
  induction l with
  | nil => exact ⟨0, rfl⟩
  | cons c l ih =>
    by_cases h : c = '0'
    · obtain ⟨k, hk⟩ := ih
      refine ⟨k + 1, ?_⟩
      subst h
      simp only [List.dropWhile_cons, beq_self_eq_true, if_true, List.replicate_succ,
        List.cons_append]
      rw [← hk]
    · refine ⟨0, ?_⟩
      have hb : (c == '0') = false := beq_eq_false_iff_ne.mpr h
      simp [List.dropWhile_cons, hb]

theorem trimDigits_decomp (ds : List Char) :
    ∃ z, ds = trimDigits ds ++ List.replicate z '0' := by
  obtain ⟨k, hk⟩ := dropWhile_zero_decomp ds.reverse
  refine ⟨k, ?_⟩
  have h := congrArg List.reverse hk
  simp only [List.reverse_reverse, List.reverse_append, List.reverse_replicate] at h
  exact h

theorem dropWhile_zero_replicate (z : Nat) (l : List Char) :
    (List.replicate z '0' ++ l).dropWhile (fun c => c == '0')
      = l.dropWhile (fun c => c == '0') := by
  induction z with
  | zero => simp
  | succ z ih => simp [List.replicate_succ, List.dropWhile_cons, ih]

theorem trimDigits_append_zeros (ds : List Char) (z : Nat) :
    trimDigits (ds ++ List.replicate z '0') = trimDigits ds := by
  simp [trimDigits, List.reverse_append, dropWhile_zero_replicate]

theorem trimDigits_toDigits_ne_nil (n : Nat) (h : 0 < n) :
    trimDigits (Nat.toDigits 10 n) ≠ [] := by
  intro hnil
  obtain ⟨z, hz⟩ := trimDigits_decomp (Nat.toDigits 10 n)
  rw [hnil] at hz
  have h1 := digitsToNat_toDigits n
  rw [hz, digitsToNat_zeros] at h1
  simp [digitsToNat] at h1
  omega

theorem decimalOfScaled_pos (n : Nat) (h : 0 < n) (e10 : Int) :
    decimalOfScaled n e10
      = ⟨trimDigits (Nat.toDigits 10 n), ((Nat.toDigits 10 n).length : Int) + e10⟩ := by
  have hn : n ≠ 0 := by omega
  simp [decimalOfScaled, hn, trim, trimDigits_toDigits_ne_nil n h]

/-- A decimal does not depend on how its value is split into digits and power of ten. -/
theorem decimalOfScaled_mul_pow (n : Nat) (h : 0 < n) (a : Nat) (e10 : Int) :
    decimalOfScaled (n * 10 ^ a) e10 = decimalOfScaled n (e10 + a) := by
  have hp : 0 < n * 10 ^ a := Nat.mul_pos h (Nat.pow_pos (by decide))
  rw [decimalOfScaled_pos _ hp, decimalOfScaled_pos _ h, toDigits_mul_pow n h,
    trimDigits_append_zeros]
  simp only [List.length_append, List.length_replicate, Nat.cast_add]
  congr 1
  omega

/-- The method `Shift` by a negative count, on the decimal of `n * 10^e10`. -/
theorem Shift_neg (n : Nat) (h : 0 < n) (e10 : Int) (j : Nat) (hj : 0 < j) :
    (decimalOfScaled n e10).Shift (-(j : Int)) = decimalOfScaled (n * 5 ^ j) (e10 - j) := by
  obtain ⟨z, hz⟩ := trimDigits_decomp (Nat.toDigits 10 n)
  have hne := trimDigits_toDigits_ne_nil n h
  have hval : n = digitsToNat (trimDigits (Nat.toDigits 10 n)) * 10 ^ z := by
    have h1 := digitsToNat_toDigits n
    rw [hz, digitsToNat_zeros] at h1
    exact h1.symm
  have hlen : (Nat.toDigits 10 n).length = (trimDigits (Nat.toDigits 10 n)).length + z := by
    have h1 := congrArg List.length hz
    simpa using h1
  have hpos : 0 < digitsToNat (trimDigits (Nat.toDigits 10 n)) := by
    rcases Nat.eq_zero_or_pos (digitsToNat (trimDigits (Nat.toDigits 10 n))) with h0 | h0
    · rw [h0] at hval; omega
    · exact h0
  have hk : ¬ (0 : Int) ≤ -(j : Int) := by omega
  have hj2 : (-(-(j : Int))).toNat = j := by simp
  rw [decimalOfScaled_pos n h]
  simp only [decimal.Shift, hne, if_false, hk, hj2, decimal.nd]
  have hsplit : n * 5 ^ j = (digitsToNat (trimDigits (Nat.toDigits 10 n)) * 5 ^ j) * 10 ^ z := by
    conv_lhs => rw [hval]
    ring
  rw [hsplit, decimalOfScaled_mul_pow _ (Nat.mul_pos hpos (Nat.pow_pos (by decide)))]
  congr 1
  rw [hlen]
  push_cast
  ring

/-- The exact decimal of `c * 2^j * 2^(-j)` is the decimal of the integer `c`. -/
theorem Assign_Shift_integer (c j : Nat) (hc : 0 < c) (hj : 0 < j) :
    (decimal.Assign (c * 2 ^ j)).Shift (-(j : Int)) = decimalOfScaled c 0 := by
  have hp : 0 < c * 2 ^ j := Nat.mul_pos hc (Nat.pow_pos (by decide))
  rw [decimal.Assign, Shift_neg _ hp 0 j hj]
  have h10 : c * 2 ^ j * 5 ^ j = c * 10 ^ j := by
    rw [Nat.mul_assoc, ← Nat.mul_pow]
  rw [h10, decimalOfScaled_mul_pow c hc]
  congr 1
  omega

theorem highBit_spec (fuel : Nat) : ∀ n, 0 < n → n < 2 ^ fuel →
    2 ^ highBit fuel n ≤ n ∧ n < 2 ^ (highBit fuel n + 1) := by
  induction fuel with
  | zero => intro n h0 h; simp at h; omega
  | succ fuel ih =>
    intro n h0 h
    simp only [highBit]
    by_cases h2 : n < 2
    · simp only [h2, if_true]
      constructor <;> simp <;> omega
    · simp only [h2, if_false]
      have hlt : n / 2 < 2 ^ fuel := by
        rw [pow_succ] at h
        omega
      obtain ⟨h3, h4⟩ := ih (n / 2) (by omega) hlt
      constructor
      · rw [pow_succ]; omega
      · rw [pow_succ]; omega

theorem toDigits_length_le (k : Nat) : ∀ n, n < 10 ^ (k + 1) →
    (Nat.toDigits 10 n).length ≤ k + 1 := by
  induction k with
  | zero => intro n h; rw [toDigits_small n (by simpa using h)]; simp
  | succ k ih =>
    intro n h
    by_cases h10 : n < 10
    · rw [toDigits_small n h10]; simp
    · rw [toDigits_large n (by omega)]
      have h1 : n / 10 < 10 ^ (k + 1) := by
        rw [pow_succ] at h
        omega
      have := ih (n / 10) h1
      simp
      omega

theorem toDigits_length_pos (n : Nat) : 0 < (Nat.toDigits 10 n).length := by
  by_cases h10 : n < 10
  · rw [toDigits_small n h10]; simp
  · rw [toDigits_large n (by omega)]; simp

/-- The decoding done by `genericFtoa`, for a positive normal value. -/
theorem FormatFloat_normal (e M : Nat) (he : e ≤ 52) (hM : 2 ^ 52 ≤ M) (hM2 : M < 2 ^ 53) :
    FormatFloat ⟨0 + (e + 1023) * 2 ^ 52 + (M - 2 ^ 52)⟩
      = String.mk (formatDigitsG false
          (roundShortest ((decimal.Assign M).Shift ((e : Int) - 52)) M e)) := by
  norm_num at hM hM2
  have hb : (0 + (e + 1023) * 2 ^ 52 + (M - 2 ^ 52)) % 2 ^ 64
      = (e + 1023) * 2 ^ 52 + (M - 2 ^ 52) := by norm_num; omega
  have h1 : ((e + 1023) * 2 ^ 52 + (M - 2 ^ 52)) / 2 ^ 63 = 0 := by norm_num; omega
  have h2 : ((e + 1023) * 2 ^ 52 + (M - 2 ^ 52)) / 2 ^ 52 % 2 ^ 11 = e + 1023 := by
    norm_num; omega
  have h3 : ((e + 1023) * 2 ^ 52 + (M - 2 ^ 52)) % 2 ^ 52 = M - 2 ^ 52 := by norm_num; omega
  have h4 : M - 2 ^ 52 + 2 ^ 52 = M := by norm_num; omega
  have h5 : ¬ (e + 1023 = 2 ^ 11 - 1) := by norm_num; omega
  have h6 : ¬ (e + 1023 = 0) := by omega
  have h7 : ((e + 1023 : Nat) : Int) + -1023 = (e : Int) := by push_cast; ring
  simp only [FormatFloat, hb, h1, h2, h3, h4, h5, h6, if_false, h7]
  simp

/-- The early exit of `roundShortest`: the exact decimal of an integer below `2^53` is
already the shortest. -/
theorem roundShortest_integer (c M e : Nat) (hc : 0 < c) (hM : 0 < M) (he : e ≤ 52) :
    roundShortest (decimalOfScaled c 0) M e = decimalOfScaled c 0 := by
  obtain ⟨z, hz⟩ := trimDigits_decomp (Nat.toDigits 10 c)
  have hlen : (Nat.toDigits 10 c).length = (trimDigits (Nat.toDigits 10 c)).length + z := by
    simpa using congrArg List.length hz
  have hM0 : M ≠ 0 := by omega
  rw [decimalOfScaled_pos c hc]
  simp only [roundShortest, hM0, if_false, decimal.nd]
  rw [if_pos]
  constructor
  · omega
  · rw [hlen]
    push_cast
    omega

/-- The `%f` layout of the decimal of an integer with at most six digits is its numeral. -/
theorem formatDigitsG_integer (c : Nat) (hc : 0 < c) (h6 : c < 10 ^ 6) :
    formatDigitsG false (decimalOfScaled c 0) = Nat.toDigits 10 c := by
  obtain ⟨z, hz⟩ := trimDigits_decomp (Nat.toDigits 10 c)
  have hlen : (Nat.toDigits 10 c).length = (trimDigits (Nat.toDigits 10 c)).length + z := by
    simpa using congrArg List.length hz
  have hle := toDigits_length_le 5 c h6
  have hpos := toDigits_length_pos c
  rw [decimalOfScaled_pos c hc]
  simp only [formatDigitsG, decimal.nd, Int.add_zero]
  have hcond : ¬ (((Nat.toDigits 10 c).length : Int) - 1 < -4
      ∨ (6 : Int) ≤ ((Nat.toDigits 10 c).length : Int) - 1) := by omega
  rw [if_neg hcond]
  have hprec : (((trimDigits (Nat.toDigits 10 c)).length : Int)
      - ((Nat.toDigits 10 c).length : Int)).toNat = 0 := by omega
  rw [hprec]
  have hdp : (0 : Int) < ((Nat.toDigits 10 c).length : Int) := by omega
  simp only [fmtF, decimal.nd, hdp, if_true, Int.toNat_ofNat, Nat.lt_irrefl, if_false,
    Bool.false_eq_true, List.nil_append, List.append_nil]
  have hmin : min (trimDigits (Nat.toDigits 10 c)).length (Nat.toDigits 10 c).length
      = (trimDigits (Nat.toDigits 10 c)).length := by omega
  rw [hmin, List.take_length]
  have hz2 : (Nat.toDigits 10 c).length - (trimDigits (Nat.toDigits 10 c)).length = z := by omega
  rw [hz2]
  exact hz.symm

/-- For a count from 1 to 999999, `FormatFloat(float64(count), 'g', -1, 64)` is the decimal
numeral of the count. -/
theorem FormatFloat_count (c : Nat) (hc : 0 < c) (h6 : c < 10 ^ 6) :
    FormatFloat (float64OfInt (c : Int)) = Nat.repr c := by
  have h64 : c < 2 ^ 64 := by norm_num at h6 ⊢; omega
  obtain ⟨hlo, hhi⟩ := highBit_spec 64 c hc h64
  have he : highBit 64 c ≤ 19 := by
    by_contra hne
    have h20 : 2 ^ 20 ≤ 2 ^ highBit 64 c := Nat.pow_le_pow_right (by decide) (by omega)
    norm_num at h6 h20
    omega
  have hfo : float64OfInt (c : Int)
      = ⟨0 + (highBit 64 c + 1023) * 2 ^ 52 + (c * 2 ^ (52 - highBit 64 c) - 2 ^ 52)⟩ := by
    have hc0 : c ≠ 0 := by omega
    have he52 : highBit 64 c ≤ 52 := by omega
    simp [float64OfInt, hc0, he52]
  rw [hfo]
  generalize highBit 64 c = e at hlo hhi he
  have hsplit : 2 ^ 52 = 2 ^ e * 2 ^ (52 - e) := by
    rw [← pow_add]; congr 1; omega
  have hM : 2 ^ 52 ≤ c * 2 ^ (52 - e) := by
    rw [hsplit]; exact Nat.mul_le_mul_right _ hlo
  have hM2 : c * 2 ^ (52 - e) < 2 ^ 53 := by
    have h53 : 2 ^ 53 = 2 ^ (e + 1) * 2 ^ (52 - e) := by
      rw [← pow_add]; congr 1; omega
    rw [h53]
    exact Nat.mul_lt_mul_of_pos_right hhi (Nat.pow_pos (by decide))
  rw [FormatFloat_normal e _ (by omega) hM hM2]
  have hk : (e : Int) - 52 = -((52 - e : Nat) : Int) := by omega
  rw [hk, Assign_Shift_integer c (52 - e) hc (by omega),
    roundShortest_integer c _ e hc (by omega) (by omega), formatDigitsG_integer c hc h6]
  rfl

theorem digitChar_isDigit (d : Nat) (h : d < 10) : (Nat.digitChar d).isDigit = true := by
  interval_cases d <;> rfl

theorem toDigits_isDigit (n : Nat) : ∀ ch ∈ Nat.toDigits 10 n, ch.isDigit = true := by
  induction n using Nat.strong_induction_on with
  | _ n ih =>
    intro ch hch
    by_cases h : n < 10
    · rw [toDigits_small n h] at hch
      simp only [List.mem_singleton] at hch
      rw [hch]
      exact digitChar_isDigit n h
    · rw [toDigits_large n (by omega)] at hch
      simp only [List.mem_append, List.mem_singleton] at hch
      rcases hch with h1 | h1
      · exact ih (n / 10) (by omega) ch h1
      · rw [h1]
        exact digitChar_isDigit _ (Nat.mod_lt _ (by decide))

theorem valueString_count (c : Int) (h0 : 0 ≤ c) (h6 : c < 10 ^ 6) :
    FormatFloat (float64OfInt c) = Nat.repr c.toNat := by
  obtain ⟨n, rfl⟩ := Int.eq_ofNat_of_zero_le h0
  have hn : n < 10 ^ 6 := by exact_mod_cast h6
  simp only [Int.toNat_ofNat]
  rcases Nat.eq_zero_or_pos n with hz | hp
  · subst hz
    decide
  · exact FormatFloat_count n hp hn

/-- C8, refuted as stated: the count 1000000 lies between 0 and `2^53`, and the `count`
parameter built for it by `newClassicStatCount` and by `newEZStatCount` is `"1e+06"`, not the
numeral `"1000000"`. -/
theorem C8_million_has_exponent :
    (0 : Int) ≤ 1000000 ∧ (1000000 : Int) ≤ 2 ^ 53
    ∧ Values.Get (newClassicStatCount "statkey" "userkey" 1000000).values "count" = "1e+06"
    ∧ Values.Get (newEZStatCount "a stat" "pc@pc.com" 1000000).values "count" = "1e+06"
    ∧ Nat.repr 1000000 = "1000000" := by
  decide

/-- C8, amended: for every integer count `c` with `0 ≤ c < 10^6`, the `count` parameter built
for `newClassicStatCount(k, u, c)` and `newEZStatCount(k, u, c)`, the `valueString` of
`float64(c)`, is the ordinary base-10 numeral of `c`; every character of it is a decimal
digit, so it has no exponent and no decimal point. -/
theorem C8_count_numeral (k u : String) (c : Int) (h0 : 0 ≤ c) (h6 : c < 10 ^ 6) :
    (newClassicStatCount k u c).valueString = Nat.repr c.toNat
    ∧ (newEZStatCount k u c).valueString = Nat.repr c.toNat
    ∧ Values.Get (newClassicStatCount k u c).values "count" = Nat.repr c.toNat
    ∧ Values.Get (newEZStatCount k u c).values "count" = Nat.repr c.toNat
    ∧ ∀ ch ∈ (Nat.repr c.toNat).data, ch.isDigit = true := by
  have hv := valueString_count c h0 h6
  have h1 : (newClassicStatCount k u c).valueString = Nat.repr c.toNat := by
    simpa [statReport.valueString, newClassicStatCount] using hv
  have h2 : (newEZStatCount k u c).valueString = Nat.repr c.toNat := by
    simpa [statReport.valueString, newEZStatCount] using hv
  refine ⟨h1, h2, ?_, ?_, ?_⟩
  · rw [values_newClassicStatCount, h1]
    simp [Values.Get, List.lookup]
  · rw [values_newEZStatCount, h2]
    simp [Values.Get, List.lookup]
  · exact toDigits_isDigit c.toNat

/-- The instance of the amended C8 at the count 213 of the test. -/
theorem C8_count_numeral_witness :
    (0 : Int) ≤ 213 ∧ (213 : Int) < 10 ^ 6
    ∧ Values.Get (newEZStatCount "a stat" "pc@pc.com" 213).values "count"
        = Nat.repr (213 : Int).toNat
    ∧ Nat.repr (213 : Int).toNat = "213" :=
  ⟨by decide, by decide,
    (C8_count_numeral "a stat" "pc@pc.com" 213 (by decide) (by decide)).2.2.2.1, by decide⟩

/-! ## 7. Theorems: producers, constructors, fall-through branches, shutdown -/

/-- C12: none of the six producers reports a delivery outcome: whenever `PostCount`,
`PostCountOne`, `PostValue`, `PostEZCount`, `PostEZCountOne` or `PostEZValue` returns, in any
world and for any arguments, the error it returns is nil. (The transport is no input of a
producer: the call has returned before the dispatcher touches the report.) -/
theorem C12_returned_error_is_nil (w w1 : World) (k u : String) (c : Int) (v : float64)
    (e : error) (o : Outcome)
    (ho : o ∈ [PostCount k u c w, PostCountOne k u w, PostValue k u v w, PostEZCount k u c w,
      PostEZCountOne k u w, PostEZValue k u v w])
    (hret : o = .returned e w1) : e = none := by
  have key : ∀ sr, enqueue sr w = .returned e w1 → e = none := by
    intro sr h
    unfold enqueue at h
    cases hs : w.statReportChannel.send sr with
    | sent ch => rw [hs] at h; simp only [Outcome.returned.injEq] at h; exact h.1.symm
    | blocked => rw [hs] at h; cases h
    | panicClosed => rw [hs] at h; cases h
  subst hret
  simp only [List.mem_cons, List.mem_singleton, List.not_mem_nil, or_false] at ho
  rcases ho with h | h | h | h | h | h <;> exact key _ h.symm

/-- The instance of C12 at `PostEZValue("a stat", "pc@pc.com", 2.13)` on a fresh program. -/
theorem C12_returned_error_is_nil_witness :
    PostEZValue "a stat" "pc@pc.com" lit_2_13 init
      = .returned none (worldAfter refusing init [.PostEZValue "a stat" "pc@pc.com" lit_2_13])
    ∧ (none : error) = none :=
  ⟨by decide,
    C12_returned_error_is_nil init
      (worldAfter refusing init [.PostEZValue "a stat" "pc@pc.com" lit_2_13])
      "a stat" "pc@pc.com" 1 lit_2_13 none
      (PostEZValue "a stat" "pc@pc.com" lit_2_13 init) (by simp) (by decide)⟩

/-- C13: construction is total and verbatim: each of the four constructors is a function
defined on all strings (empty ones included) and all counts or values, and the report it
returns has `StatKey` and `UserKey` equal to the two arguments, `Value` equal to
`float64(count)` or to the value itself, and `(statType, apiType)` equal to `(COUNTER, EZ)`,
`(VALUE, EZ)`, `(COUNTER, CLASSIC)`, `(VALUE, CLASSIC)` for `newEZStatCount`,
`newEZStatValue`, `newClassicStatCount`, `newClassicStatValue`; the count 1 gives the
value 1.0. -/
theorem C13_construction_verbatim (a b : String) (c : Int) (v : float64) :
    newEZStatCount a b c = statReport.mk a b (float64OfInt c) COUNTER EZ
    ∧ newEZStatValue a b v = statReport.mk a b v VALUE EZ
    ∧ newClassicStatCount a b c = statReport.mk a b (float64OfInt c) COUNTER CLASSIC
    ∧ newClassicStatValue a b v = statReport.mk a b v VALUE CLASSIC
    ∧ (newEZStatCount a b c).StatKey = a ∧ (newEZStatCount a b c).UserKey = b
    ∧ (newEZStatCount a b c).Value = float64OfInt c
    ∧ (newEZStatCount a b c).statType = COUNTER ∧ (newEZStatCount a b c).apiType = EZ
    ∧ (newEZStatValue a b v).StatKey = a ∧ (newEZStatValue a b v).UserKey = b
    ∧ (newEZStatValue a b v).Value = v
    ∧ (newEZStatValue a b v).statType = VALUE ∧ (newEZStatValue a b v).apiType = EZ
    ∧ (newClassicStatCount a b c).StatKey = a ∧ (newClassicStatCount a b c).UserKey = b
    ∧ (newClassicStatCount a b c).Value = float64OfInt c
    ∧ (newClassicStatCount a b c).statType = COUNTER
    ∧ (newClassicStatCount a b c).apiType = CLASSIC
    ∧ (newClassicStatValue a b v).StatKey = a ∧ (newClassicStatValue a b v).UserKey = b
    ∧ (newClassicStatValue a b v).Value = v
    ∧ (newClassicStatValue a b v).statType = VALUE
    ∧ (newClassicStatValue a b v).apiType = CLASSIC
    ∧ (newEZStatCount "" "" c).StatKey = "" ∧ (newEZStatCount "" "" c).UserKey = ""
    ∧ (newClassicStatValue "" "" v).StatKey = "" ∧ (newClassicStatValue "" "" v).UserKey = ""
    ∧ (newEZStatCount "abc" "pc@pc.com" 1).Value = ⟨0x3FF0000000000000⟩
    ∧ COUNTER ≠ VALUE ∧ CLASSIC ≠ EZ := by
  refine ⟨rfl, rfl, rfl, rfl, rfl, rfl, rfl, rfl, rfl, rfl, rfl, rfl, rfl, rfl, rfl, rfl,
    rfl, rfl, rfl, rfl, rfl, rfl, rfl, rfl, rfl, rfl, rfl, rfl, by decide, by decide, by decide⟩

theorem values_none_of_unknown (r : statReport)
    (hout : (r.apiType ≠ CLASSIC ∧ r.apiType ≠ EZ) ∨ (r.statType ≠ COUNTER ∧ r.statType ≠ VALUE)) :
    r.values = none := by
  unfold statReport.values statReport.ezValues statReport.classicValues
  rcases hout with ⟨h1, h2⟩ | ⟨h1, h2⟩
  · simp [h1, h2]
  · by_cases he : r.apiType = EZ
    · simp [he, h1, h2]
    · by_cases hc : r.apiType = CLASSIC
      · simp [he, hc, h1, h2]
      · simp [he, hc]

theorem path_empty_of_unknown (r : statReport) (hez : r.apiType ≠ EZ)
    (hout : r.apiType ≠ CLASSIC ∨ (r.statType ≠ COUNTER ∧ r.statType ≠ VALUE)) :
    r.path = "" := by
  unfold statReport.path apiKind.path statKind.classicPath
  rcases hout with h | ⟨h1, h2⟩
  · simp [hez, h]
  · by_cases hc : r.apiType = CLASSIC
    · have hne : CLASSIC ≠ EZ := by decide
      simp [hc, h1, h2, hne]
    · simp [hez, hc]

/-- C14, refuted as stated: the EZ report with `statType = 0` has a kind outside the
declared constants and `values()` is nil for it, but its URL is
`"http://api.stathat.com/ez"`: the path is not empty. -/
theorem C14_ez_report_of_unknown_kind_keeps_path :
    ezReportOfUnknownKind.statType ≠ COUNTER ∧ ezReportOfUnknownKind.statType ≠ VALUE
    ∧ ezReportOfUnknownKind.values = none
    ∧ ezReportOfUnknownKind.path = "/ez"
    ∧ ezReportOfUnknownKind.url = "http://api.stathat.com/ez"
    ∧ ezReportOfUnknownKind.url ≠ "http://api.stathat.com" := by
  decide

/-- C14, amended: for every report built by one of the four constructors `values()` is
non-nil and `path()` is non-empty. For a report `r` whose `apiType` or `statType` lies outside
the declared constants, `values()` is nil; `url()` is `"http://api.stathat.com"` with an empty
path when the `apiType` is not `EZ`, and `"http://api.stathat.com/ez"` when it is. The zero
value has nil values and the URL `"http://api.stathat.com"`. -/
theorem C14_fall_through_branches (k u : String) (c : Int) (v : float64) (r : statReport)
    (hout : (r.apiType ≠ CLASSIC ∧ r.apiType ≠ EZ)
      ∨ (r.statType ≠ COUNTER ∧ r.statType ≠ VALUE)) :
    ((newEZStatCount k u c).values ≠ none ∧ (newEZStatCount k u c).path ≠ ""
      ∧ (newEZStatValue k u v).values ≠ none ∧ (newEZStatValue k u v).path ≠ ""
      ∧ (newClassicStatCount k u c).values ≠ none ∧ (newClassicStatCount k u c).path ≠ ""
      ∧ (newClassicStatValue k u v).values ≠ none ∧ (newClassicStatValue k u v).path ≠ "")
    ∧ r.values = none
    ∧ (r.apiType ≠ EZ → r.path = "" ∧ r.url = "http://api.stathat.com")
    ∧ (r.apiType = EZ → r.path = "/ez" ∧ r.url = "http://api.stathat.com/ez")
    ∧ zeroReport.values = none ∧ zeroReport.url = "http://api.stathat.com" := by
  refine ⟨⟨?_, ?_, ?_, ?_, ?_, ?_, ?_, ?_⟩, values_none_of_unknown r hout, ?_, ?_,
    by decide, by decide⟩
  · rw [values_newEZStatCount]; simp
  · simp [statReport.path, newEZStatCount, apiKind.path]
  · rw [values_newEZStatValue]; simp
  · simp [statReport.path, newEZStatValue, apiKind.path]
  · rw [values_newClassicStatCount]; simp
  · simp [statReport.path, newClassicStatCount, apiKind.path, statKind.classicPath, CLASSIC, EZ]
  · rw [values_newClassicStatValue]; simp
  · simp [statReport.path, newClassicStatValue, apiKind.path, statKind.classicPath, CLASSIC, EZ,
      VALUE, COUNTER]
  · intro hez
    have hp : r.path = "" := by
      apply path_empty_of_unknown r hez
      rcases hout with ⟨h1, _⟩ | h
      · exact Or.inl h1
      · exact Or.inr h
    refine ⟨hp, ?_⟩
    rw [url_eq_host_path, hp]
    decide
  · intro hez
    have hp : r.path = "/ez" := by simp [statReport.path, apiKind.path, hez]
    refine ⟨hp, ?_⟩
    rw [url_eq_host_path, hp]
    decide

/-- The instance of the amended C14 at the zero value of `statReport`. -/
theorem C14_fall_through_branches_witness :
    ((zeroReport.apiType ≠ CLASSIC ∧ zeroReport.apiType ≠ EZ)
      ∨ (zeroReport.statType ≠ COUNTER ∧ zeroReport.statType ≠ VALUE))
    ∧ zeroReport.values = none :=
  ⟨by decide,
    (C14_fall_through_branches "statkey" "userkey" 1 lit_2_13 zeroReport (by decide)).2.1⟩

theorem WaitUntilFinished_closed (post : Transport) (during : List Event) (fired : selectCase)
    (w : World) (hc : w.statReportChannel.closed = true) :
    WaitUntilFinished post during fired w = .panicked "close of closed channel" := by
  simp [WaitUntilFinished, closeQueue, Chan.close, hc]

/-- C15: shutdown is not idempotent. `WaitUntilFinished` closes the report queue before it
waits, whatever the state of the queue; so once a first call has returned (`true` or
`false`), in every world a later schedule leads to, a second call panics with "close of closed
channel" instead of returning a boolean, whatever its timeout (whichever select case would
fire and whatever happens meanwhile). On a fresh program the first call does not panic. -/
theorem C15_second_wait_panics (post : Transport) (during1 : List Event) (fired1 : selectCase)
    (b : Bool) (w w1 w2 : World) (evs during : List Event) (fired : selectCase)
    (hfirst : WaitUntilFinished post during1 fired1 w = .returned b w1)
    (hrun : run post w1 evs = .ok w2) :
    WaitUntilFinished post during fired w2 = .panicked "close of closed channel"
    ∧ (∀ b2 w3, WaitUntilFinished post during fired w2 ≠ .returned b2 w3)
    ∧ WaitUntilFinished post [] .timeout init ≠ .panicked "close of closed channel" := by
  obtain ⟨_, _, w0, w0b, hclose, hr, hs⟩ :=
    WaitUntilFinished_returned post during1 fired1 w w1 b hfirst
  have hc0 : w0.statReportChannel.closed = true := by
    simp only [step] at hclose
    obtain ⟨_, hw0⟩ := closeQueue_ok w w0 hclose
    subst hw0
    rfl
  have hc1 : w1.statReportChannel.closed = true :=
    step_closed post w0b w1 _ hs (run_closed post during1 w0 w0b hr hc0)
  have hc2 := run_closed post evs w1 w2 hrun hc1
  have hp := WaitUntilFinished_closed post during fired w2 hc2
  refine ⟨hp, ?_, ?_⟩
  · intro b2 w3
    rw [hp]
    simp
  · simp [WaitUntilFinished, closeQueue, Chan.close, init, run, selectTimeout]

/-- The instance of C15 at a fresh program: the first call returns `true` after the
dispatcher has seen the queue closed, and the second call panics. -/
theorem C15_second_wait_panics_witness :
    WaitUntilFinished accepting [.dispatch] .done init = .returned true finishedWorld
    ∧ run accepting finishedWorld [] = .ok finishedWorld
    ∧ WaitUntilFinished accepting [] .timeout finishedWorld
        = .panicked "close of closed channel" :=
  ⟨by decide, by decide,
    (C15_second_wait_panics accepting [.dispatch] .done true init finishedWorld finishedWorld
      [] [] .timeout (by decide) (by decide)).1⟩

/-! ## 8. Theorems: the round trip of number formatting -/

theorem isDigit_toNat (c : Char) (h : c.isDigit = true) : 48 ≤ c.toNat ∧ c.toNat ≤ 57 := by
  simp only [Char.isDigit, Bool.and_eq_true, decide_eq_true_eq] at h
  have h1 : (48 : UInt32) ≤ c.val := h.1
  have h2 : c.val ≤ (57 : UInt32) := h.2
  rw [UInt32.le_def] at h1 h2
  simp only [Char.toNat]
  constructor
  · exact h1
  · exact h2

theorem allDigits_nil : allDigits [] := by
  intro c hc; cases hc

theorem allDigits_cons (c : Char) (ds : List Char) :
    allDigits (c :: ds) ↔ c.isDigit = true ∧ allDigits ds := by
  simp [allDigits]

theorem allDigits_append (a b : List Char) :
    allDigits (a ++ b) ↔ allDigits a ∧ allDigits b := by
  simp only [allDigits, List.mem_append]
  constructor
  · intro h; exact ⟨fun c hc => h c (Or.inl hc), fun c hc => h c (Or.inr hc)⟩
  · rintro ⟨h1, h2⟩ c (hc | hc)
    · exact h1 c hc
    · exact h2 c hc

theorem allDigits_replicate_zero (z : Nat) : allDigits (List.replicate z '0') := by
  intro c hc
  rw [List.mem_replicate] at hc
  rw [hc.2]
  rfl

theorem allDigits_take (ds : List Char) (j : Nat) (h : allDigits ds) : allDigits (ds.take j) :=
  fun c hc => h c (List.mem_of_mem_take hc)

theorem allDigits_drop (ds : List Char) (j : Nat) (h : allDigits ds) : allDigits (ds.drop j) :=
  fun c hc => h c (List.mem_of_mem_drop hc)

theorem allDigits_toDigits (n : Nat) : allDigits (Nat.toDigits 10 n) :=
  toDigits_isDigit n

theorem digitsToNat_nil : digitsToNat [] = 0 := rfl

theorem digitsToNat_foldl (ds : List Char) (acc : Nat) :
    ds.foldl (fun acc c => acc * 10 + (c.toNat - 48)) acc
      = acc * 10 ^ ds.length + digitsToNat ds := by
  induction ds generalizing acc with
  | nil => simp [digitsToNat]
  | cons c ds ih =>
    simp only [List.foldl_cons, List.length_cons, digitsToNat]
    rw [ih (acc * 10 + (c.toNat - 48)), ih (0 * 10 + (c.toNat - 48))]
    ring

theorem digitsToNat_cons (c : Char) (ds : List Char) :
    digitsToNat (c :: ds) = (c.toNat - 48) * 10 ^ ds.length + digitsToNat ds := by
  simp only [digitsToNat, List.foldl_cons]
  rw [digitsToNat_foldl]
  simp [digitsToNat]

theorem digitsToNat_app (a b : List Char) :
    digitsToNat (a ++ b) = digitsToNat a * 10 ^ b.length + digitsToNat b := by
  simp only [digitsToNat, List.foldl_append]
  rw [digitsToNat_foldl]
  simp [digitsToNat]

theorem digitsToNat_replicate_zero (z : Nat) : digitsToNat (List.replicate z '0') = 0 := by
  have h := digitsToNat_zeros [] z
  simpa [digitsToNat] using h

theorem digitsToNat_lt (ds : List Char) (h : allDigits ds) :
    digitsToNat ds < 10 ^ ds.length := by
  induction ds with
  | nil => simp [digitsToNat]
  | cons c ds ih =>
    rw [allDigits_cons] at h
    have hc := isDigit_toNat c h.1
    have ih2 := ih h.2
    rw [digitsToNat_cons, List.length_cons, pow_succ]
    have : (c.toNat - 48) * 10 ^ ds.length ≤ 9 * 10 ^ ds.length :=
      Nat.mul_le_mul_right _ (by omega)
    omega

theorem digitsToNat_take_drop (ds : List Char) (j : Nat) :
    digitsToNat ds
      = digitsToNat (ds.take j) * 10 ^ (ds.drop j).length + digitsToNat (ds.drop j) := by
  conv_lhs => rw [← List.take_append_drop j ds]
  exact digitsToNat_app _ _

theorem take_succ_getD (ds : List Char) (j : Nat) (h : j < ds.length) :
    ds.take (j + 1) = ds.take j ++ [ds.getD j '0'] := by
  rw [List.take_succ]
  congr 1
  simp [List.getD, List.getElem?_eq_getElem h]

theorem cut_succ (a : decimal) (q : Int) :
    a.cut (q + 1) = 10 * a.cut q + a.dig q := by
  unfold decimal.cut decimal.dig decimal.nd decimal.digit
  by_cases h0 : q < 0
  · have h1 : q + 1 ≤ (a.d.length : Int) := by omega
    have h2 : q ≤ (a.d.length : Int) := by omega
    have h3 : (q + 1).toNat = 0 := by omega
    have h4 : q.toNat = 0 := by omega
    have h5 : ¬ (0 ≤ q ∧ q < (a.d.length : Int)) := by omega
    simp [h1, h2, h3, h4, h5, digitsToNat]
  · by_cases h1 : q < (a.d.length : Int)
    · have h2 : q + 1 ≤ (a.d.length : Int) := by omega
      have h3 : q ≤ (a.d.length : Int) := by omega
      have h4 : (q + 1).toNat = q.toNat + 1 := by omega
      have h5 : (0 ≤ q ∧ q < (a.d.length : Int)) := by omega
      have h6 : q.toNat < a.d.length := by omega
      simp only [h2, h3, h4, h5, if_true, and_self]
      rw [take_succ_getD a.d q.toNat h6, digitsToNat_append]
      ring
    · have h2 : ¬ (q + 1 ≤ (a.d.length : Int)) := by omega
      have h5 : ¬ (0 ≤ q ∧ q < (a.d.length : Int)) := by omega
      simp only [h2, h5, if_false, Nat.add_zero]
      by_cases h3 : q ≤ (a.d.length : Int)
      · have h6 : q.toNat = a.d.length := by omega
        have h7 : (q + 1 - (a.d.length : Int)).toNat = 1 := by omega
        simp only [h3, if_true, h6, List.take_length, h7]
        ring
      · have h7 : (q + 1 - (a.d.length : Int)).toNat = (q - (a.d.length : Int)).toNat + 1 := by
          omega
        simp only [h3, if_false, h7, pow_succ]
        ring

theorem val_split (a : decimal) (j : Nat) (hj : j ≤ a.nd) :
    a.val = ((digitsToNat (a.d.take j) : ℚ)
        + (digitsToNat (a.d.drop j) : ℚ) / (10 : ℚ) ^ (a.nd - j)) * (10 : ℚ) ^ (a.dp - (j : Int)) := by
  unfold decimal.val
  have hV := digitsToNat_take_drop a.d j
  have hlen : (a.d.drop j).length = a.nd - j := by simp [decimal.nd]
  rw [hlen] at hV
  have hexp : a.dp - (j : Int) = (a.dp - (a.nd : Int)) + ((a.nd - j : Nat) : Int) := by
    omega
  have h10 : (10 : ℚ) ≠ 0 := by norm_num
  rw [hexp, zpow_add₀ h10, zpow_natCast]
  have hT : (10 : ℚ) ^ (a.nd - j) ≠ 0 := pow_ne_zero _ h10
  have hVq : (digitsToNat a.d : ℚ)
      = (digitsToNat (a.d.take j) : ℚ) * (10 : ℚ) ^ (a.nd - j) + (digitsToNat (a.d.drop j) : ℚ) := by
    exact_mod_cast hV
  rw [hVq]
  field_simp
  ring

theorem val_nonneg (a : decimal) : 0 ≤ a.val := by
  unfold decimal.val
  positivity

theorem digitsToNat_pos_of_lastNonzero (ds : List Char) (h : allDigits ds) (hne : ds ≠ [])
    (hl : lastNonzero ds) : 0 < digitsToNat ds := by
  have hsplit := List.dropLast_append_getLast hne
  have hc : ds.getLast hne ≠ '0' := by
    apply hl
    rw [List.getLast?_eq_getLast _ hne]
    simp
  have hd : (ds.getLast hne).isDigit = true := h _ (List.getLast_mem hne)
  have hn := isDigit_toNat _ hd
  have hne48 : (ds.getLast hne).toNat ≠ 48 := by
    intro h48
    apply hc
    apply Char.ext
    apply UInt32.ext
    exact h48
  rw [← hsplit, digitsToNat_append]
  omega

theorem lastNonzero_drop (ds : List Char) (j : Nat) (hj : j < ds.length) (hl : lastNonzero ds) :
    lastNonzero (ds.drop j) := by
  intro c hc
  apply hl
  have hne : ds.drop j ≠ [] := by
    intro h
    have := congrArg List.length h
    simp at this
    omega
  rw [List.getLast?_eq_getLast _ hne] at hc
  have hne2 : ds ≠ [] := by
    intro h; rw [h] at hj; simp at hj
  rw [List.getLast?_eq_getLast _ hne2]
  rw [List.getLast_drop] at hc
  exact hc

theorem cut_of_neg (a : decimal) (q : Int) (hq : q ≤ 0) : a.cut q = 0 := by
  unfold decimal.cut
  have h1 : q ≤ (a.nd : Int) := by omega
  have h2 : q.toNat = 0 := by omega
  simp [h1, h2, digitsToNat]

theorem val_lt_pow_dp (a : decimal) (h : allDigits a.d) : a.val < (10 : ℚ) ^ a.dp := by
  unfold decimal.val
  have hlt := digitsToNat_lt a.d h
  have h10 : (10 : ℚ) ≠ 0 := by norm_num
  have hexp : a.dp = (a.dp - (a.nd : Int)) + ((a.nd : Nat) : Int) := by omega
  conv_rhs => rw [hexp, zpow_add₀ h10, zpow_natCast]
  have hpos : (0 : ℚ) < (10 : ℚ) ^ (a.dp - (a.nd : Int)) := by positivity
  have hltq : (digitsToNat a.d : ℚ) < (10 : ℚ) ^ a.nd := by
    unfold decimal.nd
    exact_mod_cast hlt
  calc (digitsToNat a.d : ℚ) * (10 : ℚ) ^ (a.dp - (a.nd : Int))
      < (10 : ℚ) ^ a.nd * (10 : ℚ) ^ (a.dp - (a.nd : Int)) :=
        mul_lt_mul_of_pos_right hltq hpos
    _ = (10 : ℚ) ^ (a.dp - (a.nd : Int)) * (10 : ℚ) ^ a.nd := by ring

/-- The digits after index `j`, as a fraction of one unit of the digit before. -/
theorem val_cut_mid (a : decimal) (h : allDigits a.d) (q : Int) (h0 : 0 ≤ q)
    (hq : q ≤ (a.nd : Int)) :
    ∃ r : ℚ, 0 ≤ r ∧ r < 1 ∧ a.val = ((a.cut q : ℚ) + r) * (10 : ℚ) ^ (a.dp - q)
      ∧ (q = (a.nd : Int) → r = 0)
      ∧ (q < (a.nd : Int) → lastNonzero a.d → 0 < r) := by
  have hj : q.toNat ≤ a.nd := by omega
  have hqj : q = (q.toNat : Int) := by omega
  have hsplit := val_split a q.toNat hj
  have hcut : a.cut q = digitsToNat (a.d.take q.toNat) := by
    simp [decimal.cut, hq]
  have hdl : (a.d.drop q.toNat).length = a.nd - q.toNat := by simp [decimal.nd]
  have hlt := digitsToNat_lt _ (allDigits_drop a.d q.toNat h)
  rw [hdl] at hlt
  have hT : (0 : ℚ) < (10 : ℚ) ^ (a.nd - q.toNat) := by positivity
  refine ⟨(digitsToNat (a.d.drop q.toNat) : ℚ) / (10 : ℚ) ^ (a.nd - q.toNat), ?_, ?_, ?_, ?_, ?_⟩
  · positivity
  · rw [div_lt_one hT]
    exact_mod_cast hlt
  · rw [hcut]
    rw [← hqj] at hsplit
    exact hsplit
  · intro he
    have : a.d.drop q.toNat = [] := by
      apply List.drop_eq_nil_of_le
      unfold decimal.nd at he
      omega
    rw [this]
    simp [digitsToNat]
  · intro hlt2 hl
    have hjlt : q.toNat < a.d.length := by unfold decimal.nd at hlt2; omega
    have hne : a.d.drop q.toNat ≠ [] := by
      intro hnil
      have := congrArg List.length hnil
      simp at this
      omega
    have hp := digitsToNat_pos_of_lastNonzero _ (allDigits_drop a.d q.toNat h) hne
      (lastNonzero_drop a.d q.toNat hjlt hl)
    have hpq : (0 : ℚ) < (digitsToNat (a.d.drop q.toNat) : ℚ) := by exact_mod_cast hp
    positivity

theorem val_eq_cut (a : decimal) (q : Int) (hq : (a.nd : Int) ≤ q) :
    a.val = (a.cut q : ℚ) * (10 : ℚ) ^ (a.dp - q) := by
  have h10 : (10 : ℚ) ≠ 0 := by norm_num
  by_cases he : q = (a.nd : Int)
  · subst he
    simp [decimal.cut, decimal.val, decimal.nd]
  · have hgt : ¬ q ≤ (a.nd : Int) := by omega
    simp only [decimal.cut, hgt, if_false, decimal.val]
    have hexp : a.dp - (a.nd : Int) = ((q - (a.nd : Int)).toNat : Int) + (a.dp - q) := by omega
    rw [hexp, zpow_add₀ h10, zpow_natCast]
    push_cast
    ring

theorem cut_le_val (a : decimal) (h : allDigits a.d) (q : Int) :
    (a.cut q : ℚ) * (10 : ℚ) ^ (a.dp - q) ≤ a.val := by
  by_cases h0 : q < 0
  · rw [cut_of_neg a q (by omega)]
    simpa using val_nonneg a
  · by_cases hq : q ≤ (a.nd : Int)
    · obtain ⟨r, hr0, _, hv, _⟩ := val_cut_mid a h q (by omega) hq
      rw [hv]
      have hp : (0 : ℚ) < (10 : ℚ) ^ (a.dp - q) := by positivity
      nlinarith
    · exact le_of_eq (val_eq_cut a q (by omega)).symm

theorem val_lt_cut (a : decimal) (h : allDigits a.d) (q : Int) :
    a.val < ((a.cut q : ℚ) + 1) * (10 : ℚ) ^ (a.dp - q) := by
  have hp : (0 : ℚ) < (10 : ℚ) ^ (a.dp - q) := by positivity
  by_cases h0 : q < 0
  · rw [cut_of_neg a q (by omega)]
    have h1 := val_lt_pow_dp a h
    have h2 : (10 : ℚ) ^ a.dp ≤ (10 : ℚ) ^ (a.dp - q) :=
      zpow_le_zpow_right₀ (by norm_num) (by omega)
    simp only [Nat.cast_zero, zero_add, one_mul]
    exact lt_of_lt_of_le h1 h2
  · by_cases hq : q ≤ (a.nd : Int)
    · obtain ⟨r, _, hr1, hv, _⟩ := val_cut_mid a h q (by omega) hq
      rw [hv]
      nlinarith
    · rw [val_eq_cut a q (by omega)]
      nlinarith

theorem cut_lt_val (a : decimal) (h : allDigits a.d) (hl : lastNonzero a.d) (q : Int)
    (h0 : 0 ≤ q) (hq : q < (a.nd : Int)) :
    (a.cut q : ℚ) * (10 : ℚ) ^ (a.dp - q) < a.val := by
  obtain ⟨r, _, _, hv, _, hr⟩ := val_cut_mid a h q h0 (by omega)
  rw [hv]
  have hp : (0 : ℚ) < (10 : ℚ) ^ (a.dp - q) := by positivity
  have := hr hq hl
  nlinarith

theorem lastNonzero_nil : lastNonzero [] := by
  intro c hc; simp at hc

theorem dropWhile_zero_head (l : List Char) :
    ∀ c ∈ (l.dropWhile (fun c => c == '0')).head?, c ≠ '0' := by
  induction l with
  | nil => intro c hc; simp at hc
  | cons x l ih =>
    intro c hc
    by_cases hx : x = '0'
    · subst hx
      simp only [List.dropWhile_cons, beq_self_eq_true, if_true] at hc
      exact ih c hc
    · have hb : (x == '0') = false := beq_eq_false_iff_ne.mpr hx
      simp only [List.dropWhile_cons, hb, Bool.false_eq_true, if_false, List.head?_cons,
        Option.mem_def, Option.some.injEq] at hc
      rw [← hc]
      exact hx

theorem lastNonzero_trimDigits (ds : List Char) : lastNonzero (trimDigits ds) := by
  intro c hc
  unfold trimDigits at hc
  rw [List.getLast?_reverse] at hc
  exact dropWhile_zero_head ds.reverse c hc

theorem allDigits_trimDigits (ds : List Char) (h : allDigits ds) : allDigits (trimDigits ds) := by
  obtain ⟨z, hz⟩ := trimDigits_decomp ds
  rw [hz, allDigits_append] at h
  exact h.1

theorem trim_val (a : decimal) : (trim a).val = a.val := by
  obtain ⟨z, hz⟩ := trimDigits_decomp a.d
  have hV : digitsToNat a.d = digitsToNat (trimDigits a.d) * 10 ^ z := by
    conv_lhs => rw [hz]
    exact digitsToNat_zeros _ _
  have hlen : a.d.length = (trimDigits a.d).length + z := by
    have := congrArg List.length hz
    simpa using this
  unfold trim
  by_cases hnil : trimDigits a.d = []
  · simp only [hnil, if_true]
    have h0 : digitsToNat a.d = 0 := by rw [hV, hnil]; simp [digitsToNat_nil]
    simp [decimal.val, h0, digitsToNat_nil]
  · simp only [hnil, if_false]
    unfold decimal.val decimal.nd
    simp only
    rw [hV, hlen]
    have h10 : (10 : ℚ) ≠ 0 := by norm_num
    have hexp : a.dp - ((trimDigits a.d).length : Int)
        = (z : Int) + (a.dp - (((trimDigits a.d).length + z : Nat) : Int)) := by
      push_cast; ring
    rw [hexp, zpow_add₀ h10, zpow_natCast]
    push_cast
    ring

theorem trim_allDigits (a : decimal) (h : allDigits a.d) : allDigits (trim a).d := by
  unfold trim
  by_cases hnil : trimDigits a.d = []
  · simp only [hnil, if_true]; exact allDigits_nil
  · simp only [hnil, if_false]; exact allDigits_trimDigits a.d h

theorem trim_lastNonzero (a : decimal) : lastNonzero (trim a).d := by
  unfold trim
  by_cases hnil : trimDigits a.d = []
  · simp only [hnil, if_true]; exact lastNonzero_nil
  · simp only [hnil, if_false]; exact lastNonzero_trimDigits a.d

theorem decimalOfScaled_val (n : Nat) (e10 : Int) :
    (decimalOfScaled n e10).val = (n : ℚ) * (10 : ℚ) ^ e10 := by
  unfold decimalOfScaled
  by_cases hn : n = 0
  · simp [hn, decimal.val, digitsToNat]
  · simp only [hn, if_false]
    rw [trim_val]
    simp [decimal.val, decimal.nd, digitsToNat_toDigits]

theorem decimalOfScaled_allDigits (n : Nat) (e10 : Int) :
    allDigits (decimalOfScaled n e10).d := by
  unfold decimalOfScaled
  by_cases hn : n = 0
  · simp only [hn, if_true]; exact allDigits_nil
  · simp only [hn, if_false]
    exact trim_allDigits _ (allDigits_toDigits n)

theorem decimalOfScaled_lastNonzero (n : Nat) (e10 : Int) :
    lastNonzero (decimalOfScaled n e10).d := by
  unfold decimalOfScaled
  by_cases hn : n = 0
  · simp only [hn, if_true]; exact lastNonzero_nil
  · simp only [hn, if_false]
    exact trim_lastNonzero _

theorem Shift_val (a : decimal) (k : Int) :
    (a.Shift k).val = a.val * (2 : ℚ) ^ k := by
  unfold decimal.Shift
  by_cases hnil : a.d = []
  · simp [hnil, decimal.val, digitsToNat]
  · simp only [hnil, if_false]
    have h10 : (10 : ℚ) ≠ 0 := by norm_num
    have h2 : (2 : ℚ) ≠ 0 := by norm_num
    by_cases hk : 0 ≤ k
    · simp only [hk, if_true]
      rw [decimalOfScaled_val]
      have hkk : k = (k.toNat : Int) := by omega
      conv_rhs => rw [hkk, zpow_natCast]
      unfold decimal.val
      push_cast
      ring
    · simp only [hk, if_false]
      rw [decimalOfScaled_val]
      obtain ⟨j, hj⟩ : ∃ j : ℕ, k = -(j : Int) := ⟨(-k).toNat, by omega⟩
      subst hj
      have hjj : (-(-(j : Int))).toNat = j := by simp
      rw [hjj]
      have hcancel : (5 : ℚ) ^ j * (10 : ℚ) ^ (-(j : Int)) = (2 : ℚ) ^ (-(j : Int)) := by
        rw [zpow_neg, zpow_neg, zpow_natCast, zpow_natCast]
        have h10e : (10 : ℚ) ^ j = 2 ^ j * 5 ^ j := by
          rw [← mul_pow]; norm_num
        rw [h10e]
        have h5 : (5 : ℚ) ^ j ≠ 0 := pow_ne_zero _ (by norm_num)
        have h2' : (2 : ℚ) ^ j ≠ 0 := pow_ne_zero _ h2
        field_simp
        ring
      unfold decimal.val
      rw [zpow_add₀ h10]
      push_cast
      rw [← hcancel]
      ring

theorem Shift_allDigits (a : decimal) (k : Int) :
    allDigits (a.Shift k).d := by
  unfold decimal.Shift
  by_cases hnil : a.d = []
  · simp only [hnil, if_true]; exact allDigits_nil
  · simp only [hnil, if_false]
    by_cases hk : 0 ≤ k
    · simp only [hk, if_true]; exact decimalOfScaled_allDigits _ _
    · simp only [hk, if_false]; exact decimalOfScaled_allDigits _ _

theorem Shift_lastNonzero (a : decimal) (k : Int) :
    lastNonzero (a.Shift k).d := by
  unfold decimal.Shift
  by_cases hnil : a.d = []
  · simp only [hnil, if_true]; exact lastNonzero_nil
  · simp only [hnil, if_false]
    by_cases hk : 0 ≤ k
    · simp only [hk, if_true]; exact decimalOfScaled_lastNonzero _ _
    · simp only [hk, if_false]; exact decimalOfScaled_lastNonzero _ _

theorem char_eq_of_toNat (c e : Char) (h : c.toNat = e.toNat) : c = e := by
  apply Char.ext
  apply UInt32.ext
  exact h

theorem succ_digit (c : Char) (hd : c.isDigit = true) (h9 : c.toNat < '9'.toNat) :
    (Char.ofNat (c.toNat + 1)).isDigit = true
    ∧ (Char.ofNat (c.toNat + 1)).toNat = c.toNat + 1
    ∧ Char.ofNat (c.toNat + 1) ≠ '0' := by
  have hr := isDigit_toNat c hd
  have h57 : '9'.toNat = 57 := rfl
  rw [h57] at h9
  generalize c.toNat = n at hr h9
  obtain ⟨h1, h2⟩ := hr
  interval_cases n <;> decide

theorem roundUpLoop_spec (ds : List Char) (hds : allDigits ds) :
    ∀ n, n ≤ ds.length →
      match roundUpLoop ds n with
      | some r => allDigits r ∧ r ≠ [] ∧ r.length ≤ n ∧ lastNonzero r
          ∧ digitsToNat r * 10 ^ (n - r.length) = digitsToNat (ds.take n) + 1
      | none => digitsToNat (ds.take n) + 1 = 10 ^ n := by
  intro n
  induction n with
  | zero => intro _; simp [roundUpLoop, digitsToNat]
  | succ i ih =>
    intro hn
    have hi : i < ds.length := by omega
    have hmem : ds.getD i '0' ∈ ds := by
      rw [List.getD_eq_getElem _ _ hi]
      exact List.getElem_mem hi
    have hcd : (ds.getD i '0').isDigit = true := hds _ hmem
    have hr := isDigit_toNat _ hcd
    have htake := take_succ_getD ds i hi
    simp only [roundUpLoop]
    by_cases h9 : (ds.getD i '0').toNat < '9'.toNat
    · simp only [h9, if_true]
      obtain ⟨s1, s2, s3⟩ := succ_digit _ hcd h9
      refine ⟨?_, ?_, ?_, ?_, ?_⟩
      · rw [allDigits_append]
        refine ⟨allDigits_take ds i hds, ?_⟩
        intro c hc
        simp only [List.mem_singleton] at hc
        rw [hc]; exact s1
      · simp
      · simp only [List.length_append, List.length_take, List.length_singleton]
        omega
      · intro c hc
        have hl : (ds.take i ++ [Char.ofNat ((ds.getD i '0').toNat + 1)]).getLast?
            = some (Char.ofNat ((ds.getD i '0').toNat + 1)) := by simp
        rw [hl] at hc
        simp only [Option.mem_def, Option.some.injEq] at hc
        rw [← hc]; exact s3
      · have hlen : (ds.take i ++ [Char.ofNat ((ds.getD i '0').toNat + 1)]).length = i + 1 := by
          simp [List.length_take]; omega
        rw [hlen, Nat.sub_self, pow_zero, Nat.mul_one, digitsToNat_append, htake,
          digitsToNat_append, s2]
        omega
    · simp only [h9, if_false]
      have h57 : '9'.toNat = 57 := rfl
      rw [h57] at h9
      have hc9 : (ds.getD i '0').toNat - 48 = 9 := by omega
      have ih2 := ih (by omega)
      cases hres : roundUpLoop ds i with
      | none =>
        rw [hres] at ih2
        simp only at ih2 ⊢
        rw [htake, digitsToNat_append, hc9, pow_succ]
        omega
      | some r =>
        rw [hres] at ih2
        simp only at ih2 ⊢
        obtain ⟨r1, r2, r3, r4, r5⟩ := ih2
        refine ⟨r1, r2, by omega, r4, ?_⟩
        rw [htake, digitsToNat_append, hc9]
        have hexp : i + 1 - r.length = (i - r.length) + 1 := by omega
        rw [hexp, pow_succ, ← Nat.mul_assoc, r5]
        ring

theorem cut_eq_take (a : decimal) (q : Int) (hq : q ≤ (a.nd : Int)) :
    a.cut q = digitsToNat (a.d.take q.toNat) := by
  simp [decimal.cut, hq]

theorem RoundDown_spec (a : decimal) (h : allDigits a.d) (q : Int) :
    allDigits (a.RoundDown q).d
    ∧ ((a.RoundDown q).dp = a.dp ∨ (a.RoundDown q).dp = 0)
    ∧ (a.RoundDown q = a ∨ (0 ≤ q ∧ q < (a.nd : Int)
        ∧ (a.RoundDown q).val = (a.cut q : ℚ) * (10 : ℚ) ^ (a.dp - q))) := by
  unfold decimal.RoundDown
  by_cases hg : q < 0 ∨ (a.nd : Int) ≤ q
  · rw [if_pos hg]
    exact ⟨h, Or.inl rfl, Or.inl rfl⟩
  · rw [if_neg hg]
    have h0 : 0 ≤ q := by omega
    have hq : q < (a.nd : Int) := by omega
    refine ⟨trim_allDigits _ (allDigits_take a.d _ h), ?_, Or.inr ⟨h0, hq, ?_⟩⟩
    · unfold trim
      by_cases hnil : trimDigits (a.d.take q.toNat) = []
      · simp [hnil]
      · simp [hnil]
    · rw [trim_val, cut_eq_take a q (by omega)]
      unfold decimal.val decimal.nd
      have hlen : (a.d.take q.toNat).length = q.toNat := by
        rw [List.length_take]
        unfold decimal.nd at hq
        omega
      simp only [hlen]
      have : ((q.toNat : Nat) : Int) = q := by omega
      rw [this]

theorem RoundUp_spec (a : decimal) (h : allDigits a.d) (q : Int) :
    allDigits (a.RoundUp q).d
    ∧ ((a.RoundUp q).dp = a.dp ∨ (a.RoundUp q).dp = a.dp + 1)
    ∧ (a.RoundUp q = a ∨ (0 ≤ q ∧ q < (a.nd : Int)
        ∧ (a.RoundUp q).val = ((a.cut q : ℚ) + 1) * (10 : ℚ) ^ (a.dp - q))) := by
  unfold decimal.RoundUp
  by_cases hg : q < 0 ∨ (a.nd : Int) ≤ q
  · rw [if_pos hg]
    exact ⟨h, Or.inl rfl, Or.inl rfl⟩
  · rw [if_neg hg]
    have h0 : 0 ≤ q := by omega
    have hq : q < (a.nd : Int) := by omega
    have hqn : q.toNat ≤ a.d.length := by unfold decimal.nd at hq; omega
    have hspec := roundUpLoop_spec a.d h q.toNat hqn
    have hcut := cut_eq_take a q (by omega)
    have h10 : (10 : ℚ) ≠ 0 := by norm_num
    have hqq : ((q.toNat : Nat) : Int) = q := by omega
    cases hres : roundUpLoop a.d q.toNat with
    | none =>
      rw [hres] at hspec
      simp only at hspec
      show allDigits ['1'] ∧ (a.dp + 1 = a.dp ∨ a.dp + 1 = a.dp + 1)
        ∧ ((⟨['1'], a.dp + 1⟩ : decimal) = a ∨ (0 ≤ q ∧ q < (a.nd : Int)
          ∧ (⟨['1'], a.dp + 1⟩ : decimal).val = ((a.cut q : ℚ) + 1) * (10 : ℚ) ^ (a.dp - q)))
      refine ⟨?_, Or.inr rfl, Or.inr ⟨h0, hq, ?_⟩⟩
      · intro c hc
        simp only [List.mem_singleton] at hc
        rw [hc]; rfl
      · rw [hcut]
        have hq1 : ((digitsToNat (a.d.take q.toNat) : ℚ) + 1) = (10 : ℚ) ^ q.toNat := by
          exact_mod_cast hspec
        rw [hq1]
        simp only [decimal.val, decimal.nd, List.length_singleton]
        have hone : digitsToNat ['1'] = 1 := by decide
        rw [hone, ← zpow_natCast, hqq, ← zpow_add₀ h10]
        simp
    | some r =>
      rw [hres] at hspec
      simp only at hspec
      obtain ⟨r1, r2, r3, r4, r5⟩ := hspec
      show allDigits r ∧ (a.dp = a.dp ∨ a.dp = a.dp + 1)
        ∧ ((⟨r, a.dp⟩ : decimal) = a ∨ (0 ≤ q ∧ q < (a.nd : Int)
          ∧ (⟨r, a.dp⟩ : decimal).val = ((a.cut q : ℚ) + 1) * (10 : ℚ) ^ (a.dp - q)))
      refine ⟨r1, Or.inl rfl, Or.inr ⟨h0, hq, ?_⟩⟩
      rw [hcut]
      have hq1 : ((digitsToNat (a.d.take q.toNat) : ℚ) + 1)
          = (digitsToNat r : ℚ) * (10 : ℚ) ^ (q.toNat - r.length) := by
        exact_mod_cast r5.symm
      rw [hq1]
      simp only [decimal.val, decimal.nd]
      have hexp : a.dp - (r.length : Int)
          = ((q.toNat - r.length : Nat) : Int) + (a.dp - q) := by omega
      rw [hexp, zpow_add₀ h10, zpow_natCast]
      ring

theorem Round_spec (a : decimal) (h : allDigits a.d) (q : Int) :
    allDigits (a.Round q).d
    ∧ ((a.Round q).dp = a.dp ∨ (a.Round q).dp = a.dp + 1 ∨ (a.Round q).dp = 0)
    ∧ (a.Round q = a
      ∨ (0 ≤ q ∧ q < (a.nd : Int)
          ∧ (a.Round q).val = (a.cut q : ℚ) * (10 : ℚ) ^ (a.dp - q))
      ∨ (0 ≤ q ∧ q < (a.nd : Int)
          ∧ (a.Round q).val = ((a.cut q : ℚ) + 1) * (10 : ℚ) ^ (a.dp - q))) := by
  unfold decimal.Round
  by_cases hg : q < 0 ∨ (a.nd : Int) ≤ q
  · rw [if_pos hg]
    exact ⟨h, Or.inl rfl, Or.inl rfl⟩
  · rw [if_neg hg]
    by_cases hs : shouldRoundUp a q = true
    · simp only [hs, if_true]
      obtain ⟨u1, u2, u3⟩ := RoundUp_spec a h q
      refine ⟨u1, ?_, ?_⟩
      · rcases u2 with u | u
        · exact Or.inl u
        · exact Or.inr (Or.inl u)
      · rcases u3 with u | u
        · exact Or.inl u
        · exact Or.inr (Or.inr u)
    · simp only [hs, if_false]
      obtain ⟨u1, u2, u3⟩ := RoundDown_spec a h q
      refine ⟨u1, ?_, ?_⟩
      · rcases u2 with u | u
        · exact Or.inl u
        · exact Or.inr (Or.inr u)
      · rcases u3 with u | u
        · exact Or.inl u
        · exact Or.inr (Or.inl u)

theorem digitAt_spec (a : decimal) (h : allDigits a.d) (q : Int) :
    (a.digitAt q).toNat = 48 + a.dig q ∧ a.dig q ≤ 9 := by
  unfold decimal.digitAt decimal.dig
  by_cases hq : 0 ≤ q ∧ q < (a.nd : Int)
  · simp only [hq, and_self, if_true]
    have hlt : q.toNat < a.d.length := by
      have := hq.2
      unfold decimal.nd at this
      omega
    have hmem : a.digit q.toNat ∈ a.d := by
      unfold decimal.digit
      rw [List.getD_eq_getElem _ _ hlt]
      exact List.getElem_mem hlt
    have := isDigit_toNat _ (h _ hmem)
    omega
  · simp only [hq, if_false]
    exact ⟨rfl, by omega⟩

theorem roundShortestLoop_succ (d upper lower : decimal) (inclusive : Bool)
    (fuel ui upperdelta : Nat) :
    roundShortestLoop d upper lower inclusive (fuel + 1) ui upperdelta =
      if (d.nd : Int) ≤ (ui : Int) - upper.dp + d.dp then d
      else
        if ((lower.digitAt ((ui : Int) - upper.dp + lower.dp)
              != (if 0 ≤ (ui : Int) - upper.dp + d.dp
                    then d.digit ((ui : Int) - upper.dp + d.dp).toNat else '0')
            || (inclusive && (ui : Int) - upper.dp + lower.dp + 1 == (lower.nd : Int)))
          && (decide (0 < nextUpperdelta upperdelta
                (if 0 ≤ (ui : Int) - upper.dp + d.dp
                    then d.digit ((ui : Int) - upper.dp + d.dp).toNat else '0')
                (if ui < upper.nd then upper.digit ui else '0'))
              && (inclusive || decide (1 < nextUpperdelta upperdelta
                (if 0 ≤ (ui : Int) - upper.dp + d.dp
                    then d.digit ((ui : Int) - upper.dp + d.dp).toNat else '0')
                (if ui < upper.nd then upper.digit ui else '0'))
                || decide (ui + 1 < upper.nd)))) = true
        then d.Round ((ui : Int) - upper.dp + d.dp + 1)
        else if (lower.digitAt ((ui : Int) - upper.dp + lower.dp)
              != (if 0 ≤ (ui : Int) - upper.dp + d.dp
                    then d.digit ((ui : Int) - upper.dp + d.dp).toNat else '0')
            || (inclusive && (ui : Int) - upper.dp + lower.dp + 1 == (lower.nd : Int))) = true
        then d.RoundDown ((ui : Int) - upper.dp + d.dp + 1)
        else if (decide (0 < nextUpperdelta upperdelta
                (if 0 ≤ (ui : Int) - upper.dp + d.dp
                    then d.digit ((ui : Int) - upper.dp + d.dp).toNat else '0')
                (if ui < upper.nd then upper.digit ui else '0'))
              && (inclusive || decide (1 < nextUpperdelta upperdelta
                (if 0 ≤ (ui : Int) - upper.dp + d.dp
                    then d.digit ((ui : Int) - upper.dp + d.dp).toNat else '0')
                (if ui < upper.nd then upper.digit ui else '0'))
                || decide (ui + 1 < upper.nd))) = true
        then d.RoundUp ((ui : Int) - upper.dp + d.dp + 1)
        else roundShortestLoop d upper lower inclusive fuel (ui + 1)
          (nextUpperdelta upperdelta
            (if 0 ≤ (ui : Int) - upper.dp + d.dp
                then d.digit ((ui : Int) - upper.dp + d.dp).toNat else '0')
            (if ui < upper.nd then upper.digit ui else '0')) := by
  rfl

theorem nextUpperdelta_nat (upperdelta : Nat) (m u : Char) (dm du : Nat)
    (hm : m.toNat = 48 + dm) (hu : u.toNat = 48 + du) :
    nextUpperdelta upperdelta m u =
      if upperdelta = 0 ∧ dm + 1 < du then 2
      else if upperdelta = 0 ∧ dm ≠ du then 1
      else if upperdelta = 1 ∧ ¬ (dm = 9 ∧ du = 0) then 2
      else upperdelta := by
  have h1 : (m.toNat + 1 < u.toNat) ↔ (dm + 1 < du) := by omega
  have h2 : (m ≠ u) ↔ (dm ≠ du) := by
    constructor
    · intro h he
      apply h
      apply char_eq_of_toNat
      omega
    · intro h he
      apply h
      rw [he] at hm
      omega
  have h3 : (m ≠ '9' ∨ u ≠ '0') ↔ ¬ (dm = 9 ∧ du = 0) := by
    have e9 : '9'.toNat = 57 := rfl
    have e0 : '0'.toNat = 48 := rfl
    constructor
    · rintro (h | h) ⟨a, b⟩
      · apply h; apply char_eq_of_toNat; omega
      · apply h; apply char_eq_of_toNat; omega
    · intro h
      by_cases hm9 : m = '9'
      · right
        intro hu0
        apply h
        rw [hm9] at hm
        rw [hu0] at hu
        omega
      · exact Or.inl hm9
  unfold nextUpperdelta
  simp only [h1, h2, h3]

theorem delta_step (upperdelta A B dm du : Nat) (hdm : dm ≤ 9) (hdu : du ≤ 9)
    (hinv : DeltaInv upperdelta A B) (hle : 10 * A + dm ≤ 10 * B + du) :
    DeltaInv (if upperdelta = 0 ∧ dm + 1 < du then 2
      else if upperdelta = 0 ∧ dm ≠ du then 1
      else if upperdelta = 1 ∧ ¬ (dm = 9 ∧ du = 0) then 2
      else upperdelta) (10 * A + dm) (10 * B + du) := by
  unfold DeltaInv at hinv ⊢
  split_ifs with h1 h2 h3 <;> omega

theorem ShortestSound_self (d upper lower : decimal) (inclusive : Bool) (hd : allDigits d.d)
    (hlv : lower.val < d.val) (huv : d.val < upper.val) :
    ShortestSound d upper lower inclusive d :=
  ⟨hd, Or.inl rfl, le_of_lt hlv, le_of_lt huv, fun _ => ⟨hlv, huv⟩⟩

theorem cut_mono (a b : decimal) (ha : allDigits a.d) (hb : allDigits b.d) (qa qb : Int)
    (hp : a.dp - qa = b.dp - qb) (hv : a.val < b.val) : a.cut qa ≤ b.cut qb := by
  have h1 := cut_le_val a ha qa
  have h2 := val_lt_cut b hb qb
  rw [hp] at h1
  have hP : (0 : ℚ) < (10 : ℚ) ^ (b.dp - qb) := by positivity
  have h3 : (a.cut qa : ℚ) * (10 : ℚ) ^ (b.dp - qb)
      < ((b.cut qb : ℚ) + 1) * (10 : ℚ) ^ (b.dp - qb) := by linarith
  have h4 : (a.cut qa : ℚ) < (b.cut qb : ℚ) + 1 := lt_of_mul_lt_mul_right h3 (le_of_lt hP)
  have h5 : a.cut qa < b.cut qb + 1 := by exact_mod_cast h4
  omega

/-- Soundness of the digit loop of `roundShortest`: whatever it returns lies between the
bounds. -/
theorem roundShortestLoop_sound (d upper lower : decimal) (inclusive : Bool)
    (hd : allDigits d.d) (hu : allDigits upper.d) (hl : allDigits lower.d)
    (hul : lastNonzero upper.d) (hlv : lower.val < d.val) (huv : d.val < upper.val) :
    ∀ (fuel ui upperdelta : Nat),
      lower.cut ((ui : Int) - upper.dp + lower.dp) = d.cut ((ui : Int) - upper.dp + d.dp) →
      DeltaInv upperdelta (d.cut ((ui : Int) - upper.dp + d.dp)) (upper.cut (ui : Int)) →
      ShortestSound d upper lower inclusive
        (roundShortestLoop d upper lower inclusive fuel ui upperdelta) := by
  intro fuel
  induction fuel with
  | zero =>
    intro ui upperdelta _ _
    exact ShortestSound_self d upper lower inclusive hd hlv huv
  | succ fuel ih =>
    intro ui upperdelta hI1 hI2
    rw [roundShortestLoop_succ]
    by_cases hexit : (d.nd : Int) ≤ (ui : Int) - upper.dp + d.dp
    · rw [if_pos hexit]
      exact ShortestSound_self d upper lower inclusive hd hlv huv
    · rw [if_neg hexit]
      -- the three digits read
      have hmeq : (if 0 ≤ (ui : Int) - upper.dp + d.dp
          then d.digit ((ui : Int) - upper.dp + d.dp).toNat else '0')
          = d.digitAt ((ui : Int) - upper.dp + d.dp) := by
        unfold decimal.digitAt
        by_cases h0 : 0 ≤ (ui : Int) - upper.dp + d.dp
        · have : 0 ≤ (ui : Int) - upper.dp + d.dp ∧ (ui : Int) - upper.dp + d.dp < (d.nd : Int) :=
            ⟨h0, by omega⟩
          rw [if_pos h0, if_pos this]
        · have : ¬ (0 ≤ (ui : Int) - upper.dp + d.dp
              ∧ (ui : Int) - upper.dp + d.dp < (d.nd : Int)) := fun h => h0 h.1
          rw [if_neg h0, if_neg this]
      have hueq : (if ui < upper.nd then upper.digit ui else '0') = upper.digitAt (ui : Int) := by
        unfold decimal.digitAt
        by_cases h0 : ui < upper.nd
        · have : 0 ≤ (ui : Int) ∧ (ui : Int) < (upper.nd : Int) := ⟨by omega, by omega⟩
          rw [if_pos h0, if_pos this]
          simp
        · have : ¬ (0 ≤ (ui : Int) ∧ (ui : Int) < (upper.nd : Int)) := by omega
          rw [if_neg h0, if_neg this]
      rw [hmeq, hueq]
      obtain ⟨hlc, hdl9⟩ := digitAt_spec lower hl ((ui : Int) - upper.dp + lower.dp)
      obtain ⟨hmc, hdm9⟩ := digitAt_spec d hd ((ui : Int) - upper.dp + d.dp)
      obtain ⟨huc, hdu9⟩ := digitAt_spec upper hu (ui : Int)
      rw [nextUpperdelta_nat upperdelta _ _ _ _ hmc huc]
      -- the cuts after this digit
      have hcl := cut_succ lower ((ui : Int) - upper.dp + lower.dp)
      have hcd := cut_succ d ((ui : Int) - upper.dp + d.dp)
      have hcu := cut_succ upper (ui : Int)
      have hpl : lower.dp - ((ui : Int) - upper.dp + lower.dp + 1)
          = d.dp - ((ui : Int) - upper.dp + d.dp + 1) := by omega
      have hpu : upper.dp - ((ui : Int) + 1)
          = d.dp - ((ui : Int) - upper.dp + d.dp + 1) := by omega
      have hF1 : lower.cut ((ui : Int) - upper.dp + lower.dp + 1)
          ≤ d.cut ((ui : Int) - upper.dp + d.dp + 1) :=
        cut_mono lower d hl hd _ _ hpl hlv
      have hF2 : d.cut ((ui : Int) - upper.dp + d.dp + 1) ≤ upper.cut ((ui : Int) + 1) :=
        cut_mono d upper hd hu _ _ hpu.symm huv
      have hdelta := delta_step upperdelta (d.cut ((ui : Int) - upper.dp + d.dp))
        (upper.cut (ui : Int)) (d.dig ((ui : Int) - upper.dp + d.dp)) (upper.dig (ui : Int))
        hdm9 hdu9 hI2 (by rw [← hcd, ← hcu]; exact hF2)
      rw [← hcd, ← hcu] at hdelta
      -- values
      have hP : (0 : ℚ) < (10 : ℚ) ^ (d.dp - ((ui : Int) - upper.dp + d.dp + 1)) := by
        positivity
      have vd1 := cut_le_val d hd ((ui : Int) - upper.dp + d.dp + 1)
      have vd2 := val_lt_cut d hd ((ui : Int) - upper.dp + d.dp + 1)
      have vl2 := val_lt_cut lower hl ((ui : Int) - upper.dp + lower.dp + 1)
      rw [hpl] at vl2
      have vu1 := cut_le_val upper hu ((ui : Int) + 1)
      rw [hpu] at vu1
      -- soundness of rounding down
      have hdown : (lower.digitAt ((ui : Int) - upper.dp + lower.dp)
            != d.digitAt ((ui : Int) - upper.dp + d.dp)
          || (inclusive && (ui : Int) - upper.dp + lower.dp + 1 == (lower.nd : Int))) = true →
          lower.val ≤ (d.cut ((ui : Int) - upper.dp + d.dp + 1) : ℚ)
              * (10 : ℚ) ^ (d.dp - ((ui : Int) - upper.dp + d.dp + 1))
          ∧ (inclusive = false →
              lower.val < (d.cut ((ui : Int) - upper.dp + d.dp + 1) : ℚ)
                * (10 : ℚ) ^ (d.dp - ((ui : Int) - upper.dp + d.dp + 1))) := by
        intro hok
        simp only [Bool.or_eq_true, Bool.and_eq_true, bne_iff_ne, ne_eq, beq_iff_eq] at hok
        rcases hok with hne | ⟨hinc, hend⟩
        · have hdig : lower.dig ((ui : Int) - upper.dp + lower.dp)
              ≠ d.dig ((ui : Int) - upper.dp + d.dp) := by
            intro he
            apply hne
            apply char_eq_of_toNat
            omega
          have hlt : lower.cut ((ui : Int) - upper.dp + lower.dp + 1) + 1
              ≤ d.cut ((ui : Int) - upper.dp + d.dp + 1) := by omega
          have hltq : (lower.cut ((ui : Int) - upper.dp + lower.dp + 1) : ℚ) + 1
              ≤ (d.cut ((ui : Int) - upper.dp + d.dp + 1) : ℚ) := by exact_mod_cast hlt
          have hmul := mul_le_mul_of_nonneg_right hltq (le_of_lt hP)
          exact ⟨by linarith, fun _ => by linarith⟩
        · by_cases hdig : lower.dig ((ui : Int) - upper.dp + lower.dp)
              = d.dig ((ui : Int) - upper.dp + d.dp)
          · have hcut : lower.cut ((ui : Int) - upper.dp + lower.dp + 1)
                = d.cut ((ui : Int) - upper.dp + d.dp + 1) := by omega
            have hv := val_eq_cut lower ((ui : Int) - upper.dp + lower.dp + 1) (by omega)
            rw [hpl, hcut] at hv
            refine ⟨le_of_eq hv, ?_⟩
            intro hf
            rw [hinc] at hf
            cases hf
          · have hlt : lower.cut ((ui : Int) - upper.dp + lower.dp + 1) + 1
                ≤ d.cut ((ui : Int) - upper.dp + d.dp + 1) := by omega
            have hltq : (lower.cut ((ui : Int) - upper.dp + lower.dp + 1) : ℚ) + 1
                ≤ (d.cut ((ui : Int) - upper.dp + d.dp + 1) : ℚ) := by exact_mod_cast hlt
            have hmul := mul_le_mul_of_nonneg_right hltq (le_of_lt hP)
            exact ⟨by linarith, fun _ => by linarith⟩
      generalize hδ : (if upperdelta = 0 ∧ d.dig ((ui : Int) - upper.dp + d.dp) + 1
            < upper.dig (ui : Int) then 2
          else if upperdelta = 0 ∧ d.dig ((ui : Int) - upper.dp + d.dp) ≠ upper.dig (ui : Int)
            then 1
          else if upperdelta = 1 ∧ ¬ (d.dig ((ui : Int) - upper.dp + d.dp) = 9
            ∧ upper.dig (ui : Int) = 0) then 2
          else upperdelta) = δ at hdelta ⊢
      -- soundness of rounding up
      have hup : (decide (0 < δ) && (inclusive || decide (1 < δ)
            || decide (ui + 1 < upper.nd))) = true →
          ((d.cut ((ui : Int) - upper.dp + d.dp + 1) : ℚ) + 1)
              * (10 : ℚ) ^ (d.dp - ((ui : Int) - upper.dp + d.dp + 1)) ≤ upper.val
          ∧ (inclusive = false →
              ((d.cut ((ui : Int) - upper.dp + d.dp + 1) : ℚ) + 1)
                * (10 : ℚ) ^ (d.dp - ((ui : Int) - upper.dp + d.dp + 1)) < upper.val) := by
        intro hok
        simp only [Bool.or_eq_true, Bool.and_eq_true, decide_eq_true_eq] at hok
        obtain ⟨hpos, hrest⟩ := hok
        have hAB : d.cut ((ui : Int) - upper.dp + d.dp + 1) + 1 ≤ upper.cut ((ui : Int) + 1) := by
          unfold DeltaInv at hdelta
          omega
        have hABq : (d.cut ((ui : Int) - upper.dp + d.dp + 1) : ℚ) + 1
            ≤ (upper.cut ((ui : Int) + 1) : ℚ) := by exact_mod_cast hAB
        have hmul := mul_le_mul_of_nonneg_right hABq (le_of_lt hP)
        refine ⟨by linarith, ?_⟩
        intro hf
        rw [hf] at hrest
        rcases hrest with (hrest | hrest) | hrest
        · cases hrest
        · have hAB2 : d.cut ((ui : Int) - upper.dp + d.dp + 1) + 2
              ≤ upper.cut ((ui : Int) + 1) := by
            unfold DeltaInv at hdelta
            omega
          have hABq2 : (d.cut ((ui : Int) - upper.dp + d.dp + 1) : ℚ) + 2
              ≤ (upper.cut ((ui : Int) + 1) : ℚ) := by exact_mod_cast hAB2
          have hmul2 := mul_le_mul_of_nonneg_right hABq2 (le_of_lt hP)
          nlinarith
        · have hs := cut_lt_val upper hu hul ((ui : Int) + 1) (by omega) (by omega)
          rw [hpu] at hs
          linarith
      obtain ⟨rd1, rd2, rd3⟩ := RoundDown_spec d hd ((ui : Int) - upper.dp + d.dp + 1)
      obtain ⟨ru1, ru2, ru3⟩ := RoundUp_spec d hd ((ui : Int) - upper.dp + d.dp + 1)
      obtain ⟨rr1, rr2, rr3⟩ := Round_spec d hd ((ui : Int) - upper.dp + d.dp + 1)
      by_cases hokd : (lower.digitAt ((ui : Int) - upper.dp + lower.dp)
            != d.digitAt ((ui : Int) - upper.dp + d.dp)
          || (inclusive && (ui : Int) - upper.dp + lower.dp + 1 == (lower.nd : Int))) = true
      · obtain ⟨dn1, dn2⟩ := hdown hokd
        by_cases hoku : (decide (0 < δ) && (inclusive || decide (1 < δ)
            || decide (ui + 1 < upper.nd))) = true
        · obtain ⟨up1, up2⟩ := hup hoku
          rw [hokd, hoku]
          simp only [Bool.and_self, if_true]
          rcases rr3 with hsame | ⟨_, _, hv⟩ | ⟨_, _, hv⟩
          · rw [hsame]
            exact ShortestSound_self d upper lower inclusive hd hlv huv
          · refine ⟨rr1, rr2, ?_, ?_, ?_⟩
            · rw [hv]; exact dn1
            · rw [hv]; linarith
            · intro hf
              rw [hv]
              exact ⟨dn2 hf, by linarith⟩
          · refine ⟨rr1, rr2, ?_, ?_, ?_⟩
            · rw [hv]; linarith
            · rw [hv]; exact up1
            · intro hf
              rw [hv]
              exact ⟨by linarith, up2 hf⟩
        · have hoku2 : (decide (0 < δ) && (inclusive || decide (1 < δ)
              || decide (ui + 1 < upper.nd))) = false := by
            simpa using hoku
          rw [hokd, hoku2]
          simp only [Bool.and_false, Bool.false_eq_true, if_false, if_true]
          rcases rd3 with hsame | ⟨_, _, hv⟩
          · rw [hsame]
            exact ShortestSound_self d upper lower inclusive hd hlv huv
          · refine ⟨rd1, ?_, ?_, ?_, ?_⟩
            · rcases rd2 with h | h
              · exact Or.inl h
              · exact Or.inr (Or.inr h)
            · rw [hv]; exact dn1
            · rw [hv]; linarith
            · intro hf
              rw [hv]
              exact ⟨dn2 hf, by linarith⟩
      · have hokd2 : (lower.digitAt ((ui : Int) - upper.dp + lower.dp)
              != d.digitAt ((ui : Int) - upper.dp + d.dp)
            || (inclusive && (ui : Int) - upper.dp + lower.dp + 1 == (lower.nd : Int)))
            = false := by
          simpa using hokd
        rw [hokd2]
        simp only [Bool.false_and, Bool.false_eq_true, if_false]
        by_cases hoku : (decide (0 < δ) && (inclusive || decide (1 < δ)
            || decide (ui + 1 < upper.nd))) = true
        · obtain ⟨up1, up2⟩ := hup hoku
          rw [if_pos hoku]
          rcases ru3 with hsame | ⟨_, _, hv⟩
          · rw [hsame]
            exact ShortestSound_self d upper lower inclusive hd hlv huv
          · refine ⟨ru1, ?_, ?_, ?_, ?_⟩
            · rcases ru2 with h | h
              · exact Or.inl h
              · exact Or.inr (Or.inl h)
            · rw [hv]; linarith
            · rw [hv]; exact up1
            · intro hf
              rw [hv]
              exact ⟨by linarith, up2 hf⟩
        · rw [if_neg hoku]
          have hleq : lower.digitAt ((ui : Int) - upper.dp + lower.dp)
              = d.digitAt ((ui : Int) - upper.dp + d.dp) := by
            simp only [Bool.or_eq_false_iff, bne_eq_false_iff_eq] at hokd2
            exact hokd2.1
          have hdig : lower.dig ((ui : Int) - upper.dp + lower.dp)
              = d.dig ((ui : Int) - upper.dp + d.dp) := by
            rw [hleq] at hlc
            omega
          have hc1 : (((ui + 1 : Nat) : Int)) - upper.dp + lower.dp
              = (ui : Int) - upper.dp + lower.dp + 1 := by push_cast; ring
          have hc2 : (((ui + 1 : Nat) : Int)) - upper.dp + d.dp
              = (ui : Int) - upper.dp + d.dp + 1 := by push_cast; ring
          have hc3 : (((ui + 1 : Nat) : Int)) = (ui : Int) + 1 := by push_cast; ring
          apply ih (ui + 1) δ
          · rw [hc1, hc2, hcl, hcd, hI1, hdig]
          · rw [hc2, hc3]
            exact hdelta

theorem toDigits_pow_le (n : Nat) (hn : 0 < n) :
    10 ^ ((Nat.toDigits 10 n).length - 1) ≤ n := by
  induction n using Nat.strong_induction_on with
  | _ n ih =>
    by_cases h : n < 10
    · rw [toDigits_small n h]
      simpa using hn
    · rw [toDigits_large n (by omega)]
      have h1 := ih (n / 10) (by omega) (by omega)
      have h2 := toDigits_length_pos (n / 10)
      have hlen : (Nat.toDigits 10 (n / 10) ++ [Nat.digitChar (n % 10)]).length - 1
          = ((Nat.toDigits 10 (n / 10)).length - 1) + 1 := by
        simp only [List.length_append, List.length_singleton]
        omega
      rw [hlen, pow_succ]
      omega

theorem decimalOfScaled_ge (n : Nat) (hn : 0 < n) (e10 : Int) :
    (10 : ℚ) ^ ((decimalOfScaled n e10).dp - 1) ≤ (decimalOfScaled n e10).val := by
  rw [decimalOfScaled_val, decimalOfScaled_pos n hn]
  have h10 : (10 : ℚ) ≠ 0 := by norm_num
  have hlen := toDigits_length_pos n
  have hexp : ((Nat.toDigits 10 n).length : Int) + e10 - 1
      = (((Nat.toDigits 10 n).length - 1 : Nat) : Int) + e10 := by omega
  show (10 : ℚ) ^ (((Nat.toDigits 10 n).length : Int) + e10 - 1) ≤ _
  rw [hexp, zpow_add₀ h10, zpow_natCast]
  have hle : ((10 : ℚ) ^ ((Nat.toDigits 10 n).length - 1)) ≤ (n : ℚ) := by
    exact_mod_cast toDigits_pow_le n hn
  have hp : (0 : ℚ) < (10 : ℚ) ^ e10 := by positivity
  exact mul_le_mul_of_nonneg_right hle (le_of_lt hp)

theorem Shift_ge (a : decimal) (k : Int) (ha : 0 < digitsToNat a.d) :
    (10 : ℚ) ^ ((a.Shift k).dp - 1) ≤ (a.Shift k).val := by
  have hne : a.d ≠ [] := by
    intro h
    rw [h] at ha
    simp [digitsToNat] at ha
  unfold decimal.Shift
  simp only [hne, if_false]
  by_cases hk : 0 ≤ k
  · simp only [hk, if_true]
    exact decimalOfScaled_ge _ (Nat.mul_pos ha (Nat.pow_pos (by decide))) _
  · simp only [hk, if_false]
    exact decimalOfScaled_ge _ (Nat.mul_pos ha (Nat.pow_pos (by decide))) _

theorem Assign_digits_pos (n : Nat) (hn : 0 < n) : 0 < digitsToNat (decimal.Assign n).d := by
  unfold decimal.Assign
  rw [decimalOfScaled_pos n hn]
  obtain ⟨z, hz⟩ := trimDigits_decomp (Nat.toDigits 10 n)
  have h1 := digitsToNat_toDigits n
  rw [hz, digitsToNat_zeros] at h1
  show 0 < digitsToNat (trimDigits (Nat.toDigits 10 n))
  rcases Nat.eq_zero_or_pos (digitsToNat (trimDigits (Nat.toDigits 10 n))) with h | h
  · rw [h] at h1
    omega
  · exact h

theorem Assign_val (n : Nat) : (decimal.Assign n).val = (n : ℚ) := by
  unfold decimal.Assign
  rw [decimalOfScaled_val]
  simp

/-- The decimal `Assign(n).Shift(k)` is the exact expansion of `n * 2^k`. -/
theorem Assign_Shift_spec (n : Nat) (hn : 0 < n) (k : Int) :
    allDigits ((decimal.Assign n).Shift k).d
    ∧ lastNonzero ((decimal.Assign n).Shift k).d
    ∧ ((decimal.Assign n).Shift k).val = (n : ℚ) * (2 : ℚ) ^ k
    ∧ (10 : ℚ) ^ (((decimal.Assign n).Shift k).dp - 1) ≤ ((decimal.Assign n).Shift k).val := by
  refine ⟨Shift_allDigits _ _, Shift_lastNonzero _ _, ?_, Shift_ge _ _ (Assign_digits_pos n hn)⟩
  rw [Shift_val, Assign_val]

theorem dp_le_of_val_lt (a b : decimal) (ha : (10 : ℚ) ^ (a.dp - 1) ≤ a.val)
    (hb : allDigits b.d) (h : a.val < b.val) : a.dp ≤ b.dp := by
  have h1 := val_lt_pow_dp b hb
  have h2 : (10 : ℚ) ^ (a.dp - 1) < (10 : ℚ) ^ b.dp := by linarith
  have h3 : a.dp - 1 < b.dp := (zpow_lt_zpow_iff_right₀ (by norm_num : (1 : ℚ) < 10)).mp h2
  omega

theorem roundShortest_eq (d : decimal) (mant : Nat) (exp : Int) :
    roundShortest d mant exp =
      if mant = 0 then ⟨[], d.dp⟩
      else if (-1023 + 1 : Int) < exp ∧ 100 * (exp - 52) ≤ 332 * (d.dp - (d.nd : Int)) then d
      else roundShortestLoop d ((decimal.Assign (mant * 2 + 1)).Shift (exp - 52 - 1))
        ((decimal.Assign ((if 2 ^ 52 < mant ∨ exp = -1023 + 1 then mant - 1 else mant * 2 - 1)
            * 2 + 1)).Shift
          ((if 2 ^ 52 < mant ∨ exp = -1023 + 1 then exp else exp - 1) - 52 - 1))
        (mant % 2 == 0)
        (d.nd + (((decimal.Assign (mant * 2 + 1)).Shift (exp - 52 - 1)).dp - d.dp).toNat + 1)
        0 0 := by
  rfl

/-- Soundness of `roundShortest`: the digits returned denote a number between the halfway
points to the neighbouring binary64 values, which may be reached only for an even mantissa. -/
theorem roundShortest_sound (mant : Nat) (exp : Int) (hm : 0 < mant) :
    ShortestSound ((decimal.Assign mant).Shift (exp - 52))
      ((decimal.Assign (mant * 2 + 1)).Shift (exp - 52 - 1))
      ((decimal.Assign ((if 2 ^ 52 < mant ∨ exp = -1023 + 1 then mant - 1 else mant * 2 - 1)
          * 2 + 1)).Shift
        ((if 2 ^ 52 < mant ∨ exp = -1023 + 1 then exp else exp - 1) - 52 - 1))
      (mant % 2 == 0)
      (roundShortest ((decimal.Assign mant).Shift (exp - 52)) mant exp) := by
  obtain ⟨d1, d2, d3, d4⟩ := Assign_Shift_spec mant hm (exp - 52)
  obtain ⟨u1, u2, u3, u4⟩ := Assign_Shift_spec (mant * 2 + 1) (by omega) (exp - 52 - 1)
  obtain ⟨l1, l2, l3, l4⟩ := Assign_Shift_spec
    ((if 2 ^ 52 < mant ∨ exp = -1023 + 1 then mant - 1 else mant * 2 - 1) * 2 + 1) (by omega)
    ((if 2 ^ 52 < mant ∨ exp = -1023 + 1 then exp else exp - 1) - 52 - 1)
  have h2 : (2 : ℚ) ≠ 0 := by norm_num
  have hP : (0 : ℚ) < (2 : ℚ) ^ (exp - 52 - 1 - 1) := by positivity
  have e1 : (2 : ℚ) ^ (exp - 52) = 4 * (2 : ℚ) ^ (exp - 52 - 1 - 1) := by
    have : exp - 52 = 2 + (exp - 52 - 1 - 1) := by ring
    conv_lhs => rw [this, zpow_add₀ h2]
    norm_num
  have e2 : (2 : ℚ) ^ (exp - 52 - 1) = 2 * (2 : ℚ) ^ (exp - 52 - 1 - 1) := by
    have : exp - 52 - 1 = 1 + (exp - 52 - 1 - 1) := by ring
    conv_lhs => rw [this, zpow_add₀ h2]
    norm_num
  have huv : ((decimal.Assign mant).Shift (exp - 52)).val
      < ((decimal.Assign (mant * 2 + 1)).Shift (exp - 52 - 1)).val := by
    rw [d3, u3, e1, e2]
    push_cast
    nlinarith
  have hlv : ((decimal.Assign ((if 2 ^ 52 < mant ∨ exp = -1023 + 1 then mant - 1
          else mant * 2 - 1) * 2 + 1)).Shift
        ((if 2 ^ 52 < mant ∨ exp = -1023 + 1 then exp else exp - 1) - 52 - 1)).val
      < ((decimal.Assign mant).Shift (exp - 52)).val := by
    rw [d3, l3]
    by_cases hc : 2 ^ 52 < mant ∨ exp = -1023 + 1
    · rw [if_pos hc, if_pos hc, e1, e2]
      have hcast : (((mant - 1) * 2 + 1 : Nat) : ℚ) = 2 * (mant : ℚ) - 1 := by
        have : (mant - 1) * 2 + 1 + 1 = 2 * mant := by omega
        have hq : (((mant - 1) * 2 + 1 + 1 : Nat) : ℚ) = ((2 * mant : Nat) : ℚ) := by
          rw [this]
        push_cast at hq ⊢
        linarith
      rw [hcast]
      nlinarith
    · rw [if_neg hc, if_neg hc, e1]
      have hexp : exp - 1 - 52 - 1 = exp - 52 - 1 - 1 := by ring
      rw [hexp]
      have hcast : (((mant * 2 - 1) * 2 + 1 : Nat) : ℚ) = 4 * (mant : ℚ) - 1 := by
        have : (mant * 2 - 1) * 2 + 1 + 1 = 4 * mant := by omega
        have hq : (((mant * 2 - 1) * 2 + 1 + 1 : Nat) : ℚ) = ((4 * mant : Nat) : ℚ) := by
          rw [this]
        push_cast at hq ⊢
        linarith
      rw [hcast]
      nlinarith
  rw [roundShortest_eq, if_neg (by omega : ¬ mant = 0)]
  by_cases hearly : (-1023 + 1 : Int) < exp ∧ 100 * (exp - 52)
      ≤ 332 * (((decimal.Assign mant).Shift (exp - 52)).dp
        - (((decimal.Assign mant).Shift (exp - 52)).nd : Int))
  · rw [if_pos hearly]
    exact ShortestSound_self _ _ _ _ d1 hlv huv
  · rw [if_neg hearly]
    have hdu := dp_le_of_val_lt _ _ d4 u1 huv
    have hlu := dp_le_of_val_lt _ _ l4 u1 (lt_trans hlv huv)
    apply roundShortestLoop_sound _ _ _ _ d1 u1 l1 u2 hlv huv
    · rw [cut_of_neg _ _ (by omega), cut_of_neg _ _ (by omega)]
    · left
      refine ⟨rfl, ?_⟩
      rw [cut_of_neg _ _ (by omega), cut_of_neg _ _ (by omega)]

theorem roundHalfEven_eq (y : ℚ) (M : Int) (h1 : (M : ℚ) - 1 / 2 ≤ y) (h2 : y ≤ (M : ℚ) + 1 / 2)
    (hodd : M % 2 = 1 → (M : ℚ) - 1 / 2 < y ∧ y < (M : ℚ) + 1 / 2) :
    roundHalfEven y = M := by
  have hf1 : M - 1 ≤ ⌊y⌋ := by
    rw [Int.le_floor]
    push_cast
    linarith
  have hf2 : ⌊y⌋ ≤ M := by
    have : ⌊y⌋ < M + 1 := by
      rw [Int.floor_lt]
      push_cast
      linarith
    omega
  have hfl := Int.floor_le y
  have hfl2 := Int.lt_floor_add_one y
  unfold roundHalfEven
  simp only
  rcases (by omega : ⌊y⌋ = M ∨ ⌊y⌋ = M - 1) with hf | hf
  · rw [hf]
    by_cases ha : y - (M : ℚ) < 1 / 2
    · rw [if_pos ha]
    · rw [if_neg ha]
      have hb : ¬ (1 / 2 < y - (M : ℚ)) := by linarith
      rw [if_neg hb]
      have heven : M % 2 = 0 := by
        rcases Int.emod_two_eq_zero_or_one M with h | h
        · exact h
        · have := (hodd h).2
          linarith
      rw [if_pos heven]
  · rw [hf]
    have hc : ((M - 1 : Int) : ℚ) = (M : ℚ) - 1 := by push_cast; ring
    rw [hf, hc] at hfl hfl2
    rw [hc]
    have ha : ¬ (y - ((M : ℚ) - 1) < 1 / 2) := by linarith
    rw [if_neg ha]
    by_cases hb : 1 / 2 < y - ((M : ℚ) - 1)
    · rw [if_pos hb]
      ring
    · rw [if_neg hb]
      have heven : M % 2 = 0 := by
        rcases Int.emod_two_eq_zero_or_one M with h | h
        · exact h
        · have := (hodd h).1
          linarith
      have hne : ¬ ((M - 1) % 2 = 0) := by omega
      rw [if_neg hne]
      ring

theorem log2_eq (x : ℚ) (e : Int) (h1 : (2 : ℚ) ^ e ≤ x) (h2 : x < (2 : ℚ) ^ (e + 1)) :
    Int.log 2 x = e := by
  have hx : 0 < x := lt_of_lt_of_le (by positivity) h1
  have a : e ≤ Int.log 2 x := by
    rw [← Int.zpow_le_iff_le_log (by norm_num) hx]
    exact_mod_cast h1
  have b : Int.log 2 x < e + 1 := by
    rw [← Int.lt_zpow_iff_log_lt (by norm_num) hx]
    exact_mod_cast h2
  omega

theorem log2_lt (x : ℚ) (e : Int) (hx : 0 < x) (h2 : x < (2 : ℚ) ^ e) :
    Int.log 2 x < e := by
  rw [← Int.lt_zpow_iff_log_lt (by norm_num) hx]
  exact_mod_cast h2

theorem float64OfRat_eq (neg : Bool) (x : ℚ) :
    float64OfRat neg x =
      if x ≤ 0 then some ⟨if neg then 2 ^ 63 else 0⟩
      else if (max (Int.log 2 x - 52) (-1074) + 1074) * 2 ^ 52
          + roundHalfEven (x / 2 ^ (max (Int.log 2 x - 52) (-1074))) < 2047 * 2 ^ 52
        then some ⟨(if neg then 2 ^ 63 else 0)
          + ((max (Int.log 2 x - 52) (-1074) + 1074) * 2 ^ 52
            + roundHalfEven (x / 2 ^ (max (Int.log 2 x - 52) (-1074)))).toNat⟩
        else none := by
  rfl

theorem float64OfRat_of (neg : Bool) (x : ℚ) (E m : Int) (target : Nat) (hx : 0 < x)
    (hE : max (Int.log 2 x - 52) (-1074) = E) (hm : roundHalfEven (x / 2 ^ E) = m)
    (ht : (E + 1074) * 2 ^ 52 + m = (target : Int)) (hlt : target < 2047 * 2 ^ 52) :
    float64OfRat neg x = some ⟨(if neg then 2 ^ 63 else 0) + target⟩ := by
  rw [float64OfRat_eq, if_neg (not_le.mpr hx), hE, hm, ht]
  have h1 : ((target : Int)) < 2047 * 2 ^ 52 := by exact_mod_cast hlt
  rw [if_pos h1]
  simp

/-- The parser's rounding: a positive rational between the halfway points around the binary64
value with mantissa `mant` and exponent `exp` (in the decoding of `genericFtoa`) is read as
that value. -/
theorem float64OfRat_round (neg : Bool) (x : ℚ) (mant : Nat) (exp : Int)
    (hm0 : 0 < mant) (hm1 : mant < 2 ^ 53) (he0 : -1022 ≤ exp) (he1 : exp ≤ 1023)
    (hnorm : exp = -1022 ∨ 2 ^ 52 ≤ mant)
    (hlo : (if 2 ^ 52 < mant ∨ exp = -1022 then 4 * (mant : ℚ) - 2 else 4 * (mant : ℚ) - 1)
        * (2 : ℚ) ^ (exp - 54) ≤ x)
    (hhi : x ≤ (4 * (mant : ℚ) + 2) * (2 : ℚ) ^ (exp - 54))
    (hodd : mant % 2 = 1 →
      (if 2 ^ 52 < mant ∨ exp = -1022 then 4 * (mant : ℚ) - 2 else 4 * (mant : ℚ) - 1)
        * (2 : ℚ) ^ (exp - 54) < x ∧ x < (4 * (mant : ℚ) + 2) * (2 : ℚ) ^ (exp - 54)) :
    float64OfRat neg x
      = some ⟨(if neg then 2 ^ 63 else 0) + ((exp + 1022).toNat * 2 ^ 52 + mant)⟩ := by
  have h2 : (2 : ℚ) ≠ 0 := by norm_num
  have hu : (0 : ℚ) < (2 : ℚ) ^ (exp - 54) := by positivity
  generalize hudef : (2 : ℚ) ^ (exp - 54) = u at hlo hhi hodd hu
  have p52 : (2 : ℚ) ^ (exp - 52) = 4 * u := by
    have : exp - 52 = 2 + (exp - 54) := by ring
    rw [this, zpow_add₀ h2, hudef]; norm_num
  have p53 : (2 : ℚ) ^ (exp - 53) = 2 * u := by
    have : exp - 53 = 1 + (exp - 54) := by ring
    rw [this, zpow_add₀ h2, hudef]; norm_num
  have p0 : (2 : ℚ) ^ exp = 2 ^ 54 * u := by
    have : exp = 54 + (exp - 54) := by ring
    conv_lhs => rw [this, zpow_add₀ h2, hudef]
    norm_num
  have p1 : (2 : ℚ) ^ (exp + 1) = 2 ^ 55 * u := by
    have : exp + 1 = 55 + (exp - 54) := by ring
    conv_lhs => rw [this, zpow_add₀ h2, hudef]
    norm_num
  have pm1 : (2 : ℚ) ^ (exp - 1) = 2 ^ 53 * u := by
    have : exp - 1 = 53 + (exp - 54) := by ring
    conv_lhs => rw [this, zpow_add₀ h2, hudef]
    norm_num
  have hmq0 : (1 : ℚ) ≤ (mant : ℚ) := by exact_mod_cast hm0
  have hmq1 : (mant : ℚ) ≤ 2 ^ 53 - 1 := by
    have : mant + 1 ≤ 2 ^ 53 := hm1
    have h : ((mant + 1 : Nat) : ℚ) ≤ ((2 ^ 53 : Nat) : ℚ) := by exact_mod_cast this
    push_cast at h
    linarith
  have hL : 4 * (mant : ℚ) - 2 ≤
      (if 2 ^ 52 < mant ∨ exp = -1022 then 4 * (mant : ℚ) - 2 else 4 * (mant : ℚ) - 1) := by
    split_ifs <;> linarith
  have hlo2 : (4 * (mant : ℚ) - 2) * u ≤ x :=
    le_trans (mul_le_mul_of_nonneg_right hL (le_of_lt hu)) hlo
  have hx : 0 < x := by
    have : 0 < (4 * (mant : ℚ) - 2) * u := by
      apply mul_pos _ hu
      linarith
    linarith
  have hlt : (exp + 1022).toNat * 2 ^ 52 + mant < 2047 * 2 ^ 52 := by
    have : (exp + 1022).toNat ≤ 2045 := by omega
    norm_num at hm1 ⊢
    omega
  have hxhi : x < 2 ^ 55 * u := by
    have e53 : (2 : ℚ) ^ 53 = 9007199254740992 := by norm_num
    have e55 : (2 : ℚ) ^ 55 = 36028797018963968 := by norm_num
    have : (4 * (mant : ℚ) + 2) * u < 2 ^ 55 * u := by
      apply mul_lt_mul_of_pos_right _ hu
      rw [e55]
      rw [e53] at hmq1
      linarith
    linarith
  -- the rounding at the exponent of the value itself
  have hround : roundHalfEven (x / (4 * u)) = (mant : Int) := by
    apply roundHalfEven_eq
    · rw [le_div_iff₀ (by positivity)]
      push_cast
      linarith
    · rw [div_le_iff₀ (by positivity)]
      push_cast
      linarith
    · intro ho
      have ho2 : mant % 2 = 1 := by omega
      obtain ⟨a, b⟩ := hodd ho2
      have a2 : (4 * (mant : ℚ) - 2) * u < x :=
        lt_of_le_of_lt (mul_le_mul_of_nonneg_right hL (le_of_lt hu)) a
      constructor
      · rw [lt_div_iff₀ (by positivity)]
        push_cast
        linarith
      · rw [div_lt_iff₀ (by positivity)]
        push_cast
        linarith
  have htarget : (exp - 52 + 1074) * 2 ^ 52 + (mant : Int)
      = (((exp + 1022).toNat * 2 ^ 52 + mant : Nat) : Int) := by
    have : ((exp + 1022).toNat : Int) = exp + 1022 := by omega
    push_cast
    rw [this]
    ring
  by_cases hc1 : (2 : ℚ) ^ 54 * u ≤ x
  · -- the value lies in the binade of `exp`
    have hlog := log2_eq x exp (by rw [p0]; exact hc1) (by rw [p1]; exact hxhi)
    apply float64OfRat_of neg x (exp - 52) mant _ hx _ _ htarget hlt
    · rw [hlog]; omega
    · rw [p52]; exact hround
  · have hc1 : x < (2 : ℚ) ^ 54 * u := not_le.mp hc1
    by_cases hmin : exp = -1022
    · -- at the smallest exponent the spacing does not shrink
      have hlog := log2_lt x exp hx (by rw [p0]; exact hc1)
      apply float64OfRat_of neg x (exp - 52) mant _ hx _ _ htarget hlt
      · omega
      · rw [p52]; exact hround
    · -- just below a power of two, where the spacing halves
      have hmant : 2 ^ 52 ≤ mant := by
        rcases hnorm with h | h
        · exact absurd h hmin
        · exact h
      have hmeq : mant = 2 ^ 52 := by
        by_contra hne
        have hgt : 2 ^ 52 + 1 ≤ mant := by omega
        have hq : ((2 ^ 52 + 1 : Nat) : ℚ) ≤ (mant : ℚ) := by exact_mod_cast hgt
        have e52 : ((2 ^ 52 + 1 : Nat) : ℚ) = 4503599627370497 := by norm_num
        have e54 : (2 : ℚ) ^ 54 = 18014398509481984 := by norm_num
        rw [e52] at hq
        have : (2 : ℚ) ^ 54 * u ≤ (4 * (mant : ℚ) - 2) * u := by
          apply mul_le_mul_of_nonneg_right _ (le_of_lt hu)
          rw [e54]
          linarith
        linarith
      have hcond : ¬ (2 ^ 52 < mant ∨ exp = -1022) := by
        rintro (h | h)
        · omega
        · exact hmin h
      rw [if_neg hcond] at hlo
      have hmq : (mant : ℚ) = 2 ^ 52 := by rw [hmeq]; norm_num
      rw [hmq] at hlo
      have hlog := log2_eq x (exp - 1)
        (by
          rw [pm1]
          have : (2 : ℚ) ^ 53 * u ≤ (4 * 2 ^ 52 - 1) * u := by
            apply mul_le_mul_of_nonneg_right _ (le_of_lt hu)
            norm_num
          linarith)
        (by
          have : exp - 1 + 1 = exp := by ring
          rw [this, p0]
          exact hc1)
      have ht2 : (exp - 53 + 1074) * 2 ^ 52 + (2 ^ 53 : Int)
          = (((exp + 1022).toNat * 2 ^ 52 + mant : Nat) : Int) := by
        have : ((exp + 1022).toNat : Int) = exp + 1022 := by omega
        push_cast
        rw [this, hmeq]
        push_cast
        ring
      apply float64OfRat_of neg x (exp - 53) (2 ^ 53) _ hx _ _ ht2 hlt
      · rw [hlog]; omega
      · rw [p53]
        apply roundHalfEven_eq
        · rw [le_div_iff₀ (by positivity)]
          push_cast
          norm_num at hlo ⊢
          linarith
        · rw [div_le_iff₀ (by positivity)]
          push_cast
          norm_num at hc1 ⊢
          linarith
        · intro ho
          norm_num at ho

theorem readSign_digit (c : Char) (cs : List Char) (h : c.isDigit = true) :
    readSign (c :: cs) = (false, c :: cs) := by
  have h1 : c ≠ '-' := by
    intro he; rw [he] at h; revert h; decide
  have h2 : c ≠ '+' := by
    intro he; rw [he] at h; revert h; decide
  unfold readSign
  split
  · rename_i heq
    simp only [List.cons.injEq] at heq
    exact absurd heq.1 h1
  · rename_i heq
    simp only [List.cons.injEq] at heq
    exact absurd heq.1 h2
  · rfl

theorem takeDigits_append (ds rest : List Char) (h : allDigits ds)
    (hr : ∀ c ∈ rest.head?, c.isDigit = false) : takeDigits (ds ++ rest) = (ds, rest) := by
  induction ds with
  | nil =>
    cases rest with
    | nil => rfl
    | cons c r =>
      have hc : c.isDigit = false := hr c (by simp)
      simp [takeDigits, hc]
  | cons c ds ih =>
    rw [allDigits_cons] at h
    have := ih h.2
    simp [takeDigits, h.1, this]

theorem takeDigits_all (ds : List Char) (h : allDigits ds) : takeDigits ds = (ds, []) := by
  have := takeDigits_append ds [] h (by simp)
  simpa using this

/-- What `readFloat` finds in a numeral of the form `-ddd.ddde±dd`, the sign, the fraction
and the exponent each optional. -/
theorem readFloat_shape (neg dot hasExp eneg : Bool) (ip fp ed : List Char)
    (hip : allDigits ip) (hip0 : ip ≠ []) (hfp : allDigits fp) (hdot : dot = false → fp = [])
    (hed : allDigits ed) (hed0 : ed ≠ []) :
    readFloat ((if neg then ['-'] else []) ++ ip ++ (if dot then '.' :: fp else [])
        ++ (if hasExp then 'e' :: (if eneg then '-' else '+') :: ed else []))
      = some (neg, digitsToNat (ip ++ fp),
          (if hasExp then (if eneg then -(digitsToNat ed : Int) else (digitsToNat ed : Int))
            else 0) - (fp.length : Int)) := by
  obtain ⟨c, cs, hcs⟩ : ∃ c cs, ip = c :: cs := by
    cases ip with
    | nil => exact absurd rfl hip0
    | cons c cs => exact ⟨c, cs, rfl⟩
  have hc : c.isDigit = true := hip c (by rw [hcs]; exact List.mem_cons_self _ _)
  -- the sign
  have hsign : ∀ rest : List Char,
      readSign ((if neg then ['-'] else []) ++ ip ++ rest) = (neg, ip ++ rest) := by
    intro rest
    cases neg with
    | true => rfl
    | false =>
      rw [hcs]
      exact readSign_digit c _ hc
  -- the exponent
  have hexp : readExponent (if hasExp then 'e' :: (if eneg then '-' else '+') :: ed else [])
      = some (if hasExp then (if eneg then -(digitsToNat ed : Int) else (digitsToNat ed : Int))
          else 0) := by
    cases hasExp with
    | false => rfl
    | true =>
      have hr : readSign ((if eneg then '-' else '+') :: ed) = (eneg, ed) := by
        cases eneg <;> rfl
      simp [readExponent, hr, takeDigits_all ed hed, hed0]
  have hexphead : ∀ c ∈ (if hasExp then 'e' :: (if eneg then '-' else '+') :: ed
      else ([] : List Char)).head?, c.isDigit = false := by
    intro c hc
    cases hasExp with
    | false => simp at hc
    | true =>
      simp only [if_true, List.head?_cons, Option.mem_def, Option.some.injEq] at hc
      rw [← hc]; rfl
  have hexpdot : ∀ r, (if hasExp then 'e' :: (if eneg then '-' else '+') :: ed
      else ([] : List Char)) ≠ '.' :: r := by
    intro r
    cases hasExp with
    | false => simp
    | true => simp
  generalize (if hasExp then 'e' :: (if eneg then '-' else '+') :: ed
      else ([] : List Char)) = ex at hexp hexphead hexpdot
  generalize (if hasExp then (if eneg then -(digitsToNat ed : Int) else (digitsToNat ed : Int))
          else 0) = ev at hexp
  have hne : ip ++ fp ≠ [] := by
    rw [hcs]; simp
  -- the integer and the fraction digits
  have hparts : takeDigits (ip ++ ((if dot then '.' :: fp else []) ++ ex))
        = (ip, (if dot then '.' :: fp else []) ++ ex)
      ∧ readFraction ((if dot then '.' :: fp else []) ++ ex) = (fp, ex) := by
    cases dot with
    | true =>
      simp only [if_true]
      constructor
      · apply takeDigits_append _ _ hip
        intro c hc
        simp only [List.cons_append, List.head?_cons, Option.mem_def, Option.some.injEq] at hc
        rw [← hc]; rfl
      · show takeDigits (fp ++ ex) = (fp, ex)
        exact takeDigits_append _ _ hfp hexphead
    | false =>
      have hfp0 : fp = [] := hdot rfl
      subst hfp0
      simp only [Bool.false_eq_true, if_false, List.nil_append]
      constructor
      · exact takeDigits_append _ _ hip hexphead
      · unfold readFraction
        split
        · exact absurd rfl (hexpdot _)
        · rfl
  obtain ⟨hp1, hp2⟩ := hparts
  have hassoc : (if neg then ['-'] else []) ++ ip ++ (if dot then '.' :: fp else []) ++ ex
      = (if neg then ['-'] else []) ++ ip ++ ((if dot then '.' :: fp else []) ++ ex) := by
    simp [List.append_assoc]
  rw [hassoc]
  unfold readFloat
  simp only [hsign, hp1, hp2, hne, if_false, hexp]

theorem ofNat_digit (k : Nat) (hk : k ≤ 9) :
    (Char.ofNat (k + 48)).isDigit = true ∧ (Char.ofNat (k + 48)).toNat - 48 = k := by
  interval_cases k <;> exact ⟨by decide, by decide⟩

/-- The exponent digits written by `fmtE` are the decimal numeral of the exponent. -/
theorem expDigits_spec (e : Nat) (he : e < 1000) :
    allDigits (if e < 10 then ['0', Char.ofNat (e + 48)]
      else if e < 100 then [Char.ofNat (e / 10 + 48), Char.ofNat (e % 10 + 48)]
      else [Char.ofNat (e / 100 + 48), Char.ofNat (e / 10 % 10 + 48), Char.ofNat (e % 10 + 48)])
    ∧ (if e < 10 then ['0', Char.ofNat (e + 48)]
      else if e < 100 then [Char.ofNat (e / 10 + 48), Char.ofNat (e % 10 + 48)]
      else [Char.ofNat (e / 100 + 48), Char.ofNat (e / 10 % 10 + 48), Char.ofNat (e % 10 + 48)])
      ≠ []
    ∧ digitsToNat (if e < 10 then ['0', Char.ofNat (e + 48)]
      else if e < 100 then [Char.ofNat (e / 10 + 48), Char.ofNat (e % 10 + 48)]
      else [Char.ofNat (e / 100 + 48), Char.ofNat (e / 10 % 10 + 48), Char.ofNat (e % 10 + 48)])
      = e := by
  by_cases h1 : e < 10
  · obtain ⟨a1, a2⟩ := ofNat_digit e (by omega)
    simp only [h1, if_true]
    refine ⟨?_, by simp, ?_⟩
    · intro c hc
      simp only [List.mem_cons, List.mem_singleton, List.not_mem_nil, or_false] at hc
      rcases hc with hc | hc
      · rw [hc]; rfl
      · rw [hc]; exact a1
    · simp only [digitsToNat, List.foldl_cons, List.foldl_nil, a2]
      have : '0'.toNat - 48 = 0 := by decide
      omega
  · simp only [h1, if_false]
    by_cases h2 : e < 100
    · obtain ⟨a1, a2⟩ := ofNat_digit (e / 10) (by omega)
      obtain ⟨b1, b2⟩ := ofNat_digit (e % 10) (by omega)
      simp only [h2, if_true]
      refine ⟨?_, by simp, ?_⟩
      · intro c hc
        simp only [List.mem_cons, List.mem_singleton, List.not_mem_nil, or_false] at hc
        rcases hc with hc | hc
        · rw [hc]; exact a1
        · rw [hc]; exact b1
      · simp only [digitsToNat, List.foldl_cons, List.foldl_nil, a2, b2]
        omega
    · obtain ⟨a1, a2⟩ := ofNat_digit (e / 100) (by omega)
      obtain ⟨b1, b2⟩ := ofNat_digit (e / 10 % 10) (by omega)
      obtain ⟨c1, c2⟩ := ofNat_digit (e % 10) (by omega)
      simp only [h2, if_false]
      refine ⟨?_, by simp, ?_⟩
      · intro c hc
        simp only [List.mem_cons, List.mem_singleton, List.not_mem_nil, or_false] at hc
        rcases hc with hc | hc | hc
        · rw [hc]; exact a1
        · rw [hc]; exact b1
        · rw [hc]; exact c1
      · simp only [digitsToNat, List.foldl_cons, List.foldl_nil, a2, b2, c2]
        omega

/-- Reading back what `%e` writes for the digits of a decimal: the digits as an integer, and
the power of ten that places the decimal point. -/
theorem readFloat_fmtE (neg : Bool) (d : decimal) (h : allDigits d.d) (hne : d.d ≠ [])
    (hdp : (d.dp - 1).natAbs < 1000) :
    readFloat (fmtE neg d ((d.nd : Int) - 1) 'e')
      = some (neg, digitsToNat d.d, d.dp - (d.nd : Int)) := by
  obtain ⟨c, cs, hcs⟩ : ∃ c cs, d.d = c :: cs := by
    cases hd : d.d with
    | nil => exact absurd hd hne
    | cons c cs => exact ⟨c, cs, rfl⟩
  have hnd : d.nd = cs.length + 1 := by simp [decimal.nd, hcs]
  have hall := h
  rw [hcs, allDigits_cons] at hall
  obtain ⟨e1, e2, e3⟩ := expDigits_spec (d.dp - 1).natAbs hdp
  have hform : fmtE neg d ((d.nd : Int) - 1) 'e'
      = (if neg then ['-'] else []) ++ [c] ++ (if decide (1 < d.nd) then '.' :: cs else [])
        ++ (if true then 'e' :: (if decide (d.dp - 1 < 0) then '-' else '+')
          :: (if (d.dp - 1).natAbs < 10 then ['0', Char.ofNat ((d.dp - 1).natAbs + 48)]
              else if (d.dp - 1).natAbs < 100 then
                [Char.ofNat ((d.dp - 1).natAbs / 10 + 48),
                  Char.ofNat ((d.dp - 1).natAbs % 10 + 48)]
              else [Char.ofNat ((d.dp - 1).natAbs / 100 + 48),
                Char.ofNat ((d.dp - 1).natAbs / 10 % 10 + 48),
                Char.ofNat ((d.dp - 1).natAbs % 10 + 48)]) else []) := by
    have hnd0 : d.nd ≠ 0 := by omega
    have hdig : d.digit 0 = c := by simp [decimal.digit, hcs]
    unfold fmtE
    simp only [hnd0, if_false, ne_eq, not_false_eq_true, if_true, hdig, decide_eq_true_eq]
    by_cases h1 : 1 < d.nd
    · have hp : (0 : Int) < (d.nd : Int) - 1 := by omega
      have hm : min d.nd (((d.nd : Int) - 1).toNat + 1) = d.nd := by omega
      have hz : ((d.nd : Int) - 1).toNat + 1 - max d.nd 1 = 0 := by omega
      have htake : (List.take d.nd d.d).drop 1 = cs := by
        rw [decimal.nd, List.take_length, hcs]
        rfl
      simp only [hp, if_true, hm, hz, List.replicate_zero, List.append_nil, htake, h1,
        List.append_assoc, List.cons_append, List.nil_append]
    · have hp : ¬ ((0 : Int) < (d.nd : Int) - 1) := by omega
      simp only [hp, if_false, h1, List.append_assoc, List.cons_append, List.nil_append,
        List.append_nil]
  rw [hform]
  have hfp : allDigits (if decide (1 < d.nd) = true then cs else []) := by
    split_ifs
    · exact hall.2
    · exact allDigits_nil
  have hshape := readFloat_shape neg (decide (1 < d.nd)) true (decide (d.dp - 1 < 0))
    [c] cs _ (by rw [allDigits_cons]; exact ⟨hall.1, allDigits_nil⟩) (by simp) hall.2
    (by
      intro hf
      simp only [decide_eq_false_iff_not] at hf
      have : cs.length = 0 := by omega
      exact List.length_eq_zero.mp this) e1 e2
  rw [hshape, e3]
  have hval : (if decide (d.dp - 1 < 0) = true then -(((d.dp - 1).natAbs : Nat) : Int)
      else (((d.dp - 1).natAbs : Nat) : Int)) = d.dp - 1 := by
    by_cases hneg : d.dp - 1 < 0
    · simp only [hneg, decide_True, if_true]; omega
    · simp only [hneg, decide_False, Bool.false_eq_true, if_false]; omega
  simp only [if_true, hval, List.singleton_append, hcs]
  rw [hnd]
  have hexp : d.dp - 1 - (cs.length : Int) = d.dp - ((cs.length + 1 : Nat) : Int) := by omega
  rw [hexp]

theorem bind_pure_cast (l : List Nat) :
    (do let a ← l; pure (a : Int) : List Int) = List.map (fun a : Nat => (a : Int)) l := by
  induction l with
  | nil => rfl
  | cons a l ih =>
    show (a : Int) :: _ = _
    simp only [List.map_cons]
    congr 1

theorem map_range_getD (l : List Char) (k : Nat) :
    List.map (fun i : Nat => l.getD (k + i) '0') (List.range (l.length - k)) = l.drop k := by
  apply List.ext_getElem
  · simp
  · intro i h1 h2
    simp only [List.length_map, List.length_range] at h1
    have hk : k + i < l.length := by omega
    simp only [List.getElem_map, List.getElem_range, List.getElem_drop]
    rw [List.getD_eq_getElem _ _ hk]

theorem map_range_const (z : Nat) (f : Nat → Char) (hf : ∀ i, i < z → f i = '0') :
    List.map f (List.range z) = List.replicate z '0' := by
  apply List.ext_getElem
  · simp
  · intro i h1 h2
    simp only [List.length_map, List.length_range] at h1
    simp only [List.getElem_map, List.getElem_range, List.getElem_replicate]
    exact hf i h1

/-- The fraction digits written by `%f` with the shortest precision: zeros up to the first
digit when the decimal point lies before it, then the digits after the decimal point. -/
theorem fmtF_fraction (d : decimal) :
    List.map (fun i : Nat =>
        if 0 ≤ d.dp + (i : Int) ∧ d.dp + (i : Int) < (d.nd : Int)
          then d.digit (d.dp + (i : Int)).toNat else '0')
        (List.range ((d.nd : Int) - d.dp).toNat)
      = List.replicate (min (-d.dp).toNat ((d.nd : Int) - d.dp).toNat) '0' ++ d.d.drop d.dp.toNat := by
  by_cases hpos : 0 < d.dp
  · have hz : min (-d.dp).toNat ((d.nd : Int) - d.dp).toNat = 0 := by omega
    rw [hz, List.replicate_zero, List.nil_append]
    have hlen : ((d.nd : Int) - d.dp).toNat = d.d.length - d.dp.toNat := by
      unfold decimal.nd; omega
    rw [hlen, ← map_range_getD d.d d.dp.toNat]
    apply List.map_congr_left
    intro i hi
    rw [List.mem_range] at hi
    have h1 : 0 ≤ d.dp + (i : Int) ∧ d.dp + (i : Int) < (d.nd : Int) := by
      unfold decimal.nd; omega
    rw [if_pos h1]
    unfold decimal.digit
    congr 1
    omega
  · have hk : d.dp.toNat = 0 := by omega
    have hz : min (-d.dp).toNat ((d.nd : Int) - d.dp).toNat = (-d.dp).toNat := by omega
    rw [hk, hz, List.drop_zero]
    have hlen : ((d.nd : Int) - d.dp).toNat = (-d.dp).toNat + d.d.length := by
      unfold decimal.nd; omega
    rw [hlen, List.range_add, List.map_append, List.map_map]
    congr 1
    · apply map_range_const
      intro i hi
      have h1 : ¬ (0 ≤ d.dp + (i : Int) ∧ d.dp + (i : Int) < (d.nd : Int)) := by omega
      rw [if_neg h1]
    · have h0 := map_range_getD d.d 0
      rw [List.drop_zero, Nat.sub_zero] at h0
      conv_rhs => rw [← h0]
      apply List.map_congr_left
      intro i hi
      rw [List.mem_range] at hi
      have h1 : 0 ≤ d.dp + (((-d.dp).toNat + i : Nat) : Int)
          ∧ d.dp + (((-d.dp).toNat + i : Nat) : Int) < (d.nd : Int) := by
        unfold decimal.nd; omega
      simp only [Function.comp]
      rw [if_pos h1]
      unfold decimal.digit
      congr 1
      omega

/-- The text `%f` writes with the shortest precision: the integer digits, and after a decimal
point the fraction digits, if any. -/
theorem fmtF_shape (neg : Bool) (d : decimal) :
    fmtF neg d ((d.nd : Int) - d.dp).toNat
      = (if neg then ['-'] else [])
        ++ (if 0 < d.dp then
              d.d.take (min d.nd d.dp.toNat)
                ++ List.replicate (d.dp.toNat - min d.nd d.dp.toNat) '0'
            else ['0'])
        ++ (if decide (0 < ((d.nd : Int) - d.dp).toNat) then
              '.' :: (List.replicate (min (-d.dp).toNat ((d.nd : Int) - d.dp).toNat) '0'
                ++ d.d.drop d.dp.toNat)
            else [])
        ++ (if false then 'e' :: (if false then '-' else '+') :: ['0'] else []) := by
  unfold fmtF
  rw [bind_pure_cast, List.map_map]
  have hfun : ((fun (i : Int) =>
        let j : Int := d.dp + i
        if 0 ≤ j ∧ j < (d.nd : Int) then d.digit j.toNat else '0')
      ∘ (fun a : Nat => (a : Int)))
      = (fun i : Nat => if 0 ≤ d.dp + (i : Int) ∧ d.dp + (i : Int) < (d.nd : Int)
          then d.digit (d.dp + (i : Int)).toNat else '0') := rfl
  rw [hfun, fmtF_fraction]
  simp only [decide_eq_true_eq, Bool.false_eq_true, if_false, List.append_nil]

/-- Reading back what `%f` writes for the digits of a decimal. -/
theorem readFloat_fmtF (neg : Bool) (d : decimal) (h : allDigits d.d) (hne : d.d ≠ []) :
    ∃ (n : Nat) (e : Int), readFloat (fmtF neg d ((d.nd : Int) - d.dp).toNat) = some (neg, n, e)
      ∧ (n : ℚ) * (10 : ℚ) ^ e = d.val := by
  have hnd : 0 < d.nd := by
    unfold decimal.nd
    exact List.length_pos.mpr hne
  have h10 : (10 : ℚ) ≠ 0 := by norm_num
  have hip : allDigits (if 0 < d.dp then
      d.d.take (min d.nd d.dp.toNat) ++ List.replicate (d.dp.toNat - min d.nd d.dp.toNat) '0'
      else ['0']) := by
    split_ifs
    · rw [allDigits_append]
      exact ⟨allDigits_take _ _ h, allDigits_replicate_zero _⟩
    · intro c hc
      simp only [List.mem_singleton] at hc
      rw [hc]; rfl
  have hip0 : (if 0 < d.dp then
      d.d.take (min d.nd d.dp.toNat) ++ List.replicate (d.dp.toNat - min d.nd d.dp.toNat) '0'
      else ['0']) ≠ [] := by
    split_ifs with hp
    · intro hnil
      have hl := congrArg List.length hnil
      simp only [List.length_append, List.length_take, List.length_replicate,
        List.length_nil] at hl
      unfold decimal.nd at hl hnd
      omega
    · simp
  have hfp : allDigits (List.replicate (min (-d.dp).toNat ((d.nd : Int) - d.dp).toNat) '0'
      ++ d.d.drop d.dp.toNat) := by
    rw [allDigits_append]
    exact ⟨allDigits_replicate_zero _, allDigits_drop _ _ h⟩
  have hdot : decide (0 < ((d.nd : Int) - d.dp).toNat) = false →
      (List.replicate (min (-d.dp).toNat ((d.nd : Int) - d.dp).toNat) '0'
        ++ d.d.drop d.dp.toNat) = [] := by
    intro hf
    simp only [decide_eq_false_iff_not] at hf
    have h1 : min (-d.dp).toNat ((d.nd : Int) - d.dp).toNat = 0 := by omega
    have h2 : d.d.length ≤ d.dp.toNat := by unfold decimal.nd at hf; omega
    rw [h1, List.replicate_zero, List.nil_append, List.drop_eq_nil_iff.mpr h2]
  have hshape := readFloat_shape neg (decide (0 < ((d.nd : Int) - d.dp).toNat)) false false
    _ _ ['0'] hip hip0 hfp hdot (by intro c hc; simp only [List.mem_singleton] at hc; rw [hc]; rfl)
    (by simp)
  rw [fmtF_shape, hshape]
  refine ⟨_, _, rfl, ?_⟩
  simp only [Bool.false_eq_true, if_false, zero_sub]
  unfold decimal.val
  by_cases hpos : 0 < d.dp
  · rw [if_pos hpos]
    have hz : min (-d.dp).toNat ((d.nd : Int) - d.dp).toNat = 0 := by omega
    rw [hz, List.replicate_zero, List.nil_append]
    by_cases hlt : d.dp.toNat < d.nd
    · have hm : min d.nd d.dp.toNat = d.dp.toNat := by omega
      rw [hm, Nat.sub_self, List.replicate_zero, List.append_nil, List.take_append_drop]
      congr 2
      simp only [List.length_drop]
      unfold decimal.nd at hlt ⊢
      omega
    · have hm : min d.nd d.dp.toNat = d.nd := by omega
      have hdrop : d.d.drop d.dp.toNat = [] := by
        apply List.drop_eq_nil_iff.mpr
        unfold decimal.nd at hlt
        omega
      have htake : d.d.take d.nd = d.d := by
        unfold decimal.nd
        exact List.take_length _
      rw [hm, hdrop, List.append_nil, htake, digitsToNat_zeros]
      simp only [List.length_nil, Nat.cast_zero, neg_zero, zpow_zero, mul_one]
      push_cast
      have hexp : d.dp - (d.nd : Int) = ((d.dp.toNat - d.nd : Nat) : Int) := by omega
      rw [hexp, zpow_natCast]
  · rw [if_neg hpos]
    have hk : d.dp.toNat = 0 := by omega
    have hz : min (-d.dp).toNat ((d.nd : Int) - d.dp).toNat = (-d.dp).toNat := by omega
    rw [hk, hz, List.drop_zero]
    have hval : digitsToNat (['0'] ++ (List.replicate (-d.dp).toNat '0' ++ d.d))
        = digitsToNat d.d := by
      rw [digitsToNat_app, digitsToNat_app, digitsToNat_replicate_zero]
      have : digitsToNat ['0'] = 0 := by decide
      rw [this]
      simp
    rw [hval]
    congr 2
    simp only [List.length_append, List.length_replicate]
    unfold decimal.nd
    omega

/-- Reading back what `formatDigits` writes: the sign, and a numeral for the value of the
decimal. -/
theorem readFloat_formatDigitsG (neg : Bool) (d : decimal) (h : allDigits d.d) (hne : d.d ≠ [])
    (hdp : (d.dp - 1).natAbs < 1000) :
    ∃ (n : Nat) (e : Int), readFloat (formatDigitsG neg d) = some (neg, n, e)
      ∧ (n : ℚ) * (10 : ℚ) ^ e = d.val := by
  unfold formatDigitsG
  simp only
  by_cases hc : d.dp - 1 < -4 ∨ (6 : Int) ≤ d.dp - 1
  · rw [if_pos hc]
    exact ⟨_, _, readFloat_fmtE neg d h hne hdp, rfl⟩
  · rw [if_neg hc]
    exact readFloat_fmtF neg d h hne

/-- The bounds of `roundShortest` in units of a quarter of the last place. -/
theorem roundShortest_bounds (mant : Nat) (exp : Int) (hm : 0 < mant) :
    allDigits (roundShortest ((decimal.Assign mant).Shift (exp - 52)) mant exp).d
    ∧ ((roundShortest ((decimal.Assign mant).Shift (exp - 52)) mant exp).dp
          = ((decimal.Assign mant).Shift (exp - 52)).dp
      ∨ (roundShortest ((decimal.Assign mant).Shift (exp - 52)) mant exp).dp
          = ((decimal.Assign mant).Shift (exp - 52)).dp + 1
      ∨ (roundShortest ((decimal.Assign mant).Shift (exp - 52)) mant exp).dp = 0)
    ∧ (if 2 ^ 52 < mant ∨ exp = -1022 then 4 * (mant : ℚ) - 2 else 4 * (mant : ℚ) - 1)
        * (2 : ℚ) ^ (exp - 54)
      ≤ (roundShortest ((decimal.Assign mant).Shift (exp - 52)) mant exp).val
    ∧ (roundShortest ((decimal.Assign mant).Shift (exp - 52)) mant exp).val
      ≤ (4 * (mant : ℚ) + 2) * (2 : ℚ) ^ (exp - 54)
    ∧ (mant % 2 = 1 →
      (if 2 ^ 52 < mant ∨ exp = -1022 then 4 * (mant : ℚ) - 2 else 4 * (mant : ℚ) - 1)
          * (2 : ℚ) ^ (exp - 54)
        < (roundShortest ((decimal.Assign mant).Shift (exp - 52)) mant exp).val
      ∧ (roundShortest ((decimal.Assign mant).Shift (exp - 52)) mant exp).val
        < (4 * (mant : ℚ) + 2) * (2 : ℚ) ^ (exp - 54)) := by
  obtain ⟨s1, s2, s3, s4, s5⟩ := roundShortest_sound mant exp hm
  obtain ⟨_, _, u3, _⟩ := Assign_Shift_spec (mant * 2 + 1) (by omega) (exp - 52 - 1)
  obtain ⟨_, _, l3, _⟩ := Assign_Shift_spec
    ((if 2 ^ 52 < mant ∨ exp = -1023 + 1 then mant - 1 else mant * 2 - 1) * 2 + 1) (by omega)
    ((if 2 ^ 52 < mant ∨ exp = -1023 + 1 then exp else exp - 1) - 52 - 1)
  have h2 : (2 : ℚ) ≠ 0 := by norm_num
  have e53 : (2 : ℚ) ^ (exp - 52 - 1) = 2 * (2 : ℚ) ^ (exp - 54) := by
    have : exp - 52 - 1 = 1 + (exp - 54) := by ring
    rw [this, zpow_add₀ h2]
    norm_num
  have e54 : (2 : ℚ) ^ (exp - 1 - 52 - 1) = (2 : ℚ) ^ (exp - 54) := by
    have : exp - 1 - 52 - 1 = exp - 54 := by ring
    rw [this]
  have hu : ((decimal.Assign (mant * 2 + 1)).Shift (exp - 52 - 1)).val
      = (4 * (mant : ℚ) + 2) * (2 : ℚ) ^ (exp - 54) := by
    rw [u3, e53]
    push_cast
    ring
  have hcond : (2 ^ 52 < mant ∨ exp = -1023 + 1) ↔ (2 ^ 52 < mant ∨ exp = -1022) := by
    constructor <;> (rintro (h | h) <;> [exact Or.inl h; exact Or.inr (by omega)])
  have hl : ((decimal.Assign ((if 2 ^ 52 < mant ∨ exp = -1023 + 1 then mant - 1
          else mant * 2 - 1) * 2 + 1)).Shift
        ((if 2 ^ 52 < mant ∨ exp = -1023 + 1 then exp else exp - 1) - 52 - 1)).val
      = (if 2 ^ 52 < mant ∨ exp = -1022 then 4 * (mant : ℚ) - 2 else 4 * (mant : ℚ) - 1)
        * (2 : ℚ) ^ (exp - 54) := by
    rw [l3]
    by_cases hc : 2 ^ 52 < mant ∨ exp = -1023 + 1
    · rw [if_pos hc, if_pos hc, if_pos (hcond.mp hc), e53]
      have hcast : (((mant - 1) * 2 + 1 : Nat) : ℚ) = 2 * (mant : ℚ) - 1 := by
        have : (mant - 1) * 2 + 1 + 1 = 2 * mant := by omega
        have hq : (((mant - 1) * 2 + 1 + 1 : Nat) : ℚ) = ((2 * mant : Nat) : ℚ) := by
          rw [this]
        push_cast at hq ⊢
        linarith
      rw [hcast]
      ring
    · rw [if_neg hc, if_neg hc, if_neg (fun h => hc (hcond.mpr h)), e54]
      have hcast : (((mant * 2 - 1) * 2 + 1 : Nat) : ℚ) = 4 * (mant : ℚ) - 1 := by
        have : (mant * 2 - 1) * 2 + 1 + 1 = 4 * mant := by omega
        have hq : (((mant * 2 - 1) * 2 + 1 + 1 : Nat) : ℚ) = ((4 * mant : Nat) : ℚ) := by
          rw [this]
        push_cast at hq ⊢
        linarith
      rw [hcast]
  rw [hl] at s3 s5
  rw [hu] at s4 s5
  refine ⟨s1, s2, s3, s4, ?_⟩
  intro hodd
  apply s5
  simp only [beq_eq_false_iff_ne, ne_eq]
  omega

/-- The decimal point of the exact expansion of a finite non-zero binary64 value. -/
theorem Shift_dp_range (mant : Nat) (exp : Int) (hm0 : 0 < mant) (hm1 : mant < 2 ^ 53)
    (he0 : -1022 ≤ exp) (he1 : exp ≤ 1023) :
    -324 < ((decimal.Assign mant).Shift (exp - 52)).dp
    ∧ ((decimal.Assign mant).Shift (exp - 52)).dp < 311 := by
  obtain ⟨d1, _, d3, d4⟩ := Assign_Shift_spec mant hm0 (exp - 52)
  have hlt := val_lt_pow_dp _ d1
  rw [d3] at hlt d4
  have hmq0 : (1 : ℚ) ≤ (mant : ℚ) := by exact_mod_cast hm0
  have hmq1 : (mant : ℚ) < (2 : ℚ) ^ (53 : Int) := by
    have : ((mant : Nat) : ℚ) < ((2 ^ 53 : Nat) : ℚ) := by exact_mod_cast hm1
    rw [zpow_ofNat]
    exact_mod_cast this
  have hp : (0 : ℚ) < (2 : ℚ) ^ (exp - 52) := by positivity
  have hplo : (2 : ℚ) ^ (-1074 : Int) ≤ (2 : ℚ) ^ (exp - 52) :=
    zpow_le_zpow_right₀ (by norm_num) (by omega)
  have hphi : (2 : ℚ) ^ (exp - 52) ≤ (2 : ℚ) ^ (971 : Int) :=
    zpow_le_zpow_right₀ (by norm_num) (by omega)
  have n1 : (10 : ℚ) ^ (-324 : Int) < (2 : ℚ) ^ (-1074 : Int) := by
    rw [zpow_neg, zpow_neg, zpow_ofNat, zpow_ofNat]
    apply inv_strictAnti₀ (by positivity)
    norm_num
  have n2 : (2 : ℚ) ^ (53 : Int) * (2 : ℚ) ^ (971 : Int) < (10 : ℚ) ^ (309 : Int) := by
    rw [zpow_ofNat, zpow_ofNat, zpow_ofNat]
    norm_num
  constructor
  · have h1 : (10 : ℚ) ^ (-324 : Int)
        < (10 : ℚ) ^ ((decimal.Assign mant).Shift (exp - 52)).dp := by
      have : (2 : ℚ) ^ (-1074 : Int) ≤ (mant : ℚ) * (2 : ℚ) ^ (exp - 52) := by nlinarith
      linarith
    exact (zpow_lt_zpow_iff_right₀ (by norm_num : (1 : ℚ) < 10)).mp h1
  · have h1 : (10 : ℚ) ^ (((decimal.Assign mant).Shift (exp - 52)).dp - 1)
        < (10 : ℚ) ^ (309 : Int) := by
      have : (mant : ℚ) * (2 : ℚ) ^ (exp - 52) < (2 : ℚ) ^ (53 : Int) * (2 : ℚ) ^ (971 : Int) := by
        have hpp : (0 : ℚ) < (2 : ℚ) ^ (53 : Int) := by positivity
        nlinarith
      linarith
    have := (zpow_lt_zpow_iff_right₀ (by norm_num : (1 : ℚ) < 10)).mp h1
    omega

/-- Parsing the shortest digits of a finite non-zero binary64 value, given by the mantissa and
exponent that `genericFtoa` decodes, gives the value back. -/
theorem ParseFloat_digits (neg : Bool) (mant : Nat) (exp : Int)
    (hm0 : 0 < mant) (hm1 : mant < 2 ^ 53) (he0 : -1022 ≤ exp) (he1 : exp ≤ 1023)
    (hnorm : exp = -1022 ∨ 2 ^ 52 ≤ mant) :
    ParseFloat (String.mk (formatDigitsG neg
        (roundShortest ((decimal.Assign mant).Shift (exp - 52)) mant exp)))
      = some ⟨(if neg then 2 ^ 63 else 0) + ((exp + 1022).toNat * 2 ^ 52 + mant)⟩ := by
  obtain ⟨b1, b2, b3, b4, b5⟩ := roundShortest_bounds mant exp hm0
  obtain ⟨r1, r2⟩ := Shift_dp_range mant exp hm0 hm1 he0 he1
  have hpos : 0 < (roundShortest ((decimal.Assign mant).Shift (exp - 52)) mant exp).val := by
    have hu : (0 : ℚ) < (2 : ℚ) ^ (exp - 54) := by positivity
    have hmq0 : (1 : ℚ) ≤ (mant : ℚ) := by exact_mod_cast hm0
    have hL : 0 < (if 2 ^ 52 < mant ∨ exp = -1022 then 4 * (mant : ℚ) - 2
        else 4 * (mant : ℚ) - 1) := by
      split_ifs <;> linarith
    have := mul_pos hL hu
    linarith
  have hne : (roundShortest ((decimal.Assign mant).Shift (exp - 52)) mant exp).d ≠ [] := by
    intro hnil
    unfold decimal.val at hpos
    rw [hnil] at hpos
    simp [digitsToNat] at hpos
  have hdp : ((roundShortest ((decimal.Assign mant).Shift (exp - 52)) mant exp).dp
      - 1).natAbs < 1000 := by
    omega
  obtain ⟨n, e, hread, hval⟩ := readFloat_formatDigitsG neg _ b1 hne hdp
  unfold ParseFloat
  simp only [hread]
  rw [hval]
  exact float64OfRat_round neg _ mant exp hm0 hm1 he0 he1 hnorm b3 b4 b5

theorem FormatFloat_eq (val : float64) :
    FormatFloat val =
      if val.bits % 2 ^ 64 / 2 ^ 52 % 2 ^ 11 = 2 ^ 11 - 1 then
        if val.bits % 2 ^ 64 % 2 ^ 52 ≠ 0 then "NaN"
        else if (val.bits % 2 ^ 64 / 2 ^ 63 != 0) = true then "-Inf" else "+Inf"
      else
        String.mk (formatDigitsG (val.bits % 2 ^ 64 / 2 ^ 63 != 0)
          (roundShortest
            ((decimal.Assign (if val.bits % 2 ^ 64 / 2 ^ 52 % 2 ^ 11 = 0
                then val.bits % 2 ^ 64 % 2 ^ 52
                else val.bits % 2 ^ 64 % 2 ^ 52 + 2 ^ 52)).Shift
              ((if val.bits % 2 ^ 64 / 2 ^ 52 % 2 ^ 11 = 0 then (1 : Int)
                  else ((val.bits % 2 ^ 64 / 2 ^ 52 % 2 ^ 11 : Nat) : Int)) + -1023 - 52))
            (if val.bits % 2 ^ 64 / 2 ^ 52 % 2 ^ 11 = 0
                then val.bits % 2 ^ 64 % 2 ^ 52
                else val.bits % 2 ^ 64 % 2 ^ 52 + 2 ^ 52)
            ((if val.bits % 2 ^ 64 / 2 ^ 52 % 2 ^ 11 = 0 then (1 : Int)
                else ((val.bits % 2 ^ 64 / 2 ^ 52 % 2 ^ 11 : Nat) : Int)) + -1023))) := by
  rfl

theorem ParseFloat_zero (neg : Bool) :
    ParseFloat (FormatFloat ⟨if neg then 2 ^ 63 else 0⟩) = some ⟨if neg then 2 ^ 63 else 0⟩ := by
  cases neg with
  | false =>
    have hf : FormatFloat ⟨if false = true then 2 ^ 63 else 0⟩ = "0" := by decide
    have hr : readFloat "0".data = some (false, 0, 0) := by decide
    rw [hf]
    unfold ParseFloat
    simp only [hr]
    simp [float64OfRat]
  | true =>
    have hf : FormatFloat ⟨if true = true then 2 ^ 63 else 0⟩ = "-0" := by decide
    have hr : readFloat "-0".data = some (true, 0, 0) := by decide
    rw [hf]
    unfold ParseFloat
    simp only [hr]
    simp [float64OfRat]

/-- Formatting a finite binary64 value and parsing the text gives the value back. -/
theorem ParseFloat_FormatFloat (v : float64) (hv : v.isFinite) :
    ParseFloat (FormatFloat v) = some v := by
  obtain ⟨hb, he⟩ := hv
  obtain ⟨bits⟩ := v
  simp only at hb he
  have hmod : bits % 2 ^ 64 = bits := Nat.mod_eq_of_lt hb
  by_cases hzero : bits % 2 ^ 63 = 0
  · -- the two zeros
    have hneg : bits = if (bits / 2 ^ 63 != 0) = true then 2 ^ 63 else 0 := by
      by_cases hs : bits / 2 ^ 63 = 0
      · simp only [hs, bne_self_eq_false, Bool.false_eq_true, if_false]
        norm_num at hs hzero hb ⊢
        omega
      · have : (bits / 2 ^ 63 != 0) = true := by simpa using hs
        simp only [this, if_true]
        norm_num at hs hzero hb ⊢
        omega
    have := ParseFloat_zero (bits / 2 ^ 63 != 0)
    rw [← hneg] at this
    exact this
  · rw [FormatFloat_eq]
    simp only [hmod]
    rw [if_neg he]
    have hm0 : 0 < (if bits / 2 ^ 52 % 2 ^ 11 = 0 then bits % 2 ^ 52
        else bits % 2 ^ 52 + 2 ^ 52) := by
      split_ifs with h0
      · norm_num at h0 hzero hb ⊢
        omega
      · positivity
    have hm1 : (if bits / 2 ^ 52 % 2 ^ 11 = 0 then bits % 2 ^ 52
        else bits % 2 ^ 52 + 2 ^ 52) < 2 ^ 53 := by
      split_ifs with h0
      · norm_num
        omega
      · norm_num
        omega
    have he0 : (-1022 : Int) ≤ (if bits / 2 ^ 52 % 2 ^ 11 = 0 then (1 : Int)
        else ((bits / 2 ^ 52 % 2 ^ 11 : Nat) : Int)) + -1023 := by
      split_ifs with h0
      · norm_num
      · omega
    have he1 : (if bits / 2 ^ 52 % 2 ^ 11 = 0 then (1 : Int)
        else ((bits / 2 ^ 52 % 2 ^ 11 : Nat) : Int)) + -1023 ≤ 1023 := by
      split_ifs with h0
      · norm_num
      · norm_num at he ⊢
        omega
    have hnorm : (if bits / 2 ^ 52 % 2 ^ 11 = 0 then (1 : Int)
        else ((bits / 2 ^ 52 % 2 ^ 11 : Nat) : Int)) + -1023 = -1022
        ∨ 2 ^ 52 ≤ (if bits / 2 ^ 52 % 2 ^ 11 = 0 then bits % 2 ^ 52
          else bits % 2 ^ 52 + 2 ^ 52) := by
      split_ifs with h0
      · left; norm_num
      · right; omega
    rw [ParseFloat_digits _ _ _ hm0 hm1 he0 he1 hnorm]
    congr 2
    by_cases h0 : bits / 2 ^ 52 % 2 ^ 11 = 0
    · simp only [h0, if_true]
      by_cases hs : bits / 2 ^ 63 = 0
      · simp only [hs, bne_self_eq_false, Bool.false_eq_true, if_false]
        norm_num at hs h0 hb ⊢
        omega
      · have : (bits / 2 ^ 63 != 0) = true := by simpa using hs
        simp only [this, if_true]
        norm_num at hs h0 hb ⊢
        omega
    · simp only [h0, if_false]
      by_cases hs : bits / 2 ^ 63 = 0
      · simp only [hs, bne_self_eq_false, Bool.false_eq_true, if_false]
        norm_num at hs h0 hb he ⊢
        omega
      · have : (bits / 2 ^ 63 != 0) = true := by simpa using hs
        simp only [this, if_true]
        norm_num at hs h0 hb he ⊢
        omega

end stathat
